import Mathlib

/-!
# GameDirectorAI: the JSON extraction, validation and closure-detection core

A shallow embedding of the text scanners, the schema validator and the generation loop of
`GameDirectorSubsystem.cpp` and `LLamaRunnerAsync.cpp`, with the properties proved about them.

Text is modelled as a list of characters (`FString`), positions as natural numbers, and the
`-1` sentinel of the C++ `start` variables as the integer `-1`.  Brace depths are bounded by
the length of the text, which an `int32` length bounds in turn, so no counter can wrap.

The JSON library and the model runtime are not part of the repository.  What the validator
asks of the first is a parameter (`Engine`), what the generation loop asks of the second is a
parameter too (`ModelStub`); the general theorems hold for every engine and every stub, and
the concrete evaluations run on the reference engine `refEngine` and on scripted stubs.
-/

namespace GameDirector

/-- The engine's string type, as the sequence of its characters. -/
abbrev FString := List Char

/-- The literal text of `TEXT("...")`. -/
def TEXT (s : String) : FString := s.toList

/-- `FString::Mid(Start, Count)` for a start inside the text. -/
def Mid (S : FString) (start count : Nat) : FString := (S.drop start).take count

/-! ## `CollectBalancedObjects` (GameDirectorSubsystem.cpp, lines 331-365) -/

/-- The loop of `CollectBalancedObjects`: `rest` is the unread text `P[i..]`, the other
arguments are the loop variables, `OutObjs` the objects added so far. -/
def collectLoop (In : FString) :
    FString → Nat → Bool → Bool → Nat → Int → List FString → List FString
  | [], _, _, _, _, _, OutObjs => OutObjs
  | c :: rest, i, inStr, esc, depth, start, OutObjs =>
    if esc then collectLoop In rest (i + 1) inStr false depth start OutObjs
    else if inStr then
      if c = '\\' then collectLoop In rest (i + 1) inStr true depth start OutObjs
      else if c = '"' then collectLoop In rest (i + 1) false esc depth start OutObjs
      else collectLoop In rest (i + 1) inStr esc depth start OutObjs
    else if c = '"' then collectLoop In rest (i + 1) true esc depth start OutObjs
    else if c = '{' then
      collectLoop In rest (i + 1) inStr esc (depth + 1) (if depth = 0 then (i : Int) else start)
        OutObjs
    else if c = '}' then
      if depth > 0 then
        if depth - 1 = 0 ∧ start ≥ 0 then
          collectLoop In rest (i + 1) inStr esc (depth - 1) (-1)
            (OutObjs ++ [Mid In start.toNat (i - start.toNat + 1)])
        else collectLoop In rest (i + 1) inStr esc (depth - 1) start OutObjs
      else collectLoop In rest (i + 1) inStr esc depth start OutObjs
    else collectLoop In rest (i + 1) inStr esc depth start OutObjs

/-- `CollectBalancedObjects`: every balanced top-level `{...}` substring of `In`, in order. -/
def CollectBalancedObjects (In : FString) : List FString :=
  collectLoop In In 0 false false 0 (-1) []

/-! ## Well-formed JSON text (RFC 8259), as the inputs of the extraction claims -/

/-- JSON insignificant whitespace: space, tab, line feed, carriage return. -/
def IsJsonWs (c : Char) : Prop := c = ' ' ∨ c = '\t' ∨ c = '\n' ∨ c = '\r'

/-- A run of JSON whitespace. -/
def JWs (t : FString) : Prop := ∀ c ∈ t, IsJsonWs c

/-- A non-empty run of decimal digits. -/
def JDigits (t : FString) : Prop := t ≠ [] ∧ ∀ c ∈ t, c.isDigit = true

/-- The integer part of a JSON number: `0`, or a non-zero digit followed by digits. -/
def JInt (t : FString) : Prop :=
  t = ['0'] ∨ ∃ d ds, t = d :: ds ∧ d.isDigit = true ∧ d ≠ '0' ∧ ∀ c ∈ ds, c.isDigit = true

/-- The optional fraction of a JSON number. -/
def JFrac (t : FString) : Prop := t = [] ∨ ∃ ds, t = '.' :: ds ∧ JDigits ds

/-- The optional exponent of a JSON number. -/
def JExp (t : FString) : Prop :=
  t = [] ∨ ∃ e sg ds, t = e :: sg ++ ds ∧ (e = 'e' ∨ e = 'E') ∧
    (sg = [] ∨ sg = ['+'] ∨ sg = ['-']) ∧ JDigits ds

/-- A JSON number: optional minus, integer part, optional fraction, optional exponent. -/
def JNumber (t : FString) : Prop :=
  ∃ sg i f e, t = sg ++ i ++ f ++ e ∧ (sg = [] ∨ sg = ['-']) ∧ JInt i ∧ JFrac f ∧ JExp e

/-- A hexadecimal digit. -/
def IsHex (c : Char) : Prop :=
  c.isDigit = true ∨ ('a' ≤ c ∧ c ≤ 'f') ∨ ('A' ≤ c ∧ c ≤ 'F')

/-- The characters between the quotes of a JSON string literal. -/
inductive JStrBody : FString → Prop
  | nil : JStrBody []
  | unescaped (c : Char) (t : FString) :
      32 ≤ c.toNat → c ≠ '"' → c ≠ '\\' → JStrBody t → JStrBody (c :: t)
  | escape (e : Char) (t : FString) :
      e ∈ ['"', '\\', '/', 'b', 'f', 'n', 'r', 't'] → JStrBody t → JStrBody ('\\' :: e :: t)
  | unicode (h1 h2 h3 h4 : Char) (t : FString) :
      IsHex h1 → IsHex h2 → IsHex h3 → IsHex h4 → JStrBody t →
      JStrBody ('\\' :: 'u' :: h1 :: h2 :: h3 :: h4 :: t)

/-- A JSON string literal, quotes included. -/
def JString (t : FString) : Prop := ∃ b, JStrBody b ∧ t = '"' :: b ++ ['"']

/-- The three sorts of the JSON grammar that refer to each other. -/
inductive JSort where
  | value
  | elements
  | members

/-- The JSON grammar: `JText .value t` says that `t` is a well-formed JSON value,
`.elements` a non-empty comma-separated list of values with their surrounding whitespace,
`.members` a non-empty comma-separated list of `string : value` pairs. -/
inductive JText : JSort → FString → Prop
  | litNull : JText .value ['n', 'u', 'l', 'l']
  | litTrue : JText .value ['t', 'r', 'u', 'e']
  | litFalse : JText .value ['f', 'a', 'l', 's', 'e']
  | number (t : FString) : JNumber t → JText .value t
  | string (t : FString) : JString t → JText .value t
  | emptyArray (w : FString) : JWs w → JText .value ('[' :: w ++ [']'])
  | array (es : FString) : JText .elements es → JText .value ('[' :: es ++ [']'])
  | emptyObject (w : FString) : JWs w → JText .value ('{' :: w ++ ['}'])
  | object (ms : FString) : JText .members ms → JText .value ('{' :: ms ++ ['}'])
  | element (w1 v w2 : FString) :
      JWs w1 → JText .value v → JWs w2 → JText .elements (w1 ++ v ++ w2)
  | elementCons (w1 v w2 es : FString) :
      JWs w1 → JText .value v → JWs w2 → JText .elements es →
      JText .elements (w1 ++ v ++ w2 ++ ',' :: es)
  | member (w1 k w2 w3 v w4 : FString) :
      JWs w1 → JString k → JWs w2 → JWs w3 → JText .value v → JWs w4 →
      JText .members (w1 ++ k ++ w2 ++ ':' :: w3 ++ v ++ w4)
  | memberCons (w1 k w2 w3 v w4 ms : FString) :
      JWs w1 → JString k → JWs w2 → JWs w3 → JText .value v → JWs w4 → JText .members ms →
      JText .members (w1 ++ k ++ w2 ++ ':' :: w3 ++ v ++ w4 ++ ',' :: ms)

/-- A well-formed JSON object text: `{`, then whitespace only or a member list, then `}`. -/
def JObjectText (J : FString) : Prop :=
  ∃ body, J = '{' :: body ++ ['}'] ∧ (JWs body ∨ JText .members body)

/-- Prose that cannot open or close anything: no `"`, no `{`, no `}`. -/
def IsProse (P : FString) : Prop := ∀ c ∈ P, c ≠ '"' ∧ c ≠ '{' ∧ c ≠ '}'

/-! ### What a brace scanner sees of a text -/

/-- The inside of a string literal as a scanner reads it: every quote is escaped. -/
inductive StrBody : FString → Prop
  | nil : StrBody []
  | plain (c : Char) (t : FString) : c ≠ '\\' → c ≠ '"' → StrBody t → StrBody (c :: t)
  | escaped (c : Char) (t : FString) : StrBody t → StrBody ('\\' :: c :: t)

/-- Text that leaves a scanner where it found it: plain characters, whole string literals and
whole brace pairs. -/
inductive Inert : FString → Prop
  | nil : Inert []
  | plain (c : Char) : c ≠ '"' → c ≠ '{' → c ≠ '}' → c ≠ '\\' → Inert [c]
  | str (b : FString) : StrBody b → Inert ('"' :: b ++ ['"'])
  | obj (a : FString) : Inert a → Inert ('{' :: a ++ ['}'])
  | append (a b : FString) : Inert a → Inert b → Inert (a ++ b)


/-! ## The engine's JSON document model

The JSON library belongs to the engine, not to this repository.  Its document model is the
usual one; what it computes on text (`Deserialize`), how it compares strings (`Equals`, the
equality behind `TSet::Contains` and the field map), what it counts as whitespace and which
values its string accessor reads as a string are fields of `Engine`, so that every general
theorem below holds for whatever the engine does there. -/

/-- A JSON value (`FJsonValue`); a number is kept as its lexeme. -/
inductive Json where
  | null
  | bool (b : Bool)
  | number (lexeme : FString)
  | string (s : FString)
  | array (xs : List Json)
  | object (fields : List (FString × Json))

/-- A JSON object (`FJsonObject`): its fields in order. -/
abbrev JObject := List (FString × Json)

/-- The type tags of `EJson`. -/
inductive EJson where
  | Null
  | String
  | Number
  | Boolean
  | Array
  | Object
  deriving DecidableEq

/-- The `Type` tag of a value. -/
def Json.tag : Json → EJson
  | .null => .Null
  | .bool _ => .Boolean
  | .number _ => .Number
  | .string _ => .String
  | .array _ => .Array
  | .object _ => .Object

/-- The engine services the validator calls. -/
structure Engine where
  /-- `FChar::IsWhitespace`. -/
  IsWhitespace : Char → Bool
  /-- `FString` equality, as used for set elements and field names. -/
  Equals : FString → FString → Bool
  /-- `FJsonSerializer::Deserialize` on a reader over the text: the root object, if any. -/
  Deserialize : FString → Option JObject
  /-- `FJsonValue::TryGetString`: the text of a value that reads as a string. -/
  TryGetString : Json → Option FString

/-- `FJsonObject::TryGetField`: the value stored under a field name. -/
def TryGetField (E : Engine) (Obj : JObject) (Key : FString) : Option Json :=
  (Obj.find? (fun kv => E.Equals kv.1 Key)).map (fun kv => kv.2)

/-- `FJsonObject::HasField`. -/
def HasField (E : Engine) (Obj : JObject) (Key : FString) : Bool :=
  (TryGetField E Obj Key).isSome

/-- `FJsonObject::HasTypedField<T>`: the field exists and has type tag `T`. -/
def HasTypedField (E : Engine) (Obj : JObject) (Key : FString) (T : EJson) : Bool :=
  match TryGetField E Obj Key with
  | some v => decide (v.tag = T)
  | none => false

/-- `FJsonObject::TryGetStringField`. -/
def TryGetStringField (E : Engine) (Obj : JObject) (Key : FString) : Option FString :=
  (TryGetField E Obj Key).bind E.TryGetString

/-- `FJsonValue::TryGetArray`: only an array value has one. -/
def TryGetArray : Json → Option (List Json)
  | .array xs => some xs
  | _ => none

/-- `FJsonValue::TryGetObject`: only an object value has one. -/
def TryGetObject : Json → Option JObject
  | .object fs => some fs
  | _ => none

/-- `FJsonObject::TryGetArrayField`. -/
def TryGetArrayField (E : Engine) (Obj : JObject) (Key : FString) : Option (List Json) :=
  (TryGetField E Obj Key).bind TryGetArray

/-- `FJsonObject::TryGetObjectField`. -/
def TryGetObjectField (E : Engine) (Obj : JObject) (Key : FString) : Option JObject :=
  (TryGetField E Obj Key).bind TryGetObject

/-- `FJsonValue::AsObject` followed by the caller's `IsValid` test: the object of an object
value.  For any other value the element is rejected by the caller, at the `IsValid` test or,
where the engine hands back an empty object instead, at the first required field. -/
def AsObject (v : Json) : Option JObject := TryGetObject v

/-- `FString::TrimStartAndEnd`. -/
def TrimStartAndEnd (E : Engine) (S : FString) : FString :=
  ((S.dropWhile E.IsWhitespace).reverse.dropWhile E.IsWhitespace).reverse

/-- The decimal digits of `%d` for a loop index. -/
def fmtInt (i : Nat) : FString := Nat.toDigits 10 i

/-! ## `ExtractStrictJSONObject` (LLamaRunnerAsync.cpp, lines 24-85) -/

/-- What `ExtractStrictJSONObject` hands back: its return value, `Out` (left empty when
nothing is found) and `*OutErr`. -/
structure ExtractResult where
  found : Bool
  Out : FString
  OutErr : FString

/-- The depth after a `}`: `if (depth > 0) depth--`. -/
def closeDepth (depth : Nat) : Nat := if depth > 0 then depth - 1 else depth

/-- The inner loop over `S[i+1..]` (lines 68-77): what is written to `*OutErr` when an object
has been found and `tail` follows it. -/
def trailingErr (E : Engine) (tail : FString) : FString :=
  if tail.all E.IsWhitespace then [] else TEXT "Trailing non-whitespace after JSON object."

/-- The loop of `ExtractStrictJSONObject`: `rest` is the unread text `S[i..]`. -/
def extractLoop (E : Engine) (In : FString) :
    FString → Nat → Bool → Bool → Nat → Int → ExtractResult
  | [], _, _, _, depth, _ =>
    ⟨false, [],
      if depth > 0 then TEXT "Unclosed JSON object." else TEXT "No JSON object found."⟩
  | c :: rest, i, bInStr, bEsc, depth, start =>
    if bEsc then extractLoop E In rest (i + 1) bInStr false depth start
    else if c = '\\' then extractLoop E In rest (i + 1) bInStr true depth start
    else if c = '"' then extractLoop E In rest (i + 1) (!bInStr) bEsc depth start
    else if bInStr then extractLoop E In rest (i + 1) bInStr bEsc depth start
    else if c = '{' then
      extractLoop E In rest (i + 1) bInStr bEsc (depth + 1)
        (if depth = 0 then (i : Int) else start)
    else if c = '}' then
      if closeDepth depth = 0 ∧ start ≥ 0 then
        ⟨true, Mid In start.toNat (i - start.toNat + 1), trailingErr E rest⟩
      else extractLoop E In rest (i + 1) bInStr bEsc (closeDepth depth) start
    else extractLoop E In rest (i + 1) bInStr bEsc depth start

/-- `ExtractStrictJSONObject`: the first balanced top-level object of `In`. -/
def ExtractStrictJSONObject (E : Engine) (In : FString) : ExtractResult :=
  extractLoop E In In 0 false false 0 (-1)

/-! ## `IsValidDirectorJSON` (LLamaRunnerAsync.cpp, lines 88-319) -/

/-- `RequireString`: `none` when it returns true, otherwise the error it writes. -/
def RequireString (E : Engine) (Obj : JObject) (Key : FString) : Option FString :=
  match TryGetStringField E Obj Key with
  | none => some (TEXT "Missing or empty string field '" ++ Key ++ TEXT "'.")
  | some Tmp =>
    if (TrimStartAndEnd E Tmp).isEmpty then
      some (TEXT "Missing or empty string field '" ++ Key ++ TEXT "'.")
    else none

/-- `OptionalStringNonEmpty`. -/
def OptionalStringNonEmpty (E : Engine) (Obj : JObject) (Key : FString) : Bool :=
  match TryGetStringField E Obj Key with
  | none => false
  | some Tmp => !(TrimStartAndEnd E Tmp).isEmpty

/-- `IsInSet`: `Allowed.Contains(Value)`. -/
def IsInSet (E : Engine) (Value : FString) (Allowed : List FString) : Bool :=
  Allowed.any (fun a => E.Equals a Value)

/-- The set `kAllowedIntents`. -/
def kAllowedIntents : List FString :=
  [TEXT "offer_quest", TEXT "warn", TEXT "give_clue", TEXT "continue", TEXT "escalate",
    TEXT "deescalate", TEXT "spawn_event"]

/-- The set `kAllowedTools`. -/
def kAllowedTools : List FString :=
  [TEXT "QuestPatch", TEXT "SpawnEncounter", TEXT "SetFlag", TEXT "GiveItem",
    TEXT "WeatherControl", TEXT "ForeshadowEvent", TEXT "TensionMeterAdjust"]

/-- The `intent` check (lines 149-166): `none` when it passes, otherwise the error. -/
def checkIntent (E : Engine) (Root : JObject) : Option FString :=
  match TryGetStringField E Root (TEXT "intent") with
  | none => some (TEXT "Missing 'intent' (string).")
  | some Intent =>
    if IsInSet E (TrimStartAndEnd E Intent) kAllowedIntents then none
    else some (TEXT "Invalid 'intent': " ++ TrimStartAndEnd E Intent)

/-- The loop over `tool_calls` (lines 186-213), from index `i` on. -/
def toolCallsLoop (E : Engine) : List Json → Nat → Option FString
  | [], _ => none
  | v :: rest, i =>
    match AsObject v with
    | none => some (TEXT "tool_calls[" ++ fmtInt i ++ TEXT "] is not an object.")
    | some Call =>
      match TryGetStringField E Call (TEXT "name") with
      | none => some (TEXT "tool_calls[" ++ fmtInt i ++ TEXT "].name missing.")
      | some Name =>
        if IsInSet E Name kAllowedTools then
          match TryGetObjectField E Call (TEXT "args") with
          | none => some (TEXT "tool_calls[" ++ fmtInt i ++ TEXT "].args must be an object.")
          | some _ => toolCallsLoop E rest (i + 1)
        else
          some (TEXT "tool_calls[" ++ fmtInt i ++ TEXT "].name '" ++ Name ++
            TEXT "' not allowed.")

/-- The `tool_calls` section (lines 170-220). -/
def checkToolCalls (E : Engine) (Root : JObject) : Option FString :=
  if HasTypedField E Root (TEXT "tool_calls") EJson.Array then
    match TryGetArrayField E Root (TEXT "tool_calls") with
    | none => some (TEXT "'tool_calls' present but not an array.")
    | some Calls => toolCallsLoop E Calls 0
  else none

/-- The loop over `dialogue.lines` (lines 253-261), from index `i` on. -/
def linesLoop (E : Engine) : List Json → Nat → Option FString
  | [], _ => none
  | v :: rest, i =>
    match E.TryGetString v with
    | none => some (TEXT "'dialogue.lines[" ++ fmtInt i ++ TEXT "]' must be a non-empty string.")
    | some L =>
      if (TrimStartAndEnd E L).isEmpty then
        some (TEXT "'dialogue.lines[" ++ fmtInt i ++ TEXT "]' must be a non-empty string.")
      else linesLoop E rest (i + 1)

/-- The body of the `dialogue` section for a dialogue object (lines 232-261). -/
def checkDialogueObject (E : Engine) (Dlg : JObject) : Option FString :=
  match TryGetStringField E Dlg (TEXT "speaker") with
  | none => some (TEXT "'dialogue.speaker' is required and must be non-empty.")
  | some Speaker =>
    if (TrimStartAndEnd E Speaker).isEmpty then
      some (TEXT "'dialogue.speaker' is required and must be non-empty.")
    else if HasField E Dlg (TEXT "emote") && !OptionalStringNonEmpty E Dlg (TEXT "emote") then
      some (TEXT "'dialogue.emote' must be a non-empty string if present.")
    else
      match TryGetArrayField E Dlg (TEXT "lines") with
      | none => some (TEXT "'dialogue.lines' must be a non-empty array of strings.")
      | some Lines =>
        if Lines.length = 0 then
          some (TEXT "'dialogue.lines' must be a non-empty array of strings.")
        else linesLoop E Lines 0

/-- The `dialogue` section (lines 222-262). -/
def checkDialogue (E : Engine) (Root : JObject) : Option FString :=
  if HasTypedField E Root (TEXT "dialogue") EJson.Object then
    match TryGetObjectField E Root (TEXT "dialogue") with
    | none => some (TEXT "'dialogue' must be an object.")
    | some Dlg => checkDialogueObject E Dlg
  else none

/-- The loop over `addObjectives` (lines 287-297), from index `i` on. -/
def objectivesLoop (E : Engine) : List Json → Nat → Option FString
  | [], _ => none
  | v :: rest, i =>
    match AsObject v with
    | none =>
      some (TEXT "'quest_patch.addObjectives[" ++ fmtInt i ++ TEXT "]' must be an object.")
    | some O =>
      match RequireString E O (TEXT "id") with
      | some err => some (err ++ TEXT " (in addObjectives)")
      | none =>
        match RequireString E O (TEXT "desc") with
        | some err => some (err ++ TEXT " (in addObjectives)")
        | none => objectivesLoop E rest (i + 1)

/-- The body of the `quest_patch` section for a quest-patch object (lines 274-299). -/
def checkQuestPatchObject (E : Engine) (QP : JObject) : Option FString :=
  if HasField E QP (TEXT "questId") || HasField E QP (TEXT "addObjectives") then
    match RequireString E QP (TEXT "questId") with
    | some err => some err
    | none =>
      if HasTypedField E QP (TEXT "addObjectives") EJson.Array then
        match TryGetArrayField E QP (TEXT "addObjectives") with
        | none => some (TEXT "'quest_patch.addObjectives' must be an array.")
        | some Objs => objectivesLoop E Objs 0
      else none
  else none

/-- The `quest_patch` section (lines 264-300). -/
def checkQuestPatch (E : Engine) (Root : JObject) : Option FString :=
  if HasTypedField E Root (TEXT "quest_patch") EJson.Object then
    match TryGetObjectField E Root (TEXT "quest_patch") with
    | none => some (TEXT "'quest_patch' must be an object.")
    | some QP => checkQuestPatchObject E QP
  else none

/-- The five keys of `RequiredTopKeys`. -/
def RequiredTopKeys : List FString :=
  [TEXT "intent", TEXT "reason", TEXT "tool_calls", TEXT "dialogue", TEXT "quest_patch"]

/-- How many of `RequiredTopKeys` the root has (`PresentKeyCount`). -/
def PresentKeyCount (E : Engine) (Root : JObject) : Nat :=
  (RequiredTopKeys.filter (fun K => HasField E Root K)).length

/-- The guard against skeletal stubs (lines 302-316). -/
def checkSkeletal (E : Engine) (Root : JObject) : Option FString :=
  if PresentKeyCount E Root < 3 then
    some (TEXT "JSON too skeletal: missing several required sections.")
  else none

/-- The schema checks of `IsValidDirectorJSON` on the parsed root, in source order: the first
error, or `none` when every check passes. -/
def schemaChecks (E : Engine) (Root : JObject) : Option FString :=
  match checkIntent E Root with
  | some err => some err
  | none =>
    match RequireString E Root (TEXT "reason") with
    | some err => some err
    | none =>
      match checkToolCalls E Root with
      | some err => some err
      | none =>
        match checkDialogue E Root with
        | some err => some err
        | none =>
          match checkQuestPatch E Root with
          | some err => some err
          | none => checkSkeletal E Root

/-- What `IsValidDirectorJSON` hands back: its return value and its two out-parameters. -/
structure ValidationResult where
  ok : Bool
  OutCleanedJSON : FString
  OutError : FString
  deriving DecidableEq

/-- The part of `IsValidDirectorJSON` that follows the extraction (lines 129-318), on the
extracted text `Out`, which is what `OutCleanedJSON` holds from there on. -/
def validateExtracted (E : Engine) (Out : FString) : ValidationResult :=
  if Out.length < 20 then ⟨false, Out, TEXT "JSON object too short/minimal to be valid."⟩
  else
    match E.Deserialize Out with
    | none => ⟨false, Out, TEXT "JSON parse failed (malformed)."⟩
    | some Root =>
      match schemaChecks E Root with
      | some err => ⟨false, Out, err⟩
      | none => ⟨true, Out, []⟩

/-- `LLamaRunnerAsync::IsValidDirectorJSON`. -/
def IsValidDirectorJSON (E : Engine) (RawText : FString) : ValidationResult :=
  if (ExtractStrictJSONObject E RawText).found then
    validateExtracted E (ExtractStrictJSONObject E RawText).Out
  else
    ⟨false, [],
      if (ExtractStrictJSONObject E RawText).OutErr.isEmpty then
        TEXT "Failed to extract JSON object."
      else (ExtractStrictJSONObject E RawText).OutErr⟩

/-! ## A reference engine

The reference engine is what the concrete evaluations below run on: a strict RFC 8259 reader,
exact string comparison, ASCII whitespace, and a string accessor that reads string values.
The general theorems do not depend on it. -/

/-- ASCII whitespace: space, tab, line feed, vertical tab, form feed, carriage return. -/
def asciiWhitespace (c : Char) : Bool :=
  c = ' ' || c = '\t' || c = '\n' || c = '\x0b' || c = '\x0c' || c = '\r'

/-- JSON whitespace, as a test. -/
def isJsonWs (c : Char) : Bool := c = ' ' || c = '\t' || c = '\n' || c = '\r'

/-- The value of a hexadecimal digit. -/
def hexVal (c : Char) : Option Nat :=
  if '0' ≤ c ∧ c ≤ '9' then some (c.toNat - '0'.toNat)
  else if 'a' ≤ c ∧ c ≤ 'f' then some (c.toNat - 'a'.toNat + 10)
  else if 'A' ≤ c ∧ c ≤ 'F' then some (c.toNat - 'A'.toNat + 10)
  else none

/-- Reads a string literal after its opening quote: the decoded text and what follows the
closing quote. -/
def readStringBody : FString → Option (FString × FString)
  | [] => none
  | '"' :: r => some ([], r)
  | '\\' :: 'u' :: a :: b :: c :: d :: r =>
    match hexVal a, hexVal b, hexVal c, hexVal d, readStringBody r with
    | some x, some y, some z, some w, some (s, r') =>
      some (Char.ofNat (((x * 16 + y) * 16 + z) * 16 + w) :: s, r')
    | _, _, _, _, _ => none
  | '\\' :: e :: r =>
    match readStringBody r with
    | none => none
    | some (s, r') =>
      if e = '"' then some ('"' :: s, r')
      else if e = '\\' then some ('\\' :: s, r')
      else if e = '/' then some ('/' :: s, r')
      else if e = 'b' then some ('\x08' :: s, r')
      else if e = 'f' then some ('\x0c' :: s, r')
      else if e = 'n' then some ('\n' :: s, r')
      else if e = 'r' then some ('\r' :: s, r')
      else if e = 't' then some ('\t' :: s, r')
      else none
  | c :: r =>
    if c = '\\' ∨ c.toNat < 32 then none
    else
      match readStringBody r with
      | none => none
      | some (s, r') => some (c :: s, r')

/-- Splits off a non-empty run of digits. -/
def readDigits (t : FString) : Option (FString × FString) :=
  if (t.takeWhile Char.isDigit).isEmpty then none
  else some (t.takeWhile Char.isDigit, t.dropWhile Char.isDigit)

/-- Reads the integer part of a number. -/
def readInt : FString → Option (FString × FString)
  | '0' :: r => some (['0'], r)
  | t => readDigits t

/-- Reads the optional fraction of a number. -/
def readFrac : FString → Option (FString × FString)
  | '.' :: r => (readDigits r).map (fun p => ('.' :: p.1, p.2))
  | t => some ([], t)

/-- Reads the digits of an exponent after its `e`, with an optional sign. -/
def readExpDigits : FString → Option (FString × FString)
  | '+' :: r => (readDigits r).map (fun p => ('+' :: p.1, p.2))
  | '-' :: r => (readDigits r).map (fun p => ('-' :: p.1, p.2))
  | t => readDigits t

/-- Reads the optional exponent of a number. -/
def readExp : FString → Option (FString × FString)
  | 'e' :: r => (readExpDigits r).map (fun p => ('e' :: p.1, p.2))
  | 'E' :: r => (readExpDigits r).map (fun p => ('E' :: p.1, p.2))
  | t => some ([], t)

/-- Reads an unsigned number: integer part, fraction, exponent. -/
def readUnsigned (t : FString) : Option (FString × FString) :=
  match readInt t with
  | none => none
  | some (i, r1) =>
    match readFrac r1 with
    | none => none
    | some (f, r2) =>
      match readExp r2 with
      | none => none
      | some (e, r3) => some (i ++ f ++ e, r3)

/-- Reads a number: its lexeme and the rest. -/
def readNumber : FString → Option (FString × FString)
  | '-' :: r => (readUnsigned r).map (fun p => ('-' :: p.1, p.2))
  | t => readUnsigned t

/-- Stores a member under its key; a repeated key keeps its last value. -/
def addField (fs : JObject) (k : FString) (v : Json) : JObject :=
  fs.filter (fun kv => kv.1 ≠ k) ++ [(k, v)]

mutual
/-- Reads one JSON value at the head of the text; `fuel` bounds the nesting and the number
of members read. -/
def readValue : Nat → FString → Option (Json × FString)
  | 0, _ => none
  | fuel + 1, t =>
    match t with
    | '{' :: r =>
      match r.dropWhile isJsonWs with
      | '}' :: r' => some (Json.object [], r')
      | r' => (readMembers fuel [] r').map (fun p => (Json.object p.1, p.2))
    | '[' :: r =>
      match r.dropWhile isJsonWs with
      | ']' :: r' => some (Json.array [], r')
      | r' => (readElements fuel r').map (fun p => (Json.array p.1, p.2))
    | '"' :: r => (readStringBody r).map (fun p => (Json.string p.1, p.2))
    | 't' :: 'r' :: 'u' :: 'e' :: r => some (Json.bool true, r)
    | 'f' :: 'a' :: 'l' :: 's' :: 'e' :: r => some (Json.bool false, r)
    | 'n' :: 'u' :: 'l' :: 'l' :: r => some (Json.null, r)
    | t' => (readNumber t').map (fun p => (Json.number p.1, p.2))
/-- Reads a non-empty list of elements up to and including the closing `]`. -/
def readElements : Nat → FString → Option (List Json × FString)
  | 0, _ => none
  | fuel + 1, t =>
    match readValue fuel (t.dropWhile isJsonWs) with
    | none => none
    | some (v, r) =>
      match r.dropWhile isJsonWs with
      | ',' :: r' => (readElements fuel r').map (fun p => (v :: p.1, p.2))
      | ']' :: r' => some ([v], r')
      | _ => none
/-- Reads a non-empty list of members up to and including the closing `}`; `acc` holds the
members read so far. -/
def readMembers : Nat → JObject → FString → Option (JObject × FString)
  | 0, _, _ => none
  | fuel + 1, acc, t =>
    match t.dropWhile isJsonWs with
    | '"' :: r =>
      match readStringBody r with
      | none => none
      | some (k, r1) =>
        match r1.dropWhile isJsonWs with
        | ':' :: r2 =>
          match readValue fuel (r2.dropWhile isJsonWs) with
          | none => none
          | some (v, r3) =>
            match r3.dropWhile isJsonWs with
            | ',' :: r4 => readMembers fuel (addField acc k v) r4
            | '}' :: r4 => some (addField acc k v, r4)
            | _ => none
        | _ => none
    | _ => none
end

/-- The reference reader: the text is whitespace, one JSON object, whitespace. -/
def readObject (t : FString) : Option JObject :=
  match readValue (t.length + 1) (t.dropWhile isJsonWs) with
  | some (Json.object fs, r) => if r.all isJsonWs then some fs else none
  | _ => none

/-- The reference engine. -/
def refEngine : Engine where
  IsWhitespace := asciiWhitespace
  Equals := fun a b => decide (a = b)
  Deserialize := readObject
  TryGetString := fun v => match v with
    | Json.string s => some s
    | _ => none

/-- The end-to-end scenario object of the specification. -/
def scenarioJSON : FString :=
  TEXT ("\x7b\"intent\":\"warn\",\"reason\":\"storm approaching\"," ++
    "\"tool_calls\":[\x7b\"name\":\"WeatherControl\",\"args\":\x7b\"preset\":\"overcast\"\x7d\x7d]," ++
    "\"dialogue\":\x7b\"speaker\":\"Villager\",\"emote\":\"wary\",\"lines\":[\"Storm's coming.\"]\x7d," ++
    "\"quest_patch\":\x7b\x7d\x7d")

/-! ## The closure detectors of `GenerateJSON` (LLamaRunnerAsync.cpp, lines 589-640, 830-845)

The stream is a `std::string`; it is modelled as the text it converts to, so that
`UTF8_TO_TCHAR` is the identity. -/

/-- The verdicts of `CheckJsonClosure`. -/
inductive EJsonProbe where
  | None
  | ClosedValid
  | ClosedInvalid
  deriving DecidableEq

/-- The loop of `CheckJsonClosure`: `rest` is the unread stream `s[i..]`. -/
def checkClosureLoop (E : Engine) (s : FString) :
    FString → Nat → Nat → Bool → Bool → Bool → Int → EJsonProbe
  | [], _, _, _, _, _, _ => EJsonProbe.None
  | ch :: rest, i, depth, in_q, escp, seen_open, start =>
    if escp then checkClosureLoop E s rest (i + 1) depth in_q false seen_open start
    else if ch = '\\' then checkClosureLoop E s rest (i + 1) depth in_q true seen_open start
    else if ch = '"' then checkClosureLoop E s rest (i + 1) depth (!in_q) escp seen_open start
    else if in_q then checkClosureLoop E s rest (i + 1) depth in_q escp seen_open start
    else if ch = '{' then
      if depth = 0 then checkClosureLoop E s rest (i + 1) (depth + 1) in_q escp true (i : Int)
      else checkClosureLoop E s rest (i + 1) (depth + 1) in_q escp seen_open start
    else if ch = '}' then
      if seen_open = true ∧ closeDepth depth = 0 ∧ start ≥ 0 then
        if (IsValidDirectorJSON E (Mid s start.toNat (i + 1 - start.toNat))).ok then
          EJsonProbe.ClosedValid
        else EJsonProbe.ClosedInvalid
      else checkClosureLoop E s rest (i + 1) (closeDepth depth) in_q escp seen_open start
    else checkClosureLoop E s rest (i + 1) depth in_q escp seen_open start

/-- The lambda `CheckJsonClosure` of `GenerateJSON`. -/
def CheckJsonClosure (E : Engine) (s : FString) : EJsonProbe :=
  checkClosureLoop E s s 0 0 false false false (-1)

/-- The loop of the lambda `json_done`. -/
def jsonDoneLoop : FString → Nat → Bool → Bool → Bool → Bool
  | [], _, _, _, _ => false
  | ch :: rest, depth, in_q, escp, seen_open =>
    if escp then jsonDoneLoop rest depth in_q false seen_open
    else if ch = '\\' then jsonDoneLoop rest depth in_q true seen_open
    else if ch = '"' then jsonDoneLoop rest depth (!in_q) escp seen_open
    else if in_q then jsonDoneLoop rest depth in_q escp seen_open
    else if ch = '{' then jsonDoneLoop rest (depth + 1) in_q escp true
    else if ch = '}' then
      if seen_open = true ∧ closeDepth depth = 0 then true
      else jsonDoneLoop rest (closeDepth depth) in_q escp seen_open
    else jsonDoneLoop rest depth in_q escp seen_open

/-- The lambda `json_done` of `GenerateJSON`: has a top-level object closed in the stream? -/
def json_done (s : FString) : Bool := jsonDoneLoop s 0 false false false

/-! ## The generation loop of `GenerateJSON` (LLamaRunnerAsync.cpp, lines 847-897) -/

/-- A model stub: what the loop asks of the model engine.  `σ` is the state of the context
(past tokens, logits, random source). -/
structure ModelStub (σ : Type) where
  /-- `llama_vocab_n_tokens`. -/
  n_vocab : Int
  /-- Does `llama_get_logits_ith(Ctx, -1)` return logits? -/
  has_logits : σ → Bool
  /-- The id the sampler picks from the current logits. -/
  pick : σ → Int
  /-- `llama_vocab_is_eog`. -/
  is_eog : Int → Bool
  /-- The text of `llama_token_to_piece`, empty when it reports no bytes. -/
  token_to_piece : Int → FString
  /-- `llama_decode` of the one-token batch `(token, pos)`: the next state, or `none` when the
  call fails. -/
  decode : σ → Int → Int → Option σ

/-- The variables of the loop. -/
structure GenState (σ : Type) where
  ctx : σ
  stream : FString
  out_tokens : List Int
  cur_pos : Int
  deriving DecidableEq

/-- Why the loop was left. -/
inductive StopReason where
  | NullLogits
  | InvalidToken
  | EndOfGeneration
  | JsonDone
  | DecodeFailed
  | Budget
  deriving DecidableEq

/-- The loop `for (i = 0; i < max_new; ++i)` with `steps` iterations left: the variables when
it is left and why. -/
def generateLoop {σ : Type} (M : ModelStub σ) : Nat → GenState σ → GenState σ × StopReason
  | 0, st => (st, StopReason.Budget)
  | steps + 1, st =>
    if M.has_logits st.ctx = false then (st, StopReason.NullLogits)
    else if M.pick st.ctx < 0 ∨ M.pick st.ctx ≥ M.n_vocab then (st, StopReason.InvalidToken)
    else if M.is_eog (M.pick st.ctx) then (st, StopReason.EndOfGeneration)
    else if json_done (st.stream ++ M.token_to_piece (M.pick st.ctx)) then
      (⟨st.ctx, st.stream ++ M.token_to_piece (M.pick st.ctx),
          st.out_tokens ++ [M.pick st.ctx], st.cur_pos⟩, StopReason.JsonDone)
    else
      match M.decode st.ctx (M.pick st.ctx) st.cur_pos with
      | none =>
        (⟨st.ctx, st.stream ++ M.token_to_piece (M.pick st.ctx),
            st.out_tokens ++ [M.pick st.ctx], st.cur_pos + 1⟩, StopReason.DecodeFailed)
      | some ctx' =>
        generateLoop M steps
          ⟨ctx', st.stream ++ M.token_to_piece (M.pick st.ctx),
            st.out_tokens ++ [M.pick st.ctx], st.cur_pos + 1⟩

/-- The generation loop of `GenerateJSON` from a decoded prompt of `tok_count` tokens. -/
def runGeneration {σ : Type} (M : ModelStub σ) (max_new : Int) (ctx : σ) (tok_count : Int) :
    GenState σ × StopReason :=
  generateLoop M max_new.toNat ⟨ctx, [], [], tok_count⟩

/-! ## Index-free readings of the scanners

`openOffset` and `closeOffset` say where the scanners of `ExtractStrictJSONObject`,
`CheckJsonClosure` and `json_done` open and close their first object, without the
bookkeeping of positions; the theorems relate the loops to them. -/

/-- The offset of the first `{` that the scanner reads as a brace, from a state at depth 0. -/
def openOffset : FString → Bool → Bool → Option Nat
  | [], _, _ => none
  | c :: rest, bInStr, bEsc =>
    if bEsc then (openOffset rest bInStr false).map (· + 1)
    else if c = '\\' then (openOffset rest bInStr true).map (· + 1)
    else if c = '"' then (openOffset rest (!bInStr) bEsc).map (· + 1)
    else if bInStr then (openOffset rest bInStr bEsc).map (· + 1)
    else if c = '{' then some 0
    else (openOffset rest bInStr bEsc).map (· + 1)

/-- The offset of the `}` that brings the depth back to 0, from a state inside an object. -/
def closeOffset : FString → Bool → Bool → Nat → Option Nat
  | [], _, _, _ => none
  | c :: rest, bInStr, bEsc, depth =>
    if bEsc then (closeOffset rest bInStr false depth).map (· + 1)
    else if c = '\\' then (closeOffset rest bInStr true depth).map (· + 1)
    else if c = '"' then (closeOffset rest (!bInStr) bEsc depth).map (· + 1)
    else if bInStr then (closeOffset rest bInStr bEsc depth).map (· + 1)
    else if c = '{' then (closeOffset rest bInStr bEsc (depth + 1)).map (· + 1)
    else if c = '}' then
      if closeDepth depth = 0 then some 0
      else (closeOffset rest bInStr bEsc (closeDepth depth)).map (· + 1)
    else (closeOffset rest bInStr bEsc depth).map (· + 1)

/-- The first object of a text as the scanners see it: the offset `j` of its `{` and the
offset `k`, counted from the character after it, of its `}`. -/
def firstSpan (t : FString) : Option (Nat × Nat) :=
  match openOffset t false false with
  | none => none
  | some j =>
    match closeOffset (t.drop (j + 1)) false false 1 with
    | none => none
    | some k => some (j, k)

/-- What `ExtractStrictJSONObject` reports from inside an object, given the offset in the
unread text `rest` of the brace that closes it (`none` when nothing closes it). -/
def extractInside (E : Engine) (In rest : FString) (i : Nat) (start : Int) :
    Option Nat → ExtractResult
  | some k =>
    ⟨true, Mid In start.toNat (i + k - start.toNat + 1), trailingErr E (rest.drop (k + 1))⟩
  | none => ⟨false, [], TEXT "Unclosed JSON object."⟩

/-- What `ExtractStrictJSONObject` reports from outside any object, given the offset in the
unread text `rest` of the brace that opens the first one (`none` when nothing opens). -/
def extractOutside (E : Engine) (In rest : FString) (i : Nat) : Option Nat → ExtractResult
  | some j =>
    extractInside E In (rest.drop (j + 1)) (i + j + 1) ((i + j : Nat) : Int)
      (closeOffset (rest.drop (j + 1)) false false 1)
  | none => ⟨false, [], TEXT "No JSON object found."⟩

/-- The verdict of `CheckJsonClosure` on a closed candidate. -/
def closureVerdict (E : Engine) (Candidate : FString) : EJsonProbe :=
  if (IsValidDirectorJSON E Candidate).ok then EJsonProbe.ClosedValid
  else EJsonProbe.ClosedInvalid

/-- What `CheckJsonClosure` reports from inside an object, given the offset in the unread
stream of the brace that closes it. -/
def closureInside (E : Engine) (s : FString) (i : Nat) (start : Int) : Option Nat → EJsonProbe
  | some k => closureVerdict E (Mid s start.toNat (i + k + 1 - start.toNat))
  | none => EJsonProbe.None

/-- What `CheckJsonClosure` reports from outside any object, given the offset in the unread
stream `rest` of the brace that opens the first one. -/
def closureOutside (E : Engine) (s rest : FString) (i : Nat) : Option Nat → EJsonProbe
  | some j =>
    closureInside E s (i + j + 1) ((i + j : Nat) : Int)
      (closeOffset (rest.drop (j + 1)) false false 1)
  | none => EJsonProbe.None

/-- A balanced object that is not a director decision. -/
def noteJSON : FString := TEXT "\x7b\"note\":\"thinking\"\x7d"

/-- A model stub that first emits a note object and would then emit the scenario object and
stop: token 0 is the note, token 1 the scenario object, token 2 the end of generation.  The
state counts the tokens decoded so far. -/
def noteThenScenarioStub : ModelStub Nat where
  n_vocab := 3
  has_logits := fun _ => true
  pick := fun n => if n = 0 then 0 else if n = 1 then 1 else 2
  is_eog := fun id => decide (id = 2)
  token_to_piece := fun id => if id = 0 then noteJSON else if id = 1 then scenarioJSON else []
  decode := fun n _ _ => some (n + 1)

/-- An accepted object written with whitespace between its tokens. -/
def spacedJSON : FString :=
  TEXT ("\x7b \"intent\" : \"warn\", \"reason\" : \"storm approaching\", " ++
    "\"quest_patch\" : \x7b \x7d \x7d")

/-- An object whose `intent` has blanks around the allowed value. -/
def paddedIntentJSON : FString :=
  TEXT ("\x7b\"intent\":\" warn \",\"reason\":\"storm approaching\"," ++
    "\"quest_patch\":\x7b\x7d\x7d")

/-- An object whose three optional sections are strings. -/
def wrongTypesJSON : FString :=
  TEXT ("\x7b\"intent\":\"warn\",\"reason\":\"storm approaching\"," ++
    "\"tool_calls\":\"x\",\"dialogue\":\"x\",\"quest_patch\":\"x\"\x7d")

/-- An object whose `quest_patch` has a quest id and a string for `addObjectives`. -/
def wrongObjectivesJSON : FString :=
  TEXT ("\x7b\"intent\":\"warn\",\"reason\":\"storm approaching\"," ++
    "\"quest_patch\":\x7b\"questId\":\"q1\",\"addObjectives\":\"x\"\x7d\x7d")

/-- A model stub whose first single-token decode fails: it picks token 0, the text `x`. -/
def decodeFailStub : ModelStub Nat where
  n_vocab := 3
  has_logits := fun _ => true
  pick := fun _ => 0
  is_eog := fun id => decide (id = 2)
  token_to_piece := fun _ => ['x']
  decode := fun _ _ _ => none

/-- An object with a valid intent and reason and none of the three optional sections. -/
def skeletalJSON : FString :=
  TEXT "\x7b\"intent\":\"warn\",\"reason\":\"storm approaching\"\x7d"

/-- The empty object, the text the runner hands back when it has nothing. -/
def emptyObjectJSON : FString := TEXT "\x7b\x7d"

/-- The one tool call of the scenario object. -/
def weatherCallJSON : FString :=
  TEXT "\x7b\"name\":\"WeatherControl\",\"args\":\x7b\"preset\":\"overcast\"\x7d\x7d"

/-! ## The sampler of `GenerateJSON` (LLamaRunnerAsync.cpp, lines 750-812, 856-858)

The logits and probabilities of `sample_topk_topp_temp` are values of a linearly ordered
field `F`: the float comparisons and arithmetic of the code, without rounding and without NaN.
`greedy_pick`, which only compares, is modelled on floats that may be NaN (`FloatVal`).  What
the C++ library does is a parameter (`SamplerLib`): `std::exp`, `FLT_MAX`, and the two
reordering algorithms. -/

/-- A `float` as `greedy_pick` sees it: a number of `F`, or NaN. -/
inductive FloatVal (F : Type) where
  | nan
  | num (x : F)
  deriving DecidableEq

/-- The comparison `a > b` of two floats: false when either is NaN. -/
def FloatVal.gt {F : Type} [LinearOrder F] : FloatVal F → FloatVal F → Bool
  | .num a, .num b => decide (a > b)
  | _, _ => false

/-- The comparison `a >= b` of two floats: false when either is NaN. -/
def FloatVal.ge {F : Type} [LinearOrder F] : FloatVal F → FloatVal F → Bool
  | .num a, .num b => decide (a ≥ b)
  | _, _ => false

/-- The loop of `greedy_pick` from index `i` on: `rest` is `l[i..]`, `m` the largest value seen
and `best` its index. -/
def greedyLoop {F : Type} [LinearOrder F] : List (FloatVal F) → Nat → FloatVal F → Nat → Nat
  | [], _, _, best => best
  | x :: rest, i, m, best =>
    if FloatVal.gt x m = true then greedyLoop rest (i + 1) x i
    else greedyLoop rest (i + 1) m best

/-- The lambda `greedy_pick`: `best` after the loop `if (l[i] > m) { m = l[i]; best = i; }`. -/
def greedy_pick {F : Type} [LinearOrder F] : List (FloatVal F) → Nat
  | [] => 0
  | x :: rest => greedyLoop rest 1 x 0

/-- The C++ library services of the sampler. -/
structure SamplerLib (F : Type) where
  /-- `std::exp`. -/
  exp : F → F
  /-- `FLT_MAX`. -/
  FLT_MAX : F
  /-- `std::nth_element(first, first + k, last, comp)` on the list `first..last`. -/
  nth_element : (Nat → Nat → Bool) → Nat → List Nat → List Nat
  /-- `std::sort(first, last, comp)`. -/
  sort : (Nat → Nat → Bool) → List Nat → List Nat

/-- The contract of the two algorithms that the range of the sampler rests on: each reorders
its input. -/
def SamplerLib.Reorders {F : Type} (L : SamplerLib F) : Prop :=
  (∀ comp k l, (L.nth_element comp k l).Perm l) ∧ (∀ comp l, (L.sort comp l).Perm l)

/-- `std::vector<int>::resize(n)`: cut to `n` elements, or fill up with zeros. -/
def resize (n : Nat) (l : List Nat) : List Nat := l.take n ++ List.replicate (n - l.length) 0

/-- `std::max(a, b)`. -/
def stdMax {F : Type} [LinearOrder F] (a b : F) : F := if a < b then b else a

/-- The element `w[id]` of `work_logits`. -/
def at0 {F : Type} [Zero F] (w : List F) (id : Nat) : F := w.getD id 0

/-- The loop `for (int id : idx) maxl = std::max(maxl, work_logits[id])`. -/
def maxLoop {F : Type} [LinearOrderedField F] (w : List F) : List Nat → F → F
  | [], maxl => maxl
  | id :: rest, maxl => maxLoop w rest (stdMax maxl (at0 w id))

/-- The loop that exponentiates in place and sums: the new `work_logits` and `sum`. -/
def expLoop {F : Type} [LinearOrderedField F] (L : SamplerLib F) (maxl : F) :
    List Nat → List F → F → List F × F
  | [], w, sum => (w, sum)
  | id :: rest, w, sum =>
    expLoop L maxl rest (w.set id (L.exp (at0 w id - maxl)))
      (sum + at0 (w.set id (L.exp (at0 w id - maxl))) id)

/-- The loop `for (int id : idx) work_logits[id] /= sum`. -/
def divLoop {F : Type} [LinearOrderedField F] (sum : F) : List Nat → List F → List F
  | [], w => w
  | id :: rest, w => divLoop sum rest (w.set id (at0 w id / sum))

/-- The top-p loop from position `j`: the `cut` it leaves (`size` when the sum never reaches
`top_p`). -/
def cutLoop {F : Type} [LinearOrderedField F] (w : List F) (top_p : F) (size : Nat) :
    List Nat → Nat → F → Nat
  | [], _, _ => size
  | id :: rest, j, cum =>
    if cum + at0 w id ≥ top_p then j + 1 else cutLoop w top_p size rest (j + 1) (cum + at0 w id)

/-- The draw loop: the first id whose cumulated probability reaches `r`, else `choice`. -/
def drawLoop {F : Type} [LinearOrderedField F] (w : List F) (r : F) :
    List Nat → F → Nat → Nat
  | [], _, choice => choice
  | id :: rest, acc, choice =>
    if r ≤ acc + at0 w id then id else drawLoop w r rest (acc + at0 w id) choice

/-- The value of `K`: `(top_k > 0) ? std::min(top_k, n_vocab) : n_vocab`. -/
def topK (top_k : Int) (n_vocab : Nat) : Nat :=
  if top_k > 0 then min top_k.toNat n_vocab else n_vocab

/-- The index list after the top-k step: `nth_element` by descending scaled logit, then
`resize(K)`. -/
def topKIdx {F : Type} [LinearOrderedField F] (L : SamplerLib F) (w : List F) (top_k : Int)
    (n_vocab : Nat) (idx : List Nat) : List Nat :=
  resize (topK top_k n_vocab)
    (L.nth_element (fun a b => decide (at0 w a > at0 w b)) (topK top_k n_vocab) idx)

/-- The index list after the top-p step on the sorted candidates. -/
def topPIdx {F : Type} [LinearOrderedField F] (w : List F) (top_p : F) (idx : List Nat) :
    List Nat :=
  if top_p > 0 ∧ top_p < 1 then
    if cutLoop w top_p idx.length idx 0 0 < idx.length then
      resize (cutLoop w top_p idx.length idx 0 0) idx
    else idx
  else idx

/-- The lambda `sample_topk_topp_temp` on the logits `logits`, with the uniform draw `r` and
the shared index vector `idx` as it stands on entry: the chosen id and `idx` on return. -/
def sample_topk_topp_temp {F : Type} [LinearOrderedField F] (L : SamplerLib F)
    (logits : List F) (top_k : Int) (top_p temp r : F) (idx : List Nat) : Nat × List Nat :=
  let n_vocab := logits.length
  let w0 := if temp > 0 then logits.map (fun x => x * (1 / temp)) else logits
  let idx1 := topKIdx L w0 top_k n_vocab idx
  let maxl := maxLoop w0 idx1 (-L.FLT_MAX)
  let ws := expLoop L maxl idx1 w0 0
  if ws.2 ≤ 0 then (idx1.headD 0, idx1)
  else
    let w2 := divLoop ws.2 idx1 ws.1
    let idx2 := L.sort (fun a b => decide (at0 w2 a > at0 w2 b)) idx1
    let idx3 := topPIdx w2 top_p idx2
    (drawLoop w2 r idx3 0 (idx3.getLastD 0), List.range n_vocab)

/-- The dispatch of the generation loop: `greedy_pick` when `temp <= 0 && top_k <= 1`,
otherwise `sample_topk_topp_temp`; the logits are numbers of `F`. -/
def pickToken {F : Type} [LinearOrderedField F] (L : SamplerLib F) (logits : List F)
    (top_k : Int) (top_p temp r : F) (idx : List Nat) : Nat × List Nat :=
  if temp ≤ 0 ∧ top_k ≤ 1 then (greedy_pick (logits.map FloatVal.num), idx)
  else sample_topk_topp_temp L logits top_k top_p temp r idx

/-- A rational stand-in for `std::exp`: positive, increasing, with value 1 at 0. -/
def ratExp (x : ℚ) : ℚ := if x ≥ 0 then 1 + x else 1 / (1 - x)

/-- A reference library over the rationals: both algorithms sort the whole list by `comp`,
which is one of the results `std::nth_element` and `std::sort` may give. -/
def refSamplerLib : SamplerLib ℚ where
  exp := ratExp
  FLT_MAX := 340282346638528859811704183484516925440
  nth_element := fun comp _ l => l.insertionSort (fun a b => comp a b = true)
  sort := fun comp l => l.insertionSort (fun a b => comp a b = true)

/-! ## The sanitizer of `GameDirectorSubsystem.cpp` (lines 295-328, 378-385)

`FString::ReplaceInline` is the engine's; it is modelled with the search case it has by default
(`ESearchCase::IgnoreCase`, letters `a`-`z` compared without case): one pass from left to
right, each match replaced and the search resumed after it, the result never searched
again. -/

/-- Two characters compared without case. -/
def sameChar (a b : Char) : Bool := decide (a.toUpper = b.toUpper)

/-- Does `pat` match at the head of `s`, case ignored? -/
def matchesPrefix : FString → FString → Bool
  | [], _ => true
  | _ :: _, [] => false
  | p :: ps, c :: cs => sameChar p c && matchesPrefix ps cs

/-- The pass of `ReplaceInline`: `skip` counts the characters of the current match that are
still to be passed over. -/
def replaceLoop (From To : FString) : FString → Nat → FString
  | [], _ => []
  | _ :: rest, skip + 1 => replaceLoop From To rest skip
  | c :: rest, 0 =>
    if matchesPrefix From (c :: rest) then To ++ replaceLoop From To rest (From.length - 1)
    else c :: replaceLoop From To rest 0

/-- `FString::ReplaceInline(From, To)`; an empty search text changes nothing. -/
def ReplaceInline (From To S : FString) : FString :=
  if From = [] then S else replaceLoop From To S 0

/-- The byte-order mark `0xFEFF`. -/
def BOM : Char := Char.ofNat 0xFEFF

/-- `ReplaceSmartQuotes`. -/
def ReplaceSmartQuotes (S : FString) : FString :=
  ReplaceInline [Char.ofNat 0x2018] ['\'']
    (ReplaceInline [Char.ofNat 0x2019] ['\'']
      (ReplaceInline [Char.ofNat 0x201F] ['"']
        (ReplaceInline [Char.ofNat 0x201E] ['"']
          (ReplaceInline [Char.ofNat 0x201D] ['"']
            (ReplaceInline [Char.ofNat 0x201C] ['"'] S)))))

/-- `StripBackticksAndFences`. -/
def StripBackticksAndFences (S : FString) : FString :=
  ReplaceInline (TEXT "`") [] (ReplaceInline (TEXT "```") [] (ReplaceInline (TEXT "```json") [] S))

/-- `TrimBomAndWhitespace`. -/
def TrimBomAndWhitespace (E : Engine) (S : FString) : FString :=
  match S with
  | [] => TrimStartAndEnd E []
  | c :: rest => if c = BOM then TrimStartAndEnd E rest else TrimStartAndEnd E (c :: rest)

/-- The test of `StripControlChars`: `c >= 32 || c == '\n' || c == '\r' || c == '\t'`. -/
def keptByStripControl (c : Char) : Bool :=
  decide (32 ≤ c.toNat) || c = '\n' || c = '\r' || c = '\t'

/-- `StripControlChars`. -/
def StripControlChars (S : FString) : FString := S.filter keptByStripControl

/-- The four chat markers, in the order `StripChatMarkers` removes them. -/
def chatMarkers : List FString :=
  [TEXT "<|end|>", TEXT "<|start|>", TEXT "<|assistant|>", TEXT "<|user|>"]

/-- `StripChatMarkers`. -/
def StripChatMarkers (S : FString) : FString :=
  ReplaceInline (TEXT "<|user|>") []
    (ReplaceInline (TEXT "<|assistant|>") []
      (ReplaceInline (TEXT "<|start|>") [] (ReplaceInline (TEXT "<|end|>") [] S)))

/-- The sanitizer: the six steps at the head of `ExtractStrictJSONObject`
(GameDirectorSubsystem.cpp, lines 379-385). -/
def sanitize (E : Engine) (Raw : FString) : FString :=
  TrimBomAndWhitespace E
    (StripControlChars
      (StripChatMarkers
        (ReplaceSmartQuotes (StripBackticksAndFences (TrimBomAndWhitespace E Raw)))))

/-- Does `pat` occur somewhere in `s`, case ignored (`FString::Contains`)? -/
def Occurs (pat : FString) : FString → Bool
  | [] => matchesPrefix pat []
  | c :: rest => matchesPrefix pat (c :: rest) || Occurs pat rest

/-- A text with a chat marker wrapped around another. -/
def nestedMarkerText : FString := TEXT "<|en<|end|>d|>"

/-- The typographic quotes that `ReplaceSmartQuotes` replaces: U+201C, U+201D, U+201E, U+201F,
U+2019, U+2018. -/
def smartQuotes : List Char :=
  [Char.ofNat 0x201C, Char.ofNat 0x201D, Char.ofNat 0x201E, Char.ofNat 0x201F,
    Char.ofNat 0x2019, Char.ofNat 0x2018]

/-- A fenced text with a chat marker and blanks around it. -/
def fencedText : FString := TEXT " \x60\x60\x60json ok <|end|> "
/-! ## The subsystem's extractor and decision parser (`GameDirectorSubsystem.cpp`) -/

/-- The JSON writers of the engine, which `src/` does not contain: `Serialize` is
`FJsonSerializer::Serialize` through `TJsonWriter<>` (the default print policy, used by
`ObjectToCompactString`), `SerializeCondensed` the same through
`TCondensedJsonPrintPolicy` (used by `JsonToString`). -/
structure JsonWriter where
  /-- Text of an object under the default print policy. -/
  Serialize : JObject → FString
  /-- Text of an object under the condensed print policy. -/
  SerializeCondensed : JObject → FString

/-- `FString::StartsWith`, which ignores case. -/
def StartsWith (S Prefix : FString) : Bool := matchesPrefix Prefix S

/-- `FString::EndsWith`, which ignores case. -/
def EndsWith (S Suffix : FString) : Bool := matchesPrefix Suffix.reverse S.reverse

/-- Is the first character of the text a closing brace or bracket (`Cand[j]` after the
whitespace run)? -/
def closesNext : FString → Bool
  | [] => false
  | c :: _ => c = '}' || c = ']'

/-- The trailing-comma pass over a candidate: a comma followed, after whitespace, by a closing
brace or bracket is dropped. -/
def commaCleanup (E : Engine) : FString → FString
  | [] => []
  | c :: rest =>
    if c = ',' ∧ closesNext (rest.dropWhile E.IsWhitespace) = true then commaCleanup E rest
    else c :: commaCleanup E rest

/-- The loop over the candidates: the first one that parses after the trailing-comma pass is
serialized. -/
def tryCandidates (E : Engine) (W : JsonWriter) : List FString → Option FString
  | [] => none
  | Cand :: rest =>
    match E.Deserialize (commaCleanup E Cand) with
    | some Obj => some (W.Serialize Obj)
    | none => tryCandidates E W rest

/-- The fast path of the subsystem's extractor: the whole sanitized text, when it starts with
an opening brace, ends with a closing one and parses. -/
def fastPath (E : Engine) (S : FString) : Option JObject :=
  if StartsWith S ['{'] = true ∧ EndsWith S ['}'] = true then E.Deserialize S else none

/-- `ExtractStrictJSONObject` of `GameDirectorSubsystem.cpp`: `none` is the return value
`false`, `some OutJson` the return value `true`. -/
def Subsystem.ExtractStrictJSONObject (E : Engine) (W : JsonWriter) (Raw : FString) :
    Option FString :=
  let S := sanitize E Raw
  match fastPath E S with
  | some Obj => some (W.Serialize Obj)
  | none => tryCandidates E W (CollectBalancedObjects S)

/-- `FToolCall`. -/
structure FToolCall where
  Name : FString
  ArgsJson : FString
  deriving DecidableEq

/-- `FObjective`. -/
structure FObjective where
  Id : FString
  Desc : FString
  deriving DecidableEq

/-- `FDialogue`. -/
structure FDialogue where
  Speaker : FString
  Emote : FString
  Lines : List FString
  deriving DecidableEq

/-- The return value and the out-parameters of `ParseDirectorJSON`. `Json` is written only on
success; on failure the model reports the empty text, which is what every caller passes in. -/
structure ParseResult where
  ok : Bool
  OutIntent : FString
  OutTools : List FToolCall
  OutObjectives : List FObjective
  OutDialogue : FDialogue
  Json : FString
  deriving DecidableEq

/-- One element of `tool_calls`: an element that is not an object is passed over. -/
def parseToolCall (E : Engine) (W : JsonWriter) (V : Json) : Option FToolCall :=
  match AsObject V with
  | none => none
  | some ToolObj =>
    some { Name := (TryGetStringField E ToolObj (TEXT "name")).getD []
           ArgsJson := match TryGetObjectField E ToolObj (TEXT "args") with
             | some Args => W.SerializeCondensed Args
             | none => [] }

/-- The `tool_calls` part of `ParseDirectorJSON`. -/
def parseToolCalls (E : Engine) (W : JsonWriter) (Root : JObject) : List FToolCall :=
  match TryGetArrayField E Root (TEXT "tool_calls") with
  | some ToolCallsArray => ToolCallsArray.filterMap (parseToolCall E W)
  | none => []

/-- The `dialogue` part of `ParseDirectorJSON`. -/
def parseDialogue (E : Engine) (Root : JObject) : FDialogue :=
  match TryGetObjectField E Root (TEXT "dialogue") with
  | some Dlg =>
    { Speaker := (TryGetStringField E Dlg (TEXT "speaker")).getD []
      Emote := (TryGetStringField E Dlg (TEXT "emote")).getD []
      Lines := match TryGetArrayField E Dlg (TEXT "lines") with
        | some LinesArray => LinesArray.filterMap E.TryGetString
        | none => [] }
  | none => { Speaker := [], Emote := [], Lines := [] }

/-- One element of `addObjectives`: an element that is not an object is passed over. -/
def parseObjective (E : Engine) (V : Json) : Option FObjective :=
  match AsObject V with
  | none => none
  | some O =>
    some { Id := (TryGetStringField E O (TEXT "id")).getD []
           Desc := (TryGetStringField E O (TEXT "desc")).getD [] }

/-- The `quest_patch` part of `ParseDirectorJSON`. -/
def parseObjectives (E : Engine) (Root : JObject) : List FObjective :=
  match TryGetObjectField E Root (TEXT "quest_patch") with
  | some QP =>
    match TryGetArrayField E QP (TEXT "addObjectives") with
    | some AddObjs => AddObjs.filterMap (parseObjective E)
    | none => []
  | none => []

/-- The result of `ParseDirectorJSON` when it returns `false`: the out-parameters cleared. -/
def parseFailed : ParseResult :=
  { ok := false, OutIntent := [], OutTools := [], OutObjectives := [],
    OutDialogue := { Speaker := [], Emote := [], Lines := [] }, Json := [] }

/-- The part of `ParseDirectorJSON` after the extraction, on the text `Clean`. -/
def parseClean (E : Engine) (W : JsonWriter) (Clean : FString) : ParseResult :=
  if StartsWith Clean ['{'] = false ∨ EndsWith Clean ['}'] = false then parseFailed
  else
    match E.Deserialize Clean with
    | none => parseFailed
    | some Root =>
      { ok := true
        OutIntent := (TryGetStringField E Root (TEXT "intent")).getD []
        OutTools := parseToolCalls E W Root
        OutObjectives := parseObjectives E Root
        OutDialogue := parseDialogue E Root
        Json := Clean }

/-- `UGameDirectorSubsystem::ParseDirectorJSON`; `Clean` stays empty when the extractor finds
nothing. -/
def ParseDirectorJSON (E : Engine) (W : JsonWriter) (JsonText : FString) : ParseResult :=
  parseClean E W ((Subsystem.ExtractStrictJSONObject E W JsonText).getD [])

/-! ### A reference writer -/

/-- Escapes the characters of a string for a JSON text. -/
def escapeJson : FString → FString
  | [] => []
  | c :: rest =>
    (if c = '"' then ['\\', '"'] else if c = '\\' then ['\\', '\\']
     else if c = '\n' then ['\\', 'n'] else if c = '\r' then ['\\', 'r']
     else if c = '\t' then ['\\', 't'] else [c]) ++ escapeJson rest

mutual
/-- The condensed text of a value. -/
def writeValue : Json → FString
  | Json.null => TEXT "null"
  | Json.bool true => TEXT "true"
  | Json.bool false => TEXT "false"
  | Json.number l => l
  | Json.string s => '"' :: escapeJson s ++ ['"']
  | Json.array xs => '[' :: writeElems xs ++ [']']
  | Json.object fs => '{' :: writeFields fs ++ ['}']
/-- The condensed text of the elements of an array. -/
def writeElems : List Json → FString
  | [] => []
  | [v] => writeValue v
  | v :: w :: rest => writeValue v ++ ',' :: writeElems (w :: rest)
/-- The condensed text of the fields of an object. -/
def writeFields : List (FString × Json) → FString
  | [] => []
  | [(k, v)] => '"' :: escapeJson k ++ '"' :: ':' :: writeValue v
  | (k, v) :: f :: rest =>
    '"' :: escapeJson k ++ '"' :: ':' :: writeValue v ++ ',' :: writeFields (f :: rest)
end

/-- A line break followed by `n` tabs. -/
def newLine (n : Nat) : FString := '\n' :: List.replicate n '\t'

mutual
/-- The indented text of a value at nesting depth `n`. -/
def prettyValue (n : Nat) : Json → FString
  | Json.null => TEXT "null"
  | Json.bool true => TEXT "true"
  | Json.bool false => TEXT "false"
  | Json.number l => l
  | Json.string s => '"' :: escapeJson s ++ ['"']
  | Json.array xs => '[' :: prettyElems n xs ++ newLine n ++ [']']
  | Json.object fs => '{' :: prettyFields n fs ++ newLine n ++ ['}']
/-- The indented text of the elements of an array at nesting depth `n`. -/
def prettyElems (n : Nat) : List Json → FString
  | [] => []
  | [v] => newLine (n + 1) ++ prettyValue (n + 1) v
  | v :: w :: rest => newLine (n + 1) ++ prettyValue (n + 1) v ++ ',' :: prettyElems n (w :: rest)
/-- The indented text of the fields of an object at nesting depth `n`. -/
def prettyFields (n : Nat) : List (FString × Json) → FString
  | [] => []
  | [(k, v)] => newLine (n + 1) ++ '"' :: escapeJson k ++ '"' :: ':' :: ' ' :: prettyValue (n + 1) v
  | (k, v) :: f :: rest =>
    newLine (n + 1) ++ '"' :: escapeJson k ++ '"' :: ':' :: ' ' :: prettyValue (n + 1) v
      ++ ',' :: prettyFields n (f :: rest)
end

/-- A reference writer: one field or element per line, indented by tabs, for `Serialize`;
no white space for `SerializeCondensed`. -/
def refWriter : JsonWriter where
  Serialize := fun Obj => prettyValue 0 (Json.object Obj)
  SerializeCondensed := fun Obj => writeValue (Json.object Obj)


/-- An object with an intent outside the allowed set and a tool outside the allowed set. -/
def danceJSON : FString :=
  TEXT ("\x7b\"intent\":\"dance\",\"reason\":\"because\"," ++
    "\"tool_calls\":[\x7b\"name\":\"FormatDisk\",\"args\":\x7b\x7d\x7d]\x7d")


/-- `FString::TrimEnd`: the text without its trailing whitespace. -/
def TrimEnd (E : Engine) (S : FString) : FString :=
  (S.reverse.dropWhile E.IsWhitespace).reverse

/-- The opening lines of a fence: with or without the `json` tag, with or without a line
break before the object. -/
def fenceOpeners : List FString :=
  [TEXT "```json\n", TEXT "```json", TEXT "```\n", TEXT "```"]

/-- The closing lines of a fence. -/
def fenceClosers : List FString := [TEXT "\n```", TEXT "```"]

/-- What the sanitizer leaves of the text after the scenario object. -/
def sanitizeEnd (E : Engine) (B : FString) : FString :=
  TrimEnd E (StripControlChars (StripChatMarkers
    (ReplaceSmartQuotes (StripBackticksAndFences (TrimEnd E B)))))


/-! ## The synchronous entry point `UGameDirectorSubsystem::Generate` (lines 145-199) -/

/-- `FDirectorDecision`. -/
structure FDirectorDecision where
  Intent : FString
  Reason : FString
  ToolCalls : List FToolCall
  Objectives : List FObjective
  Dialogue : FDialogue
  Response : FString
  deriving DecidableEq

/-- What `Generate` reads and writes of the subsystem, and what it does to the world: is
`Runner` set, the flag `bIsGenerating`, the decisions handed to `OnDirectorDecision.Broadcast`
so far, and the prompts handed to `Runner->GenerateJSON` so far. -/
structure SubsystemState where
  hasRunner : Bool
  bIsGenerating : Bool
  Broadcasts : List FDirectorDecision
  Generations : List FString
  deriving DecidableEq

/-- `UGameDirectorSubsystem::Generate`: its return value and the state it leaves. The text
that `Runner->GenerateJSON` returns for a prompt is the parameter `GenerateJSON`. -/
def Generate (E : Engine) (W : JsonWriter) (GenerateJSON : FString → FString)
    (s : SubsystemState) (Prompt : FString) : Bool × SubsystemState :=
  if s.hasRunner = false then (false, s)
  else if s.bIsGenerating = true then (false, s)
  else
    let s1 : SubsystemState := { s with bIsGenerating := true }
    let Output := GenerateJSON Prompt
    let s2 : SubsystemState := { s1 with Generations := s1.Generations ++ [Prompt] }
    let r := ParseDirectorJSON E W Output
    if r.ok = true then
      (true,
        { s2 with
          Broadcasts := s2.Broadcasts ++
            [{ Intent := r.OutIntent, Reason := [], ToolCalls := r.OutTools,
               Objectives := r.OutObjectives, Dialogue := r.OutDialogue, Response := [] }]
          bIsGenerating := false })
    else (false, { s2 with bIsGenerating := false })

/-! ## The asynchronous entry point `LLamaRunnerAsync::GenerateJSONAsync` (lines 560-575) -/

/-- `FJob`; `OnDone` is `none` for an empty `TFunction`, and callbacks are values of a type
`κ` of the caller. -/
structure FJob (κ : Type) where
  Prompt : FString
  OnDone : Option κ
  Intent : FString

/-- A task handed to `AsyncTask(ENamedThreads::GameThread, ...)`: when it runs it calls
`OnDone(Output)` if `OnDone` is set. -/
structure GameThreadTask (κ : Type) where
  OnDone : Option κ
  Output : FString

/-- What `GenerateJSONAsync` reads and writes: `bInitialized`, whether `Worker` is set, the
worker's `Queue`, the tasks handed to the game thread so far, and how often `WakeEvent` was
triggered. -/
structure RunnerState (κ : Type) where
  bInitialized : Bool
  hasWorker : Bool
  Queue : List (FJob κ)
  GameThreadTasks : List (GameThreadTask κ)
  Wakes : Nat

/-- `FWorker::Enqueue`. -/
def Enqueue {κ : Type} (s : RunnerState κ) (Job : FJob κ) : RunnerState κ :=
  { s with Queue := s.Queue ++ [Job], Wakes := s.Wakes + 1 }

/-- `LLamaRunnerAsync::GenerateJSONAsync`. -/
def GenerateJSONAsync {κ : Type} (s : RunnerState κ) (Prompt : FString) (OnDone : Option κ)
    (Intent : FString) : RunnerState κ :=
  if s.bInitialized = false ∨ s.hasWorker = false then
    { s with GameThreadTasks := s.GameThreadTasks ++ [{ OnDone := OnDone, Output := TEXT "\x7b\x7d" }] }
  else Enqueue s { Prompt := Prompt, OnDone := OnDone, Intent := Intent }

/-- Does the candidate hold a comma that the trailing-comma pass drops: one followed, after
whitespace, by a closing brace or bracket? -/
def hasTrailingComma (E : Engine) : FString → Bool
  | [] => false
  | c :: rest =>
    (decide (c = ',') && closesNext (rest.dropWhile E.IsWhitespace)) || hasTrailingComma E rest

/-- An object with a string that holds a comma right before a closing brace. -/
def commaInStringJSON : FString := TEXT "\x7b\"a\":\"x,\x7d\"\x7d"

/-! ## `SanitizeModelOutputToJsonObject` (`GameDirectorSubsystem.cpp`, lines 15-77) -/

/-- The first loop of `ExtractTopLevelJsonObject`: the index of the first opening brace from
index `i` on and the text from there, or `none` when there is none (`i == N`). -/
def skipToBrace : FString → Nat → Option (Nat × FString)
  | [], _ => none
  | c :: rest, i => if c = '{' then some (i, c :: rest) else skipToBrace rest (i + 1)

/-- The second loop of `ExtractTopLevelJsonObject`: `rest` is the unread text `S[i..]`;
`depth` is a signed integer, which the loop decrements without a test. -/
def topLoop (In : FString) : FString → Nat → Bool → Bool → Int → Nat → Option FString
  | [], _, _, _, _, _ => none
  | c :: rest, i, inStr, esc, depth, start =>
    if esc then topLoop In rest (i + 1) inStr false depth start
    else if c = '\\' then topLoop In rest (i + 1) inStr (if inStr then true else esc) depth start
    else if c = '"' then topLoop In rest (i + 1) (!inStr) esc depth start
    else if inStr then topLoop In rest (i + 1) inStr esc depth start
    else if c = '{' then
      topLoop In rest (i + 1) inStr esc (depth + 1) (if depth = 0 then i else start)
    else if c = '}' then
      if depth - 1 = 0 then some (Mid In start (i - start + 1))
      else topLoop In rest (i + 1) inStr esc (depth - 1) start
    else topLoop In rest (i + 1) inStr esc depth start

/-- `ExtractTopLevelJsonObject`: `none` is the return value `false`. -/
def ExtractTopLevelJsonObject (In : FString) : Option FString :=
  match skipToBrace In 0 with
  | none => none
  | some (i, rest) => topLoop In rest i false false 0 i

/-- The unwrapping of a quoted text in `SanitizeModelOutputToJsonObject`: the outer quotes
dropped, then the five replacements of the escapes. -/
def unwrapQuoted (S : FString) : FString :=
  ReplaceInline ['\\', 't'] ['\t']
    (ReplaceInline ['\\', 'r'] ['\r']
      (ReplaceInline ['\\', 'n'] ['\n']
        (ReplaceInline ['\\', '\\'] ['\\']
          (ReplaceInline ['\\', '"'] ['"'] (Mid S 1 (S.length - 2))))))

/-- `SanitizeModelOutputToJsonObject`. -/
def SanitizeModelOutputToJsonObject (E : Engine) (Raw : FString) : FString :=
  let S := TrimStartAndEnd E
    (ReplaceInline (TEXT "```") [] (ReplaceInline (TEXT "```json") [] Raw))
  if StartsWith S ['{'] = true ∧ EndsWith S ['}'] = true then S
  else
    match ExtractTopLevelJsonObject S with
    | some Extracted => Extracted
    | none =>
      if StartsWith S ['"', '{'] = true ∧ EndsWith S ['}', '"'] = true then
        match ExtractTopLevelJsonObject (unwrapQuoted S) with
        | some Extracted => Extracted
        | none => Raw
      else Raw

/-- The text with every double quote preceded by a backslash. -/
def escapeQuotes : FString → FString
  | [] => []
  | c :: rest => if c = '"' then '\\' :: '"' :: escapeQuotes rest else c :: escapeQuotes rest

/-- A text in double quotes, its own double quotes escaped. -/
def quoted (J : FString) : FString := '"' :: escapeQuotes J ++ ['"']

/-- The temperature step of `sample_topk_topp_temp`: the logits times `1 / temp` when
`temp > 0`, the logits themselves otherwise. -/
def scaledLogits {F : Type} [LinearOrderedField F] (temp : F) (logits : List F) : List F :=
  if temp > 0 then logits.map (fun x => x * (1 / temp)) else logits

/-- The contract of `std::nth_element(first, first + k, last, comp)` for the comparators of
the sampler: afterwards no element from position `k` on goes before an element of the first
`k` in the order `comp`. -/
def SamplerLib.Selects {F : Type} [LinearOrderedField F] (L : SamplerLib F) : Prop :=
  ∀ (w : List F) (k : Nat) (l : List Nat),
    ∀ a ∈ (L.nth_element (fun a b => decide (at0 w a > at0 w b)) k l).take k,
      ∀ b ∈ (L.nth_element (fun a b => decide (at0 w a > at0 w b)) k l).drop k,
        ¬ (at0 w b > at0 w a)

/-- The state of `sample_topk_topp_temp` when the draw is made, on the path `sum > 0`:
`work_logits`, which holds the probabilities of the candidates, and `idx`, the candidates
kept by the top-k and top-p steps, in descending order of probability. -/
def drawState {F : Type} [LinearOrderedField F] (L : SamplerLib F) (logits : List F)
    (top_k : Int) (top_p temp : F) (idx : List Nat) : List F × List Nat :=
  let n_vocab := logits.length
  let w0 := if temp > 0 then logits.map (fun x => x * (1 / temp)) else logits
  let idx1 := topKIdx L w0 top_k n_vocab idx
  let maxl := maxLoop w0 idx1 (-L.FLT_MAX)
  let ws := expLoop L maxl idx1 w0 0
  let w2 := divLoop ws.2 idx1 ws.1
  let idx2 := L.sort (fun a b => decide (at0 w2 a > at0 w2 b)) idx1
  (w2, topPIdx w2 top_p idx2)

/-- The probabilities of the kept candidates when the draw is made. -/
def keptProbs {F : Type} [LinearOrderedField F] (L : SamplerLib F) (logits : List F)
    (top_k : Int) (top_p temp : F) (idx : List Nat) : List F :=
  (drawState L logits top_k top_p temp idx).2.map
    (at0 (drawState L logits top_k top_p temp idx).1)

/-! ### The sibling sampler of `LlamaRunner.cpp` (lines 149-168, 196-207) -/

/-- `Cand`. -/
structure Cand (F : Type) where
  id : Nat
  logit : F
  p : F

/-- The loop of `apply_top_k_top_p` that counts the candidates to keep. -/
def keepLoop {F : Type} [LinearOrderedField F] (top_p : F) : List (Cand F) → Nat → F → Nat
  | [], keep, _ => keep
  | c :: rest, keep, cum =>
    if cum + c.p ≥ top_p then keep + 1 else keepLoop top_p rest (keep + 1) (cum + c.p)

/-- The top-p step of `apply_top_k_top_p` (lines 196-207) on candidates that are sorted and
carry their probabilities: the truncation, then the renormalisation. -/
def truncateTopP {F : Type} [LinearOrderedField F] (cands : List (Cand F)) (top_p : F) :
    List (Cand F) :=
  if top_p > 0 ∧ top_p < 1 then
    let keep := keepLoop top_p cands 0 0
    let kept := if keep > 0 ∧ keep < cands.length then cands.take keep else cands
    let s : F := kept.foldl (fun s c => s + c.p) 0
    if s > 0 then kept.map (fun c => { c with p := c.p / s }) else kept
  else cands

/-- The loop of `sample_from`. -/
def sampleFromLoop {F : Type} [LinearOrderedField F] (r : F) : List (Cand F) → F → Nat → Nat
  | [], _, last => last
  | c :: rest, acc, last => if r ≤ acc + c.p then c.id else sampleFromLoop r rest (acc + c.p) last

/-- `sample_from` with the uniform draw `r`: the id of `cands.back()` when the loop ends. -/
def sample_from {F : Type} [LinearOrderedField F] (cands : List (Cand F)) (r : F) : Nat :=
  sampleFromLoop r cands 0 ((cands.map (fun c => c.id)).getLastD 0)

/-- Three logits whose probabilities under the reference library, at the temperature 1/5 of
the worker, are 1/2, 3/10 and 1/5. -/
def nucleusLogits : List ℚ := [0, -2 / 15, -3 / 10]

/-- The candidates of `nucleusLogits` as the sibling sampler holds them after its softmax. -/
def nucleusCands : List (Cand ℚ) :=
  [⟨0, 0, 1 / 2⟩, ⟨1, -2 / 3, 3 / 10⟩, ⟨2, -3 / 2, 1 / 5⟩]

/-! ## An engine with Unreal's string accessor -/

/-- The reference engine with the string accessor of Unreal's JSON values:
`FJsonValueString`, `FJsonValueNumber` and `FJsonValueBoolean` override `TryGetString` and
return the text of the value, the other values do not. A number is printed as its lexeme. -/
def coercingEngine : Engine where
  IsWhitespace := asciiWhitespace
  Equals := fun a b => decide (a = b)
  Deserialize := readObject
  TryGetString := fun v => match v with
    | Json.string s => some s
    | Json.number l => some l
    | Json.bool true => some (TEXT "true")
    | Json.bool false => some (TEXT "false")
    | _ => none

/-- An object whose dialogue has a number for `speaker`, a boolean for `emote` and numbers
for `lines`. -/
def numericDialogueJSON : FString :=
  TEXT ("\x7b\"intent\":\"warn\",\"reason\":\"storm approaching\"," ++
    "\"dialogue\":\x7b\"speaker\":7,\"emote\":true,\"lines\":[1,2]\x7d," ++
    "\"quest_patch\":\x7b\x7d\x7d")

/-- Is the character at index `i` of the candidate a comma that the trailing-comma pass
drops: `Cand[i] == ','`, and the first character after the whitespace that follows index `i`
is a closing brace or bracket? -/
def droppedAt (E : Engine) (Cand : FString) (i : Nat) : Bool :=
  decide (Cand[i]? = some ',') && closesNext ((Cand.drop (i + 1)).dropWhile E.IsWhitespace)
/-! # Theorems -/

/-! ## `CollectBalancedObjects` on prose around one object -/

theorem collectLoop_strBody (In : FString) (b : FString) (hb : StrBody b) :
    ∀ (rest : FString) (i depth : Nat) (start : Int) (out : List FString),
      collectLoop In (b ++ '"' :: rest) i true false depth start out
        = collectLoop In rest (i + b.length + 1) false false depth start out := by
  induction hb with
  | nil => intro rest i depth start out; simp [collectLoop]
  | plain c t h1 h2 _ ih =>
    intro rest i depth start out
    simp only [List.cons_append, collectLoop, h1, h2, if_true, if_false, List.length_cons]
    simp [ih, Nat.add_assoc, Nat.add_comm, Nat.add_left_comm]
  | escaped c t _ ih =>
    intro rest i depth start out
    simp only [List.cons_append, collectLoop, if_true, if_false, List.length_cons]
    simp [ih, Nat.add_assoc, Nat.add_comm, Nat.add_left_comm]

theorem collectLoop_inert (In : FString) (a : FString) (ha : Inert a) :
    ∀ (rest : FString) (i depth : Nat) (start : Int) (out : List FString), 0 < depth →
      collectLoop In (a ++ rest) i false false depth start out
        = collectLoop In rest (i + a.length) false false depth start out := by
  induction ha with
  | nil => intro rest i depth start out _; simp
  | plain c h1 h2 h3 h4 =>
    intro rest i depth start out _
    simp [collectLoop, h1, h2, h3]
  | str b hb =>
    intro rest i depth start out _
    simp only [List.cons_append, List.append_assoc, List.nil_append, collectLoop]
    simp [collectLoop_strBody In b hb, Nat.add_assoc, Nat.add_comm, Nat.add_left_comm]
  | obj a _ ih =>
    intro rest i depth start out hd
    have hd0 : depth ≠ 0 := Nat.pos_iff_ne_zero.mp hd
    simp only [List.cons_append, List.append_assoc, List.nil_append, collectLoop]
    simp [ih, hd0, collectLoop, Nat.add_assoc, Nat.add_comm, Nat.add_left_comm]
  | append a b _ _ iha ihb =>
    intro rest i depth start out hd
    rw [List.append_assoc, iha _ _ _ _ _ hd, ihb _ _ _ _ _ hd, List.length_append, Nat.add_assoc]

theorem collectLoop_prose (In : FString) (P : FString) (hP : IsProse P) :
    ∀ (rest : FString) (i : Nat) (start : Int) (out : List FString),
      collectLoop In (P ++ rest) i false false 0 start out
        = collectLoop In rest (i + P.length) false false 0 start out := by
  induction P with
  | nil => intro rest i start out; simp
  | cons c t ih =>
    intro rest i start out
    have hc := hP c (List.mem_cons_self _ _)
    have ht : IsProse t := fun x hx => hP x (List.mem_cons_of_mem _ hx)
    simp [collectLoop, hc.1, hc.2.1, hc.2.2, ih ht, Nat.add_assoc, Nat.add_comm, Nat.add_left_comm]
/-! ## Well-formed JSON text is inert for a brace scanner -/

theorem inert_of_plain (t : FString)
    (h : ∀ c ∈ t, c ≠ '"' ∧ c ≠ '{' ∧ c ≠ '}' ∧ c ≠ '\\') : Inert t := by
  induction t with
  | nil => exact Inert.nil
  | cons c t ih =>
    have hc := h c (List.mem_cons_self _ _)
    have := Inert.append [c] t (Inert.plain c hc.1 hc.2.1 hc.2.2.1 hc.2.2.2)
      (ih (fun x hx => h x (List.mem_cons_of_mem _ hx)))
    simpa using this

theorem isDigit_plain (c : Char) (h : c.isDigit = true) :
    c ≠ '"' ∧ c ≠ '{' ∧ c ≠ '}' ∧ c ≠ '\\' := by
  refine ⟨?_, ?_, ?_, ?_⟩ <;> · rintro rfl; revert h; decide

theorem isHex_plain (c : Char) (h : IsHex c) : c ≠ '\\' ∧ c ≠ '"' := by
  constructor <;> · rintro rfl; revert h; unfold IsHex; decide

theorem inert_ws (w : FString) (h : JWs w) : Inert w := by
  apply inert_of_plain
  intro c hc
  rcases h c hc with h | h | h | h <;> subst h <;> decide

theorem inert_digits (t : FString) (h : ∀ c ∈ t, c.isDigit = true) : Inert t :=
  inert_of_plain t (fun c hc => isDigit_plain c (h c hc))

theorem inert_number (t : FString) (h : JNumber t) : Inert t := by
  obtain ⟨sg, i, f, e, rfl, hsg, hi, hf, he⟩ := h
  have h1 : Inert sg := by
    rcases hsg with rfl | rfl
    · exact Inert.nil
    · exact Inert.plain _ (by decide) (by decide) (by decide) (by decide)
  have h2 : Inert i := by
    rcases hi with rfl | ⟨d, ds, rfl, hd, _, hds⟩
    · exact Inert.plain _ (by decide) (by decide) (by decide) (by decide)
    · apply inert_digits
      intro c hc
      rcases List.mem_cons.mp hc with rfl | hc
      · exact hd
      · exact hds c hc
  have h3 : Inert f := by
    rcases hf with rfl | ⟨ds, rfl, _, hds⟩
    · exact Inert.nil
    · exact Inert.append ['.'] ds
        (Inert.plain _ (by decide) (by decide) (by decide) (by decide)) (inert_digits ds hds)
  have h4 : Inert e := by
    rcases he with rfl | ⟨e, sg, ds, rfl, he, hsg, _, hds⟩
    · exact Inert.nil
    · have hE : Inert [e] := by
        rcases he with rfl | rfl <;>
          exact Inert.plain _ (by decide) (by decide) (by decide) (by decide)
      have hS : Inert sg := by
        rcases hsg with rfl | rfl | rfl
        · exact Inert.nil
        · exact Inert.plain _ (by decide) (by decide) (by decide) (by decide)
        · exact Inert.plain _ (by decide) (by decide) (by decide) (by decide)
      exact Inert.append [e] (sg ++ ds) hE (Inert.append sg ds hS (inert_digits ds hds))
  exact Inert.append _ _ (Inert.append _ _ (Inert.append _ _ h1 h2) h3) h4

theorem strBody_of_json (b : FString) (h : JStrBody b) : StrBody b := by
  induction h with
  | nil => exact StrBody.nil
  | unescaped c t _ h2 h3 _ ih => exact StrBody.plain c t h3 h2 ih
  | escape e t _ _ ih => exact StrBody.escaped e t ih
  | unicode h1 h2 h3 h4 t k1 k2 k3 k4 _ ih =>
    exact StrBody.escaped 'u' _
      (StrBody.plain h1 _ (isHex_plain h1 k1).1 (isHex_plain h1 k1).2
        (StrBody.plain h2 _ (isHex_plain h2 k2).1 (isHex_plain h2 k2).2
          (StrBody.plain h3 _ (isHex_plain h3 k3).1 (isHex_plain h3 k3).2
            (StrBody.plain h4 _ (isHex_plain h4 k4).1 (isHex_plain h4 k4).2 ih))))

theorem inert_string (t : FString) (h : JString t) : Inert t := by
  obtain ⟨b, hb, rfl⟩ := h
  exact Inert.str b (strBody_of_json b hb)

theorem inert_char (c : Char) (h1 : c ≠ '"') (h2 : c ≠ '{') (h3 : c ≠ '}') (h4 : c ≠ '\\')
    (t : FString) (ht : Inert t) : Inert (c :: t) := by
  simpa using Inert.append [c] t (Inert.plain c h1 h2 h3 h4) ht

theorem inert_jtext (k : JSort) (t : FString) (h : JText k t) : Inert t := by
  induction h with
  | litNull => exact inert_of_plain _ (by decide)
  | litTrue => exact inert_of_plain _ (by decide)
  | litFalse => exact inert_of_plain _ (by decide)
  | number t h => exact inert_number t h
  | string t h => exact inert_string t h
  | emptyArray w hw =>
    exact inert_char _ (by decide) (by decide) (by decide) (by decide) _
      (Inert.append _ _ (inert_ws w hw) (Inert.plain _ (by decide) (by decide) (by decide) (by decide)))
  | array es _ ih =>
    exact inert_char _ (by decide) (by decide) (by decide) (by decide) _
      (Inert.append _ _ ih (Inert.plain _ (by decide) (by decide) (by decide) (by decide)))
  | emptyObject w hw => exact Inert.obj w (inert_ws w hw)
  | object ms _ ih => exact Inert.obj ms ih
  | element w1 v w2 h1 _ h2 ih =>
    exact Inert.append _ _ (Inert.append _ _ (inert_ws w1 h1) ih) (inert_ws w2 h2)
  | elementCons w1 v w2 es h1 _ h2 _ ihv ihes =>
    exact Inert.append _ _ (Inert.append _ _ (Inert.append _ _ (inert_ws w1 h1) ihv) (inert_ws w2 h2))
      (inert_char _ (by decide) (by decide) (by decide) (by decide) _ ihes)
  | member w1 k w2 w3 v w4 h1 hk h2 h3 _ h4 ih =>
    have hA : Inert (w1 ++ k ++ w2) :=
      Inert.append _ _ (Inert.append _ _ (inert_ws w1 h1) (inert_string k hk)) (inert_ws w2 h2)
    have hB : Inert (w3 ++ v ++ w4) :=
      Inert.append _ _ (Inert.append _ _ (inert_ws w3 h3) ih) (inert_ws w4 h4)
    have := Inert.append _ _ hA (inert_char ':' (by decide) (by decide) (by decide) (by decide) _ hB)
    simpa [List.append_assoc] using this
  | memberCons w1 k w2 w3 v w4 ms h1 hk h2 h3 _ h4 _ ihv ihms =>
    have hA : Inert (w1 ++ k ++ w2) :=
      Inert.append _ _ (Inert.append _ _ (inert_ws w1 h1) (inert_string k hk)) (inert_ws w2 h2)
    have hB : Inert (w3 ++ v ++ w4 ++ ',' :: ms) :=
      Inert.append _ _ (Inert.append _ _ (Inert.append _ _ (inert_ws w3 h3) ihv) (inert_ws w4 h4))
        (inert_char ',' (by decide) (by decide) (by decide) (by decide) _ ihms)
    have := Inert.append _ _ hA (inert_char ':' (by decide) (by decide) (by decide) (by decide) _ hB)
    simpa [List.append_assoc] using this

theorem jobject_inert (J : FString) (h : JObjectText J) :
    ∃ a, Inert a ∧ J = '{' :: a ++ ['}'] := by
  obtain ⟨body, rfl, hb | hb⟩ := h
  · exact ⟨body, inert_ws body hb, rfl⟩
  · exact ⟨body, inert_jtext _ body hb, rfl⟩
theorem collectLoop_prose_end (In : FString) (Q : FString) (hQ : IsProse Q)
    (i : Nat) (start : Int) (out : List FString) :
    collectLoop In Q i false false 0 start out = out := by
  have h := collectLoop_prose In Q hQ [] i start out
  rw [List.append_nil] at h
  rw [h, collectLoop]

theorem collectLoop_one (In P a Q : FString) (hP : IsProse P) (ha : Inert a) (hQ : IsProse Q) :
    collectLoop In (P ++ '{' :: a ++ '}' :: Q) 0 false false 0 (-1) []
      = [Mid In P.length (a.length + 2)] := by
  rw [List.append_assoc, collectLoop_prose In P hP, List.cons_append]
  rw [collectLoop]
  simp only [Bool.false_eq_true, if_false, if_true, Char.reduceEq]
  rw [collectLoop_inert In a ha _ _ _ _ _ (by decide), collectLoop]
  simp only [Bool.false_eq_true, if_false, Char.reduceEq]
  have e : P.length + 1 + a.length - P.length + 1 = a.length + 2 := by omega
  simp [collectLoop_prose_end In Q hQ, e]

/-- C1. For prose `P`, `Q` without `"`, `{`, `}` and a well-formed JSON object text `J`,
`CollectBalancedObjects (P ++ J ++ Q)` is exactly the one-element list `[J]`: braces inside the
string literals of `J` do not change the depth. -/
theorem CollectBalancedObjects_prose_object (P J Q : FString)
    (hP : IsProse P) (hJ : JObjectText J) (hQ : IsProse Q) :
    CollectBalancedObjects (P ++ J ++ Q) = [J] := by
  obtain ⟨a, ha, rfl⟩ := jobject_inert J hJ
  unfold CollectBalancedObjects
  have h := collectLoop_one (P ++ ('{' :: a ++ ['}']) ++ Q) P a Q hP ha hQ
  have e : P ++ ('{' :: a ++ ['}']) ++ Q = P ++ '{' :: a ++ '}' :: Q := by simp
  rw [e] at h ⊢
  rw [h]
  have e2 : P ++ '{' :: a ++ '}' :: Q = P ++ (('{' :: a ++ ['}']) ++ Q) := by simp
  have e3 : a.length + 2 = ('{' :: a ++ ['}']).length := by simp
  rw [Mid, e2, List.drop_left, e3, List.take_left]
theorem jstring_a : JString (TEXT "\"a\"") :=
  ⟨['a'], JStrBody.unescaped 'a' [] (by decide) (by decide) (by decide) JStrBody.nil, by decide⟩

theorem jstring_braces : JString (TEXT "\"\x7d\x7b\"") :=
  ⟨['}', '{'],
    JStrBody.unescaped '}' ['{'] (by decide) (by decide) (by decide)
      (JStrBody.unescaped '{' [] (by decide) (by decide) (by decide) JStrBody.nil),
    by decide⟩

theorem jobject_quoted_braces : JObjectText (TEXT "\x7b\"a\":\"\x7d\x7b\"\x7d") := by
  refine ⟨TEXT "\"a\":\"\x7d\x7b\"", by decide, Or.inr ?_⟩
  have h := JText.member [] (TEXT "\"a\"") [] [] (TEXT "\"\x7d\x7b\"") []
    (by intro c hc; cases hc) jstring_a (by intro c hc; cases hc) (by intro c hc; cases hc)
    (JText.string _ jstring_braces) (by intro c hc; cases hc)
  exact h

/-- Witness of C1: the spec's example input yields exactly its one object. -/
theorem CollectBalancedObjects_prose_object_witness :
    IsProse (TEXT "Here's the plan: ") ∧ JObjectText (TEXT "\x7b\"a\":\"\x7d\x7b\"\x7d") ∧
      IsProse [] ∧
      CollectBalancedObjects (TEXT "Here's the plan: " ++ TEXT "\x7b\"a\":\"\x7d\x7b\"\x7d" ++ [])
        = [TEXT "\x7b\"a\":\"\x7d\x7b\"\x7d"] :=
  ⟨(by unfold IsProse; decide), jobject_quoted_braces, (by intro c hc; cases hc),
    CollectBalancedObjects_prose_object _ _ _ (by unfold IsProse; decide) jobject_quoted_braces
      (by intro c hc; cases hc)⟩
/-! ## The scanners, read without positions -/

theorem extractInside_succ (E : Engine) (In rest : FString) (c : Char) (i : Nat) (start : Int)
    (o : Option Nat) :
    extractInside E In rest (i + 1) start o
      = extractInside E In (c :: rest) i start (o.map (· + 1)) := by
  cases o with
  | none => rfl
  | some k =>
    simp only [extractInside, Option.map, List.drop_succ_cons]
    have e : i + 1 + k = i + (k + 1) := by omega
    rw [e]

theorem extractLoop_inside (E : Engine) (In : FString) :
    ∀ (rest : FString) (i : Nat) (bInStr bEsc : Bool) (depth : Nat) (start : Int),
      0 < depth → 0 ≤ start →
      extractLoop E In rest i bInStr bEsc depth start
        = extractInside E In rest i start (closeOffset rest bInStr bEsc depth) := by
  intro rest
  induction rest with
  | nil =>
    intro i bInStr bEsc depth start hd _
    simp [extractLoop, closeOffset, extractInside, hd]
  | cons c rest ih =>
    intro i bInStr bEsc depth start hd hs
    have hd0 : depth ≠ 0 := Nat.pos_iff_ne_zero.mp hd
    have key : ∀ (bS bE : Bool) (d : Nat) (st : Int), 0 < d → 0 ≤ st →
        extractLoop E In rest (i + 1) bS bE d st
          = extractInside E In (c :: rest) i st ((closeOffset rest bS bE d).map (· + 1)) := by
      intro bS bE d st h1 h2
      rw [ih _ _ _ _ _ h1 h2, extractInside_succ E In rest c]
    unfold extractLoop closeOffset
    split_ifs with h1 h2 h3 h4 h5 h6 h7 h8
    all_goals first
      | exact key _ _ _ _ hd hs
      | exact key _ _ _ _ (Nat.succ_pos _) hs
      | exact key _ _ _ _ (Nat.pos_of_ne_zero (by assumption)) hs
      | (simp [extractInside]; done)
      | (exfalso; clear ih key; simp_all)
theorem extractOutside_succ (E : Engine) (In rest : FString) (c : Char) (i : Nat)
    (o : Option Nat) :
    extractOutside E In rest (i + 1) o = extractOutside E In (c :: rest) i (o.map (· + 1)) := by
  cases o with
  | none => rfl
  | some j =>
    simp only [extractOutside, Option.map, List.drop_succ_cons]
    have e1 : i + 1 + j + 1 = i + (j + 1) + 1 := by omega
    have e2 : i + 1 + j = i + (j + 1) := by omega
    rw [e1, e2]

theorem extractLoop_outside (E : Engine) (In : FString) :
    ∀ (rest : FString) (i : Nat) (bInStr bEsc : Bool),
      extractLoop E In rest i bInStr bEsc 0 (-1)
        = extractOutside E In rest i (openOffset rest bInStr bEsc) := by
  intro rest
  induction rest with
  | nil =>
    intro i bInStr bEsc
    simp [extractLoop, openOffset, extractOutside]
  | cons c rest ih =>
    intro i bInStr bEsc
    have key : ∀ (bS bE : Bool),
        extractLoop E In rest (i + 1) bS bE 0 (-1)
          = extractOutside E In (c :: rest) i ((openOffset rest bS bE).map (· + 1)) := by
      intro bS bE
      rw [ih, extractOutside_succ E In rest c]
    unfold extractLoop openOffset
    split_ifs with h1 h2 h3 h4 h5 h6 h7
    all_goals first
      | exact key _ _
      | (exfalso; clear ih key; simp_all; done)
      | skip
    · simp only [extractOutside, List.drop_succ_cons, List.drop_zero, Nat.add_zero]
      have hb : bInStr = false := by simpa using h4
      have he : bEsc = false := by simpa using h1
      rw [hb, he]
      exact extractLoop_inside E In rest (i + 1) false false 1 (i : Int) (by decide)
        (Int.ofNat_nonneg i)
theorem closeOffset_take_append :
    ∀ (r : FString) (bInStr bEsc : Bool) (depth k : Nat) (T : FString),
      closeOffset r bInStr bEsc depth = some k →
      closeOffset (r.take (k + 1) ++ T) bInStr bEsc depth = some k := by
  intro r
  induction r with
  | nil => intro bInStr bEsc depth k T h; simp [closeOffset] at h
  | cons c r ih =>
    intro bInStr bEsc depth k T h
    have key : ∀ (bS bE : Bool) (d : Nat),
        (closeOffset r bS bE d).map (· + 1) = some k →
        (closeOffset ((c :: r).take (k + 1) ++ T).tail bS bE d).map (· + 1) = some k := by
      intro bS bE d hk
      cases hc : closeOffset r bS bE d with
      | none => rw [hc] at hk; simp at hk
      | some k' =>
        rw [hc] at hk
        simp only [Option.map_some', Option.some.injEq] at hk
        subst hk
        simp only [List.take_succ_cons, List.cons_append, List.tail_cons]
        rw [ih bS bE d k' T hc]
        rfl
    simp only [List.take_succ_cons, List.cons_append, List.tail_cons] at key
    simp only [List.take_succ_cons, List.cons_append]
    unfold closeOffset at h ⊢
    split_ifs at h ⊢ with h1 h2 h3 h4 h5 h6 h7
    all_goals first
      | exact key _ _ _ h
      | exact h
theorem openOffset_take_append :
    ∀ (t : FString) (bInStr bEsc : Bool) (j : Nat) (T : FString),
      openOffset t bInStr bEsc = some j →
      openOffset (t.take (j + 1) ++ T) bInStr bEsc = some j := by
  intro t
  induction t with
  | nil => intro bInStr bEsc j T h; simp [openOffset] at h
  | cons c t ih =>
    intro bInStr bEsc j T h
    have key : ∀ (bS bE : Bool),
        (openOffset t bS bE).map (· + 1) = some j →
        (openOffset (t.take j ++ T) bS bE).map (· + 1) = some j := by
      intro bS bE hj
      cases hc : openOffset t bS bE with
      | none => rw [hc] at hj; simp at hj
      | some j' =>
        rw [hc] at hj
        simp only [Option.map_some', Option.some.injEq] at hj
        subst hj
        rw [ih bS bE j' T hc]
        rfl
    simp only [List.take_succ_cons, List.cons_append]
    unfold openOffset at h ⊢
    split_ifs at h ⊢ with h1 h2 h3 h4 h5
    all_goals first
      | exact key _ _ h
      | exact h

theorem closeOffset_drop :
    ∀ (r : FString) (bInStr bEsc : Bool) (depth k : Nat),
      closeOffset r bInStr bEsc depth = some k → r.drop k = '}' :: r.drop (k + 1) := by
  intro r
  induction r with
  | nil => intro bInStr bEsc depth k h; simp [closeOffset] at h
  | cons c r ih =>
    intro bInStr bEsc depth k h
    have key : ∀ (bS bE : Bool) (d : Nat),
        (closeOffset r bS bE d).map (· + 1) = some k →
        (c :: r).drop k = '}' :: (c :: r).drop (k + 1) := by
      intro bS bE d hk
      cases hc : closeOffset r bS bE d with
      | none => rw [hc] at hk; simp at hk
      | some k' =>
        rw [hc] at hk
        simp only [Option.map_some', Option.some.injEq] at hk
        subst hk
        simpa using ih bS bE d k' hc
    unfold closeOffset at h
    split_ifs at h with h1 h2 h3 h4 h5 h6 h7
    all_goals first
      | exact key _ _ _ h
      | skip
    · simp only [Option.some.injEq] at h
      subst h
      simp [h6]

theorem openOffset_drop :
    ∀ (t : FString) (bInStr bEsc : Bool) (j : Nat),
      openOffset t bInStr bEsc = some j → t.drop j = '{' :: t.drop (j + 1) := by
  intro t
  induction t with
  | nil => intro bInStr bEsc j h; simp [openOffset] at h
  | cons c t ih =>
    intro bInStr bEsc j h
    have key : ∀ (bS bE : Bool),
        (openOffset t bS bE).map (· + 1) = some j →
        (c :: t).drop j = '{' :: (c :: t).drop (j + 1) := by
      intro bS bE hj
      cases hc : openOffset t bS bE with
      | none => rw [hc] at hj; simp at hj
      | some j' =>
        rw [hc] at hj
        simp only [Option.map_some', Option.some.injEq] at hj
        subst hj
        simpa using ih bS bE j' hc
    unfold openOffset at h
    split_ifs at h with h1 h2 h3 h4 h5
    all_goals first
      | exact key _ _ h
      | skip
    · simp only [Option.some.injEq] at h
      subst h
      simp [h5]

theorem drop_cons_lt {α : Type} (l : List α) (n : Nat) (a : α) (r : List α)
    (h : l.drop n = a :: r) : n < l.length := by
  by_contra hn
  rw [List.drop_eq_nil_of_le (Nat.le_of_not_lt hn)] at h
  cases h
theorem ExtractStrictJSONObject_eq (E : Engine) (In : FString) :
    ExtractStrictJSONObject E In = extractOutside E In In 0 (openOffset In false false) :=
  extractLoop_outside E In In 0 false false

theorem extract_of_span (E : Engine) (In : FString) (j k : Nat)
    (h : firstSpan In = some (j, k)) :
    ExtractStrictJSONObject E In
      = ⟨true, Mid In j (k + 2), trailingErr E (In.drop (j + 1 + (k + 1)))⟩ := by
  rw [ExtractStrictJSONObject_eq]
  unfold firstSpan at h
  cases ho : openOffset In false false with
  | none => rw [ho] at h; simp at h
  | some j' =>
    rw [ho] at h
    simp only at h
    cases hc : closeOffset (In.drop (j' + 1)) false false 1 with
    | none => rw [hc] at h; simp at h
    | some k' =>
      rw [hc] at h
      simp only [Option.some.injEq, Prod.mk.injEq] at h
      obtain ⟨rfl, rfl⟩ := h
      simp only [extractOutside, extractInside, hc, Nat.zero_add, Int.toNat_ofNat,
        List.drop_drop]
      have e1 : j' + 1 + k' - j' + 1 = k' + 2 := by omega
      rw [e1]

theorem extract_of_noSpan (E : Engine) (In : FString) (h : firstSpan In = none) :
    (ExtractStrictJSONObject E In).found = false ∧ (ExtractStrictJSONObject E In).Out = [] := by
  rw [ExtractStrictJSONObject_eq]
  unfold firstSpan at h
  cases ho : openOffset In false false with
  | none => simp [extractOutside]
  | some j' =>
    rw [ho] at h
    simp only at h
    cases hc : closeOffset (In.drop (j' + 1)) false false 1 with
    | none => simp [extractOutside, extractInside, hc]
    | some k' => rw [hc] at h; simp at h

theorem extract_found_iff (E : Engine) (In : FString) :
    (ExtractStrictJSONObject E In).found = true ↔ ∃ j k, firstSpan In = some (j, k) := by
  constructor
  · intro h
    cases hs : firstSpan In with
    | none => rw [(extract_of_noSpan E In hs).1] at h; cases h
    | some p => exact ⟨p.1, p.2, rfl⟩
  · rintro ⟨j, k, h⟩
    rw [extract_of_span E In j k h]
theorem firstSpan_spec (In : FString) (j k : Nat) (h : firstSpan In = some (j, k)) :
    openOffset In false false = some j ∧
      closeOffset (In.drop (j + 1)) false false 1 = some k := by
  unfold firstSpan at h
  cases ho : openOffset In false false with
  | none => rw [ho] at h; simp at h
  | some j' =>
    rw [ho] at h
    simp only at h
    cases hc : closeOffset (In.drop (j' + 1)) false false 1 with
    | none => rw [hc] at h; simp at h
    | some k' =>
      rw [hc] at h
      simp only [Option.some.injEq, Prod.mk.injEq] at h
      obtain ⟨rfl, rfl⟩ := h
      exact ⟨rfl, hc⟩

theorem firstSpan_intro (In : FString) (j k : Nat)
    (ho : openOffset In false false = some j)
    (hc : closeOffset (In.drop (j + 1)) false false 1 = some k) :
    firstSpan In = some (j, k) := by
  unfold firstSpan
  rw [ho]
  simp only
  rw [hc]

theorem span_mid (In : FString) (j k : Nat) (h : firstSpan In = some (j, k)) :
    Mid In j (k + 2) = '{' :: (In.drop (j + 1)).take (k + 1) ∧
      k < (In.drop (j + 1)).length := by
  obtain ⟨ho, hc⟩ := firstSpan_spec In j k h
  have h1 := openOffset_drop In false false j ho
  have h2 := closeOffset_drop _ false false 1 k hc
  refine ⟨?_, drop_cons_lt _ _ _ _ h2⟩
  rw [Mid, h1]
  rfl

theorem span_length (In : FString) (j k : Nat) (h : firstSpan In = some (j, k)) :
    (Mid In j (k + 2)).length = k + 2 := by
  obtain ⟨h1, h2⟩ := span_mid In j k h
  rw [h1]
  simp only [List.length_cons, List.length_take]
  omega

theorem firstSpan_append (In B : FString) (j k : Nat) (h : firstSpan In = some (j, k)) :
    firstSpan (In ++ B) = some (j, k) ∧ Mid (In ++ B) j (k + 2) = Mid In j (k + 2) := by
  obtain ⟨ho, hc⟩ := firstSpan_spec In j k h
  obtain ⟨hm, hk⟩ := span_mid In j k h
  have hj : j < In.length := drop_cons_lt _ _ _ _ (openOffset_drop In false false j ho)
  have e1 : In ++ B = In.take (j + 1) ++ (In.drop (j + 1) ++ B) := by
    rw [← List.append_assoc, List.take_append_drop]
  have e2 : (In ++ B).drop (j + 1) = In.drop (j + 1) ++ B := by
    rw [List.drop_append_of_le_length (by omega)]
  have e3 : In.drop (j + 1) ++ B
      = (In.drop (j + 1)).take (k + 1) ++ ((In.drop (j + 1)).drop (k + 1) ++ B) := by
    rw [← List.append_assoc, List.take_append_drop]
  have ho' : openOffset (In ++ B) false false = some j := by
    rw [e1]; exact openOffset_take_append In false false j _ ho
  have hc' : closeOffset ((In ++ B).drop (j + 1)) false false 1 = some k := by
    rw [e2, e3]; exact closeOffset_take_append _ false false 1 k _ hc
  have h' := firstSpan_intro _ j k ho' hc'
  refine ⟨h', ?_⟩
  rw [(span_mid _ j k h').1, hm, e2, List.take_append_of_le_length (by omega)]

theorem firstSpan_spanText (In T : FString) (j k : Nat) (h : firstSpan In = some (j, k)) :
    firstSpan (Mid In j (k + 2) ++ T) = some (0, k) ∧
      Mid (Mid In j (k + 2) ++ T) 0 (k + 2) = Mid In j (k + 2) := by
  obtain ⟨ho, hc⟩ := firstSpan_spec In j k h
  obtain ⟨hm, hk⟩ := span_mid In j k h
  have hlen := span_length In j k h
  have ho' : openOffset (Mid In j (k + 2) ++ T) false false = some 0 := by
    rw [hm]; simp [openOffset]
  have hc' : closeOffset ((Mid In j (k + 2) ++ T).drop (0 + 1)) false false 1 = some k := by
    rw [hm]
    simp only [List.cons_append, Nat.zero_add, List.drop_succ_cons, List.drop_zero]
    exact closeOffset_take_append _ false false 1 k T hc
  refine ⟨firstSpan_intro _ 0 k ho' hc', ?_⟩
  show ((Mid In j (k + 2) ++ T).drop 0).take (k + 2) = Mid In j (k + 2)
  rw [List.drop_zero]
  exact List.take_left' hlen
/-! ## `IsValidDirectorJSON` judges the first balanced object -/

theorem isValid_of_span (E : Engine) (Raw : FString) (j k : Nat)
    (h : firstSpan Raw = some (j, k)) :
    IsValidDirectorJSON E Raw = validateExtracted E (Mid Raw j (k + 2)) := by
  unfold IsValidDirectorJSON
  rw [extract_of_span E Raw j k h]
  simp

theorem isValid_of_noSpan (E : Engine) (Raw : FString) (h : firstSpan Raw = none) :
    (IsValidDirectorJSON E Raw).ok = false := by
  unfold IsValidDirectorJSON
  rw [(extract_of_noSpan E Raw h).1]
  simp

theorem validateExtracted_out (E : Engine) (Out : FString) :
    (validateExtracted E Out).OutCleanedJSON = Out := by
  unfold validateExtracted
  split_ifs
  · rfl
  · cases E.Deserialize Out with
    | none => rfl
    | some Root =>
      simp only
      cases schemaChecks E Root <;> rfl

theorem isValid_ok_span (E : Engine) (Raw : FString)
    (h : (IsValidDirectorJSON E Raw).ok = true) :
    ∃ j k, firstSpan Raw = some (j, k) ∧
      (IsValidDirectorJSON E Raw).OutCleanedJSON = Mid Raw j (k + 2) := by
  cases hs : firstSpan Raw with
  | none => rw [isValid_of_noSpan E Raw hs] at h; cases h
  | some p =>
    obtain ⟨j, k⟩ := p
    exact ⟨j, k, rfl, by rw [isValid_of_span E Raw j k hs, validateExtracted_out]⟩

/-- C5. `IsValidDirectorJSON` is idempotent on its own output: if it succeeds on `x` with
cleaned text `c`, then it succeeds on `c` and the cleaned text it returns is `c` again. -/
theorem IsValidDirectorJSON_idempotent (E : Engine) (x : FString)
    (h : (IsValidDirectorJSON E x).ok = true) :
    (IsValidDirectorJSON E (IsValidDirectorJSON E x).OutCleanedJSON).ok = true ∧
      (IsValidDirectorJSON E (IsValidDirectorJSON E x).OutCleanedJSON).OutCleanedJSON
        = (IsValidDirectorJSON E x).OutCleanedJSON := by
  obtain ⟨j, k, hs, hc⟩ := isValid_ok_span E x h
  obtain ⟨h1, h2⟩ := firstSpan_spanText x [] j k hs
  rw [List.append_nil] at h1 h2
  have e : IsValidDirectorJSON E (Mid x j (k + 2)) = IsValidDirectorJSON E x := by
    rw [isValid_of_span E _ 0 k h1, h2, isValid_of_span E x j k hs]
  rw [hc, e]
  exact ⟨h, hc⟩

set_option maxRecDepth 1000000 in
/-- Witness of C5: the scenario object of the specification, inside prose. -/
theorem IsValidDirectorJSON_idempotent_witness :
    (IsValidDirectorJSON refEngine (TEXT "Plan: " ++ scenarioJSON ++ TEXT " done.")).ok = true ∧
      (IsValidDirectorJSON refEngine
          (IsValidDirectorJSON refEngine
            (TEXT "Plan: " ++ scenarioJSON ++ TEXT " done.")).OutCleanedJSON).ok = true ∧
      (IsValidDirectorJSON refEngine
          (IsValidDirectorJSON refEngine
            (TEXT "Plan: " ++ scenarioJSON ++ TEXT " done.")).OutCleanedJSON).OutCleanedJSON
        = (IsValidDirectorJSON refEngine
            (TEXT "Plan: " ++ scenarioJSON ++ TEXT " done.")).OutCleanedJSON :=
  ⟨(by decide), IsValidDirectorJSON_idempotent refEngine _ (by decide)⟩
/-! ## `CheckJsonClosure` judges the first balanced object -/

theorem closureInside_succ (E : Engine) (s : FString) (i : Nat) (start : Int)
    (o : Option Nat) :
    closureInside E s (i + 1) start o = closureInside E s i start (o.map (· + 1)) := by
  cases o with
  | none => rfl
  | some k =>
    simp only [closureInside, Option.map]
    have e : i + 1 + k + 1 = i + (k + 1) + 1 := by omega
    rw [e]

theorem checkClosureLoop_inside (E : Engine) (s : FString) :
    ∀ (rest : FString) (i depth : Nat) (in_q escp : Bool) (start : Int),
      0 < depth → 0 ≤ start →
      checkClosureLoop E s rest i depth in_q escp true start
        = closureInside E s i start (closeOffset rest in_q escp depth) := by
  intro rest
  induction rest with
  | nil =>
    intro i depth in_q escp start _ _
    simp [checkClosureLoop, closeOffset, closureInside]
  | cons c rest ih =>
    intro i depth in_q escp start hd hs
    have hd0 : depth ≠ 0 := Nat.pos_iff_ne_zero.mp hd
    have key : ∀ (bS bE : Bool) (d : Nat) (st : Int), 0 < d → 0 ≤ st →
        checkClosureLoop E s rest (i + 1) d bS bE true st
          = closureInside E s i st ((closeOffset rest bS bE d).map (· + 1)) := by
      intro bS bE d st h1 h2
      rw [ih _ _ _ _ _ h1 h2, closureInside_succ]
    unfold checkClosureLoop closeOffset
    split_ifs with h1 h2 h3 h4 h5 h6 h7 h8 h9
    all_goals first
      | exact key _ _ _ _ hd hs
      | exact key _ _ _ _ (Nat.succ_pos _) hs
      | exact key _ _ _ _ (Nat.pos_of_ne_zero (by assumption)) hs
      | (simp [closureInside, closureVerdict, *]; done)
      | (exfalso; clear ih key; simp_all)
theorem closureOutside_succ (E : Engine) (s rest : FString) (c : Char) (i : Nat)
    (o : Option Nat) :
    closureOutside E s rest (i + 1) o = closureOutside E s (c :: rest) i (o.map (· + 1)) := by
  cases o with
  | none => rfl
  | some j =>
    simp only [closureOutside, Option.map, List.drop_succ_cons]
    have e1 : i + 1 + j + 1 = i + (j + 1) + 1 := by omega
    have e2 : i + 1 + j = i + (j + 1) := by omega
    rw [e1, e2]

theorem checkClosureLoop_outside (E : Engine) (s : FString) :
    ∀ (rest : FString) (i : Nat) (in_q escp : Bool),
      checkClosureLoop E s rest i 0 in_q escp false (-1)
        = closureOutside E s rest i (openOffset rest in_q escp) := by
  intro rest
  induction rest with
  | nil =>
    intro i in_q escp
    simp [checkClosureLoop, openOffset, closureOutside]
  | cons c rest ih =>
    intro i in_q escp
    have key : ∀ (bS bE : Bool),
        checkClosureLoop E s rest (i + 1) 0 bS bE false (-1)
          = closureOutside E s (c :: rest) i ((openOffset rest bS bE).map (· + 1)) := by
      intro bS bE
      rw [ih, closureOutside_succ E s rest c]
    unfold checkClosureLoop openOffset
    split_ifs with h1 h2 h3 h4 h5 h6 h7 h8
    all_goals first
      | exact key _ _
      | (exfalso; clear ih key; simp_all; done)
      | skip
    · simp only [closureOutside, List.drop_succ_cons, List.drop_zero, Nat.add_zero]
      have hb : in_q = false := by simpa using h4
      have he : escp = false := by simpa using h1
      rw [hb, he]
      exact checkClosureLoop_inside E s rest (i + 1) 1 false false (i : Int) (by decide)
        (Int.ofNat_nonneg i)

theorem CheckJsonClosure_of_span (E : Engine) (s : FString) (j k : Nat)
    (h : firstSpan s = some (j, k)) :
    CheckJsonClosure E s = closureVerdict E (Mid s j (k + 2)) := by
  obtain ⟨ho, hc⟩ := firstSpan_spec s j k h
  unfold CheckJsonClosure
  rw [checkClosureLoop_outside, ho]
  simp only [closureOutside, hc, closureInside, Nat.zero_add, Int.toNat_ofNat]
  have e : j + 1 + k + 1 - j = k + 2 := by omega
  rw [e]

theorem CheckJsonClosure_of_noSpan (E : Engine) (s : FString) (h : firstSpan s = none) :
    CheckJsonClosure E s = EJsonProbe.None := by
  unfold CheckJsonClosure
  rw [checkClosureLoop_outside]
  unfold firstSpan at h
  cases ho : openOffset s false false with
  | none => rfl
  | some j =>
    rw [ho] at h
    simp only at h
    cases hc : closeOffset (s.drop (j + 1)) false false 1 with
    | none => simp [closureOutside, hc, closureInside]
    | some k => rw [hc] at h; simp at h

theorem closureVerdict_span (E : Engine) (s : FString) (j k : Nat)
    (h : firstSpan s = some (j, k)) :
    closureVerdict E (Mid s j (k + 2)) = closureVerdict E s := by
  obtain ⟨h1, h2⟩ := firstSpan_spanText s [] j k h
  rw [List.append_nil] at h1 h2
  unfold closureVerdict
  rw [isValid_of_span E _ 0 k h1, h2, isValid_of_span E s j k h]
/-- C2, as the code has it. When the stream `A` holds a closed top-level object and the first
one fails `IsValidDirectorJSON`, `CheckJsonClosure` reports `ClosedInvalid` on `A` and still
`ClosedInvalid` on every continuation `A ++ B`, whatever `B` completes: the detector judges
the first balanced object only. -/
theorem CheckJsonClosure_first_object_only (E : Engine) (A B : FString)
    (hA : (ExtractStrictJSONObject E A).found = true)
    (hInvalid : (IsValidDirectorJSON E A).ok = false) :
    CheckJsonClosure E A = EJsonProbe.ClosedInvalid ∧
      CheckJsonClosure E (A ++ B) = EJsonProbe.ClosedInvalid := by
  obtain ⟨j, k, hs⟩ := (extract_found_iff E A).mp hA
  obtain ⟨hs', hm⟩ := firstSpan_append A B j k hs
  have hv : closureVerdict E (Mid A j (k + 2)) = EJsonProbe.ClosedInvalid := by
    rw [closureVerdict_span E A j k hs]
    simp [closureVerdict, hInvalid]
  exact ⟨by rw [CheckJsonClosure_of_span E A j k hs, hv],
    by rw [CheckJsonClosure_of_span E (A ++ B) j k hs', hm, hv]⟩

set_option maxRecDepth 1000000 in
/-- Witness of C2 as amended: a note object followed by the scenario object. -/
theorem CheckJsonClosure_first_object_only_witness :
    (ExtractStrictJSONObject refEngine noteJSON).found = true ∧
      (IsValidDirectorJSON refEngine noteJSON).ok = false ∧
      CheckJsonClosure refEngine noteJSON = EJsonProbe.ClosedInvalid ∧
      CheckJsonClosure refEngine (noteJSON ++ scenarioJSON) = EJsonProbe.ClosedInvalid :=
  ⟨(by decide), (by decide),
    CheckJsonClosure_first_object_only refEngine noteJSON scenarioJSON (by decide) (by decide)⟩

set_option maxRecDepth 1000000 in
/-- Counterexample to C2 as stated: the stream is `noteJSON ++ scenarioJSON`.  Its prefix
`noteJSON` ends exactly at the close of a first balanced object, which fails
`IsValidDirectorJSON`; the rest completes a second balanced object, `scenarioJSON`, which
passes; yet the detector does not report `ClosedValid` on the whole stream. -/
theorem CheckJsonClosure_second_object_counterexample :
    (ExtractStrictJSONObject refEngine noteJSON).Out = noteJSON ∧
      (IsValidDirectorJSON refEngine noteJSON).ok = false ∧
      CollectBalancedObjects (noteJSON ++ scenarioJSON) = [noteJSON, scenarioJSON] ∧
      (IsValidDirectorJSON refEngine scenarioJSON).ok = true ∧
      CheckJsonClosure refEngine noteJSON = EJsonProbe.ClosedInvalid ∧
      CheckJsonClosure refEngine (noteJSON ++ scenarioJSON) ≠ EJsonProbe.ClosedValid := by
  decide
/-! ## What an accepted object satisfies -/

theorem validateExtracted_ok (E : Engine) (Out : FString)
    (h : (validateExtracted E Out).ok = true) :
    20 ≤ Out.length ∧ ∃ Root, E.Deserialize Out = some Root ∧ schemaChecks E Root = none := by
  unfold validateExtracted at h
  by_cases h1 : Out.length < 20
  · rw [if_pos h1] at h; cases h
  · rw [if_neg h1] at h
    refine ⟨Nat.le_of_not_lt h1, ?_⟩
    cases hd : E.Deserialize Out with
    | none => rw [hd] at h; cases h
    | some Root =>
      rw [hd] at h
      simp only at h
      cases hc : schemaChecks E Root with
      | none => exact ⟨Root, rfl, hc⟩
      | some err => rw [hc] at h; cases h

theorem accepted_root (E : Engine) (x : FString) (h : (IsValidDirectorJSON E x).ok = true) :
    ∃ Root, E.Deserialize (IsValidDirectorJSON E x).OutCleanedJSON = some Root ∧
      schemaChecks E Root = none := by
  obtain ⟨j, k, hs, hc⟩ := isValid_ok_span E x h
  rw [isValid_of_span E x j k hs] at h
  rw [hc]
  exact (validateExtracted_ok E _ h).2

theorem schemaChecks_none (E : Engine) (Root : JObject) (h : schemaChecks E Root = none) :
    checkIntent E Root = none ∧ RequireString E Root (TEXT "reason") = none ∧
      checkToolCalls E Root = none ∧ checkDialogue E Root = none ∧
      checkQuestPatch E Root = none ∧ checkSkeletal E Root = none := by
  unfold schemaChecks at h
  cases h1 : checkIntent E Root with
  | some e => rw [h1] at h; cases h
  | none =>
    rw [h1] at h
    simp only at h
    cases h2 : RequireString E Root (TEXT "reason") with
    | some e => rw [h2] at h; cases h
    | none =>
      rw [h2] at h
      simp only at h
      cases h3 : checkToolCalls E Root with
      | some e => rw [h3] at h; cases h
      | none =>
        rw [h3] at h
        simp only at h
        cases h4 : checkDialogue E Root with
        | some e => rw [h4] at h; cases h
        | none =>
          rw [h4] at h
          simp only at h
          cases h5 : checkQuestPatch E Root with
          | some e => rw [h5] at h; cases h
          | none =>
            rw [h5] at h
            simp only at h
            exact ⟨rfl, rfl, rfl, rfl, rfl, h⟩

theorem isInSet_iff (E : Engine) (v : FString) (A : List FString) :
    IsInSet E v A = true ↔ ∃ a ∈ A, E.Equals a v = true := by
  simp [IsInSet, List.any_eq_true]

theorem requireString_none (E : Engine) (Obj : JObject) (Key : FString)
    (h : RequireString E Obj Key = none) :
    ∃ s, TryGetStringField E Obj Key = some s ∧ TrimStartAndEnd E s ≠ [] := by
  unfold RequireString at h
  cases hs : TryGetStringField E Obj Key with
  | none => rw [hs] at h; cases h
  | some s =>
    rw [hs] at h
    simp only at h
    split_ifs at h with h1
    exact ⟨s, rfl, by simpa [List.isEmpty_iff] using h1⟩

theorem hasTypedField_array (E : Engine) (Obj : JObject) (Key : FString) (xs : List Json)
    (h : TryGetArrayField E Obj Key = some xs) :
    HasTypedField E Obj Key EJson.Array = true ∧ TryGetField E Obj Key = some (Json.array xs) := by
  unfold TryGetArrayField at h
  unfold HasTypedField
  cases hf : TryGetField E Obj Key with
  | none => rw [hf] at h; cases h
  | some v =>
    rw [hf] at h
    cases v <;> simp [TryGetArray, Json.tag] at h ⊢
    exact h

theorem hasTypedField_object (E : Engine) (Obj : JObject) (Key : FString) (fs : JObject)
    (h : TryGetObjectField E Obj Key = some fs) :
    HasTypedField E Obj Key EJson.Object = true ∧
      TryGetField E Obj Key = some (Json.object fs) := by
  unfold TryGetObjectField at h
  unfold HasTypedField
  cases hf : TryGetField E Obj Key with
  | none => rw [hf] at h; cases h
  | some v =>
    rw [hf] at h
    cases v <;> simp [TryGetObject, Json.tag] at h ⊢
    exact h
theorem isValid_cleaned (E : Engine) (x : FString) :
    (IsValidDirectorJSON E x).OutCleanedJSON = (ExtractStrictJSONObject E x).Out := by
  cases hs : firstSpan x with
  | none =>
    have h := extract_of_noSpan E x hs
    unfold IsValidDirectorJSON
    rw [h.1, h.2]
    simp
  | some p =>
    obtain ⟨j, k⟩ := p
    rw [isValid_of_span E x j k hs, validateExtracted_out, extract_of_span E x j k hs]

/-- C4, as the code has it. The text `IsValidDirectorJSON` returns in `OutCleanedJSON` is
always the substring that `ExtractStrictJSONObject` extracted, verbatim, with whatever
whitespace it holds: nothing is re-serialized. -/
theorem IsValidDirectorJSON_cleaned_is_extracted (E : Engine) (x : FString) :
    (IsValidDirectorJSON E x).OutCleanedJSON = (ExtractStrictJSONObject E x).Out :=
  isValid_cleaned E x

set_option maxRecDepth 1000000 in
/-- Counterexample to C4 as stated: `spacedJSON` is accepted and has blanks between its
tokens (its second character is one), yet the cleaned text is the extracted substring,
blanks included. -/
theorem IsValidDirectorJSON_cleaned_counterexample :
    (IsValidDirectorJSON refEngine spacedJSON).ok = true ∧
      spacedJSON.take 2 = ['{', ' '] ∧
      (IsValidDirectorJSON refEngine spacedJSON).OutCleanedJSON
        = (ExtractStrictJSONObject refEngine spacedJSON).Out ∧
      (IsValidDirectorJSON refEngine spacedJSON).OutCleanedJSON = spacedJSON ∧
      ' ' ∈ (IsValidDirectorJSON refEngine spacedJSON).OutCleanedJSON := by
  decide

/-- C6, as the code has it. Every object accepted by `IsValidDirectorJSON` has an `intent`
that reads as a string and, once its leading and trailing whitespace is trimmed, is an element
of the allowed set; and an object whose `intent` is missing or, trimmed, is not one of these
values is rejected. -/
theorem IsValidDirectorJSON_intent (E : Engine) (x : FString) :
    ((IsValidDirectorJSON E x).ok = true →
      ∃ Root Intent, E.Deserialize (IsValidDirectorJSON E x).OutCleanedJSON = some Root ∧
        TryGetStringField E Root (TEXT "intent") = some Intent ∧
        ∃ a ∈ kAllowedIntents, E.Equals a (TrimStartAndEnd E Intent) = true) ∧
    (∀ Root, E.Deserialize (ExtractStrictJSONObject E x).Out = some Root →
      (∀ Intent, TryGetStringField E Root (TEXT "intent") = some Intent →
        ∀ a ∈ kAllowedIntents, E.Equals a (TrimStartAndEnd E Intent) = false) →
      (IsValidDirectorJSON E x).ok = false) := by
  have key : ∀ Root, checkIntent E Root = none →
      ∃ Intent, TryGetStringField E Root (TEXT "intent") = some Intent ∧
        ∃ a ∈ kAllowedIntents, E.Equals a (TrimStartAndEnd E Intent) = true := by
    intro Root h
    unfold checkIntent at h
    cases hs : TryGetStringField E Root (TEXT "intent") with
    | none => rw [hs] at h; cases h
    | some Intent =>
      rw [hs] at h
      simp only at h
      by_cases hi : IsInSet E (TrimStartAndEnd E Intent) kAllowedIntents = true
      · exact ⟨Intent, rfl, (isInSet_iff E _ _).mp hi⟩
      · rw [if_neg hi] at h; cases h
  constructor
  · intro h
    obtain ⟨Root, hd, hc⟩ := accepted_root E x h
    obtain ⟨Intent, h1, h2⟩ := key Root (schemaChecks_none E Root hc).1
    exact ⟨Root, Intent, hd, h1, h2⟩
  · intro Root hd hbad
    by_contra hok
    have hok' : (IsValidDirectorJSON E x).ok = true := by simpa using hok
    obtain ⟨Root', hd', hc⟩ := accepted_root E x hok'
    rw [isValid_cleaned, hd] at hd'
    cases hd'
    obtain ⟨Intent, h1, a, ha, h2⟩ := key Root (schemaChecks_none E Root hc).1
    rw [hbad Intent h1 a ha] at h2
    cases h2

set_option maxRecDepth 1000000 in
/-- Witness of C6 as amended: the object with the padded intent is accepted. -/
theorem IsValidDirectorJSON_intent_witness :
    (IsValidDirectorJSON refEngine paddedIntentJSON).ok = true ∧
      ∃ Root Intent,
        refEngine.Deserialize (IsValidDirectorJSON refEngine paddedIntentJSON).OutCleanedJSON
          = some Root ∧
        TryGetStringField refEngine Root (TEXT "intent") = some Intent ∧
        ∃ a ∈ kAllowedIntents, refEngine.Equals a (TrimStartAndEnd refEngine Intent) = true :=
  ⟨(by decide), (IsValidDirectorJSON_intent refEngine paddedIntentJSON).1 (by decide)⟩

set_option maxRecDepth 1000000 in
/-- Counterexample to C6 as stated: `paddedIntentJSON` is accepted although its `intent` is
the string ` warn `, blanks included, which is not an element of the allowed set. -/
theorem IsValidDirectorJSON_intent_counterexample :
    (IsValidDirectorJSON refEngine paddedIntentJSON).ok = true ∧
      (refEngine.Deserialize paddedIntentJSON).bind
          (fun Root => TryGetStringField refEngine Root (TEXT "intent"))
        = some (TEXT " warn ") ∧
      TEXT " warn " ∉ kAllowedIntents := by
  decide
theorem toolCallsLoop_none (E : Engine) :
    ∀ (Calls : List Json) (i : Nat), toolCallsLoop E Calls i = none →
      ∀ v ∈ Calls, ∃ Call Name Args, AsObject v = some Call ∧
        TryGetStringField E Call (TEXT "name") = some Name ∧
        (∃ a ∈ kAllowedTools, E.Equals a Name = true) ∧
        TryGetField E Call (TEXT "args") = some (Json.object Args) := by
  intro Calls
  induction Calls with
  | nil => intro i _ v hv; cases hv
  | cons c rest ih =>
    intro i h v hv
    unfold toolCallsLoop at h
    cases h1 : AsObject c with
    | none => rw [h1] at h; cases h
    | some Call =>
      rw [h1] at h
      simp only at h
      cases h2 : TryGetStringField E Call (TEXT "name") with
      | none => rw [h2] at h; cases h
      | some Name =>
        rw [h2] at h
        simp only at h
        by_cases h3 : IsInSet E Name kAllowedTools = true
        · rw [if_pos h3] at h
          cases h4 : TryGetObjectField E Call (TEXT "args") with
          | none => rw [h4] at h; cases h
          | some Args =>
            rw [h4] at h
            simp only at h
            rcases List.mem_cons.mp hv with rfl | hv'
            · exact ⟨Call, Name, Args, h1, h2, (isInSet_iff E _ _).mp h3,
                (hasTypedField_object E Call _ Args h4).2⟩
            · exact ih (i + 1) h v hv'
        · rw [if_neg h3] at h; cases h

/-- C7. For every object accepted by `IsValidDirectorJSON` whose `tool_calls` is an array,
every element of the array is an object with a `name` that reads as a string and is in the
allowed tool set, and an `args` field that is a JSON object (possibly empty); so an element
whose `args` is a string, a number or an array is rejected. -/
theorem IsValidDirectorJSON_tool_calls (E : Engine) (x : FString)
    (h : (IsValidDirectorJSON E x).ok = true) :
    ∃ Root, E.Deserialize (IsValidDirectorJSON E x).OutCleanedJSON = some Root ∧
      ∀ Calls, TryGetArrayField E Root (TEXT "tool_calls") = some Calls →
        ∀ v ∈ Calls, ∃ Call Name Args, AsObject v = some Call ∧
          TryGetStringField E Call (TEXT "name") = some Name ∧
          (∃ a ∈ kAllowedTools, E.Equals a Name = true) ∧
          TryGetField E Call (TEXT "args") = some (Json.object Args) := by
  obtain ⟨Root, hd, hc⟩ := accepted_root E x h
  refine ⟨Root, hd, ?_⟩
  intro Calls hCalls
  have ht := (schemaChecks_none E Root hc).2.2.1
  unfold checkToolCalls at ht
  rw [if_pos (hasTypedField_array E Root _ Calls hCalls).1, hCalls] at ht
  exact toolCallsLoop_none E Calls 0 ht

set_option maxRecDepth 1000000 in
/-- Witness of C7: the scenario object, with its one `WeatherControl` call. -/
theorem IsValidDirectorJSON_tool_calls_witness :
    (IsValidDirectorJSON refEngine scenarioJSON).ok = true ∧
      ∃ Root, refEngine.Deserialize (IsValidDirectorJSON refEngine scenarioJSON).OutCleanedJSON
          = some Root ∧
        ∀ Calls, TryGetArrayField refEngine Root (TEXT "tool_calls") = some Calls →
          ∀ v ∈ Calls, ∃ Call Name Args, AsObject v = some Call ∧
            TryGetStringField refEngine Call (TEXT "name") = some Name ∧
            (∃ a ∈ kAllowedTools, refEngine.Equals a Name = true) ∧
            TryGetField refEngine Call (TEXT "args") = some (Json.object Args) :=
  ⟨(by decide), IsValidDirectorJSON_tool_calls refEngine scenarioJSON (by decide)⟩
set_option maxRecDepth 1000000 in
/-- C8, at the failing input. `wrongTypesJSON` carries `tool_calls`, `dialogue` and
`quest_patch` as strings, and `IsValidDirectorJSON` accepts it: each section is looked at
only when it already has the right type. -/
theorem IsValidDirectorJSON_accepts_wrong_types :
    IsValidDirectorJSON refEngine wrongTypesJSON = ⟨true, wrongTypesJSON, []⟩ ∧
      (refEngine.Deserialize wrongTypesJSON).bind
          (fun Root => TryGetStringField refEngine Root (TEXT "tool_calls")) = some ['x'] ∧
      (refEngine.Deserialize wrongTypesJSON).bind
          (fun Root => TryGetStringField refEngine Root (TEXT "dialogue")) = some ['x'] ∧
      (refEngine.Deserialize wrongTypesJSON).bind
          (fun Root => TryGetStringField refEngine Root (TEXT "quest_patch")) = some ['x'] := by
  decide

theorem linesLoop_none (E : Engine) :
    ∀ (Lines : List Json) (i : Nat), linesLoop E Lines i = none →
      ∀ v ∈ Lines, ∃ L, E.TryGetString v = some L ∧ TrimStartAndEnd E L ≠ [] := by
  intro Lines
  induction Lines with
  | nil => intro i _ v hv; cases hv
  | cons c rest ih =>
    intro i h v hv
    unfold linesLoop at h
    cases h1 : E.TryGetString c with
    | none => rw [h1] at h; cases h
    | some L =>
      rw [h1] at h
      simp only at h
      by_cases h2 : (TrimStartAndEnd E L).isEmpty = true
      · rw [if_pos h2] at h; cases h
      · rw [if_neg h2] at h
        rcases List.mem_cons.mp hv with rfl | hv'
        · exact ⟨L, h1, by simpa [List.isEmpty_iff] using h2⟩
        · exact ih (i + 1) h v hv'

theorem checkDialogueObject_none (E : Engine) (Dlg : JObject)
    (h : checkDialogueObject E Dlg = none) :
    (∃ Speaker, TryGetStringField E Dlg (TEXT "speaker") = some Speaker ∧
        TrimStartAndEnd E Speaker ≠ []) ∧
      (HasField E Dlg (TEXT "emote") = true →
        ∃ Emote, TryGetStringField E Dlg (TEXT "emote") = some Emote ∧
          TrimStartAndEnd E Emote ≠ []) ∧
      ∃ Lines, TryGetArrayField E Dlg (TEXT "lines") = some Lines ∧ Lines ≠ [] ∧
        ∀ v ∈ Lines, ∃ L, E.TryGetString v = some L ∧ TrimStartAndEnd E L ≠ [] := by
  unfold checkDialogueObject at h
  cases h1 : TryGetStringField E Dlg (TEXT "speaker") with
  | none => rw [h1] at h; cases h
  | some Speaker =>
    rw [h1] at h
    simp only at h
    by_cases h2 : (TrimStartAndEnd E Speaker).isEmpty = true
    · rw [if_pos h2] at h; cases h
    rw [if_neg h2] at h
    by_cases h3 :
        (HasField E Dlg (TEXT "emote") && !OptionalStringNonEmpty E Dlg (TEXT "emote")) = true
    · rw [if_pos h3] at h; cases h
    rw [if_neg h3] at h
    cases h4 : TryGetArrayField E Dlg (TEXT "lines") with
    | none => rw [h4] at h; cases h
    | some Lines =>
      rw [h4] at h
      simp only at h
      by_cases h5 : Lines.length = 0
      · rw [if_pos h5] at h; cases h
      rw [if_neg h5] at h
      refine ⟨⟨Speaker, rfl, by simpa [List.isEmpty_iff] using h2⟩, ?_,
        ⟨Lines, rfl, by simpa using h5, linesLoop_none E Lines 0 h⟩⟩
      intro hE
      rw [hE] at h3
      unfold OptionalStringNonEmpty at h3
      cases h6 : TryGetStringField E Dlg (TEXT "emote") with
      | none => rw [h6] at h3; simp at h3
      | some Emote =>
        rw [h6] at h3
        refine ⟨Emote, rfl, ?_⟩
        simpa [List.isEmpty_iff] using h3

/-- What acceptance says of a dialogue on any engine: the engine's string accessor reads
`speaker`, `emote` if present, and every element of the non-empty array `lines` as a text
that is non-empty after trimming. Whether such a value is a JSON string is up to the
accessor. -/
theorem isValid_dialogue_reads (E : Engine) (x : FString)
    (h : (IsValidDirectorJSON E x).ok = true) :
    ∃ Root, E.Deserialize (IsValidDirectorJSON E x).OutCleanedJSON = some Root ∧
      ∀ Dlg, TryGetObjectField E Root (TEXT "dialogue") = some Dlg →
        (∃ Speaker, TryGetStringField E Dlg (TEXT "speaker") = some Speaker ∧
            TrimStartAndEnd E Speaker ≠ []) ∧
          (HasField E Dlg (TEXT "emote") = true →
            ∃ Emote, TryGetStringField E Dlg (TEXT "emote") = some Emote ∧
              TrimStartAndEnd E Emote ≠ []) ∧
          ∃ Lines, TryGetArrayField E Dlg (TEXT "lines") = some Lines ∧ Lines ≠ [] ∧
            ∀ v ∈ Lines, ∃ L, E.TryGetString v = some L ∧ TrimStartAndEnd E L ≠ [] := by
  obtain ⟨Root, hd, hc⟩ := accepted_root E x h
  refine ⟨Root, hd, ?_⟩
  intro Dlg hDlg
  have ht := (schemaChecks_none E Root hc).2.2.2.1
  unfold checkDialogue at ht
  rw [if_pos (hasTypedField_object E Root _ Dlg hDlg).1, hDlg] at ht
  exact checkDialogueObject_none E Dlg ht

set_option maxRecDepth 1000000 in
/-- C9, at the failing input. With the string accessor of Unreal's JSON values, which reads
numbers and booleans as text, `IsValidDirectorJSON` accepts an object whose dialogue has the
number 7 for `speaker`, the boolean `true` for `emote` and the numbers 1 and 2 for `lines`;
with an accessor that reads strings only, the same text is rejected at `speaker`. -/
theorem IsValidDirectorJSON_accepts_numeric_dialogue :
    IsValidDirectorJSON coercingEngine numericDialogueJSON = ⟨true, numericDialogueJSON, []⟩ ∧
    ((coercingEngine.Deserialize numericDialogueJSON).bind
        (fun Root => TryGetObjectField coercingEngine Root (TEXT "dialogue"))).map
      (fun Dlg =>
        ((TryGetField coercingEngine Dlg (TEXT "speaker")).map Json.tag,
          (TryGetField coercingEngine Dlg (TEXT "emote")).map Json.tag,
          (TryGetArrayField coercingEngine Dlg (TEXT "lines")).map (fun l => l.map Json.tag)))
      = some (some EJson.Number, some EJson.Boolean, some [EJson.Number, EJson.Number]) ∧
    IsValidDirectorJSON refEngine numericDialogueJSON
      = ⟨false, numericDialogueJSON,
          TEXT "'dialogue.speaker' is required and must be non-empty."⟩ := by
  decide

set_option maxRecDepth 1000000 in
/-- C10, at the failing input. `wrongObjectivesJSON` has a `quest_patch` object with a quest
id and the string `x` for `addObjectives`, and `IsValidDirectorJSON` accepts it: the
objectives are looked at only when they already are an array. -/
theorem IsValidDirectorJSON_accepts_wrong_objectives :
    IsValidDirectorJSON refEngine wrongObjectivesJSON = ⟨true, wrongObjectivesJSON, []⟩ ∧
      ((refEngine.Deserialize wrongObjectivesJSON).bind
          (fun Root => TryGetObjectField refEngine Root (TEXT "quest_patch"))).bind
        (fun QP => TryGetStringField refEngine QP (TEXT "addObjectives")) = some ['x'] := by
  decide
set_option maxRecDepth 1000000 in
/-- C3, at the failing input. A stub emits a note object as its first token and would emit
the scenario object next. With a budget of 800 tokens the loop is left after that first token,
for the reason `json_done`: the stream is then the note object alone, the only balanced
top-level object in it, which fails `IsValidDirectorJSON` and for which `CheckJsonClosure`
says `ClosedInvalid`. No end-of-generation token was produced, the budget is not used up and
no accepted object is in the stream. -/
theorem generateLoop_stops_on_invalid_object :
    runGeneration noteThenScenarioStub 800 0 0
        = (⟨0, noteJSON, [0], 0⟩, StopReason.JsonDone) ∧
      noteThenScenarioStub.is_eog (noteThenScenarioStub.pick 0) = false ∧
      json_done noteJSON = true ∧
      CollectBalancedObjects noteJSON = [noteJSON] ∧
      (IsValidDirectorJSON refEngine noteJSON).ok = false ∧
      CheckJsonClosure refEngine noteJSON = EJsonProbe.ClosedInvalid ∧
      noteThenScenarioStub.token_to_piece (noteThenScenarioStub.pick 1) = scenarioJSON ∧
      (IsValidDirectorJSON refEngine scenarioJSON).ok = true := by
  decide

/-! ## The two guards against stub objects -/

theorem presentKeyCount_le_two (E : Engine) (Root : JObject)
    (h1 : HasField E Root (TEXT "tool_calls") = false)
    (h2 : HasField E Root (TEXT "dialogue") = false)
    (h3 : HasField E Root (TEXT "quest_patch") = false) :
    PresentKeyCount E Root ≤ 2 := by
  unfold PresentKeyCount RequiredTopKeys
  simp only [List.filter_cons, h1, h2, h3, List.filter_nil]
  by_cases ha : HasField E Root (TEXT "intent") = true <;>
    by_cases hb : HasField E Root (TEXT "reason") = true <;>
    simp [ha, hb]

/-- C11. Every object accepted by `IsValidDirectorJSON` has at least 3 of the 5 top-level keys
`intent`, `reason`, `tool_calls`, `dialogue`, `quest_patch`; and an object that has none of
`tool_calls`, `dialogue` and `quest_patch` is rejected, whatever its intent and reason. -/
theorem IsValidDirectorJSON_skeletal (E : Engine) (x : FString) :
    ((IsValidDirectorJSON E x).ok = true →
      ∃ Root, E.Deserialize (IsValidDirectorJSON E x).OutCleanedJSON = some Root ∧
        3 ≤ PresentKeyCount E Root) ∧
    (∀ Root, E.Deserialize (ExtractStrictJSONObject E x).Out = some Root →
      HasField E Root (TEXT "tool_calls") = false →
      HasField E Root (TEXT "dialogue") = false →
      HasField E Root (TEXT "quest_patch") = false →
      (IsValidDirectorJSON E x).ok = false) := by
  have key : ∀ Root, schemaChecks E Root = none → 3 ≤ PresentKeyCount E Root := by
    intro Root hc
    have h := (schemaChecks_none E Root hc).2.2.2.2.2
    unfold checkSkeletal at h
    by_cases hk : PresentKeyCount E Root < 3
    · rw [if_pos hk] at h; cases h
    · exact Nat.le_of_not_lt hk
  constructor
  · intro h
    obtain ⟨Root, hd, hc⟩ := accepted_root E x h
    exact ⟨Root, hd, key Root hc⟩
  · intro Root hd h1 h2 h3
    by_contra hok
    have hok' : (IsValidDirectorJSON E x).ok = true := by simpa using hok
    obtain ⟨Root', hd', hc⟩ := accepted_root E x hok'
    rw [isValid_cleaned, hd] at hd'
    cases hd'
    have := key Root hc
    have := presentKeyCount_le_two E Root h1 h2 h3
    omega

set_option maxRecDepth 1000000 in
/-- Witness of C11: the scenario object has its 5 keys and is accepted; the object with only
an intent and a reason is rejected. -/
theorem IsValidDirectorJSON_skeletal_witness :
    (IsValidDirectorJSON refEngine scenarioJSON).ok = true ∧
      (∃ Root, refEngine.Deserialize (IsValidDirectorJSON refEngine scenarioJSON).OutCleanedJSON
          = some Root ∧ 3 ≤ PresentKeyCount refEngine Root) ∧
      (IsValidDirectorJSON refEngine skeletalJSON).ok = false :=
  ⟨(by decide), (IsValidDirectorJSON_skeletal refEngine scenarioJSON).1 (by decide),
    (IsValidDirectorJSON_skeletal refEngine skeletalJSON).2
      [(TEXT "intent", Json.string (TEXT "warn")),
        (TEXT "reason", Json.string (TEXT "storm approaching"))]
      (by rfl) (by decide) (by decide) (by decide)⟩

/-- C12. `IsValidDirectorJSON` rejects every input whose extracted object text is shorter than
20 characters, whatever the parser would make of it: the result is then the fixed error, with
no call of the parser in it.  So it rejects the empty object `{}`, and no accepted cleaned
text has length below 20. -/
theorem IsValidDirectorJSON_min_length (E : Engine) (x : FString) :
    ((ExtractStrictJSONObject E x).found = true →
      (ExtractStrictJSONObject E x).Out.length < 20 →
      IsValidDirectorJSON E x
        = ⟨false, (ExtractStrictJSONObject E x).Out,
            TEXT "JSON object too short/minimal to be valid."⟩) ∧
    ((ExtractStrictJSONObject E x).Out.length < 20 → (IsValidDirectorJSON E x).ok = false) ∧
    (IsValidDirectorJSON E emptyObjectJSON).ok = false ∧
    ((IsValidDirectorJSON E x).ok = true → 20 ≤ (IsValidDirectorJSON E x).OutCleanedJSON.length) := by
  have hacc : (IsValidDirectorJSON E x).ok = true →
      20 ≤ (IsValidDirectorJSON E x).OutCleanedJSON.length := by
    intro h
    obtain ⟨j, k, hs, hc⟩ := isValid_ok_span E x h
    rw [isValid_of_span E x j k hs] at h
    rw [hc]
    exact (validateExtracted_ok E _ h).1
  refine ⟨?_, ?_, ?_, hacc⟩
  · intro hf hlen
    unfold IsValidDirectorJSON validateExtracted
    rw [if_pos hf, if_pos hlen]
  · intro hlen
    by_contra hok
    have hok' : (IsValidDirectorJSON E x).ok = true := by simpa using hok
    have := hacc hok'
    rw [isValid_cleaned] at this
    omega
  · have hs : firstSpan emptyObjectJSON = some (0, 0) := by decide
    rw [isValid_of_span E _ 0 0 hs]
    have hm : Mid emptyObjectJSON 0 (0 + 2) = emptyObjectJSON := by decide
    rw [hm]
    unfold validateExtracted
    rw [if_pos (by decide)]

set_option maxRecDepth 1000000 in
/-- Witness of C12: the note object is found and has 19 characters; the scenario object is
accepted. -/
theorem IsValidDirectorJSON_min_length_witness :
    (ExtractStrictJSONObject refEngine noteJSON).found = true ∧
      (ExtractStrictJSONObject refEngine noteJSON).Out.length < 20 ∧
      IsValidDirectorJSON refEngine noteJSON
        = ⟨false, (ExtractStrictJSONObject refEngine noteJSON).Out,
            TEXT "JSON object too short/minimal to be valid."⟩ ∧
      (IsValidDirectorJSON refEngine scenarioJSON).ok = true ∧
      20 ≤ (IsValidDirectorJSON refEngine scenarioJSON).OutCleanedJSON.length :=
  ⟨(by decide), (by decide),
    (IsValidDirectorJSON_min_length refEngine noteJSON).1 (by decide) (by decide),
    (by decide), (IsValidDirectorJSON_min_length refEngine scenarioJSON).2.2.2 (by decide)⟩
/-! ## A backslash outside a string -/

set_option maxRecDepth 1000000 in
/-- C17, at the failing input. With a backslash in front of the scenario object, the three
scanners skip the brace that follows it: `ExtractStrictJSONObject` finds the inner tool call
instead of the scenario object, `CheckJsonClosure` says `ClosedInvalid` instead of
`ClosedValid`, and `json_done` misses the object `{}` after a backslash; whereas
`CollectBalancedObjects`, which sets the escape flag inside strings only, still finds the
scenario object first. -/
theorem scanners_escape_outside_string :
    (ExtractStrictJSONObject refEngine scenarioJSON).Out = scenarioJSON ∧
      (ExtractStrictJSONObject refEngine ('\\' :: scenarioJSON)).Out = weatherCallJSON ∧
      CheckJsonClosure refEngine scenarioJSON = EJsonProbe.ClosedValid ∧
      CheckJsonClosure refEngine ('\\' :: scenarioJSON) = EJsonProbe.ClosedInvalid ∧
      json_done emptyObjectJSON = true ∧
      json_done ('\\' :: emptyObjectJSON) = false ∧
      (CollectBalancedObjects ('\\' :: scenarioJSON)).head? = some scenarioJSON := by
  decide

/-! ## The generation loop is bounded by its budget -/

theorem generateLoop_bounds {σ : Type} (M : ModelStub σ) (steps : Nat) (st : GenState σ) :
    (generateLoop M steps st).1.out_tokens.length ≤ st.out_tokens.length + steps ∧
      st.cur_pos ≤ (generateLoop M steps st).1.cur_pos ∧
      (generateLoop M steps st).1.cur_pos ≤ st.cur_pos + steps := by
  induction steps generalizing st with
  | zero => simp [generateLoop]
  | succ n ih =>
    unfold generateLoop
    by_cases h1 : M.has_logits st.ctx = false
    · rw [if_pos h1]; simp; omega
    rw [if_neg h1]
    by_cases h2 : M.pick st.ctx < 0 ∨ M.pick st.ctx ≥ M.n_vocab
    · rw [if_pos h2]; simp; omega
    rw [if_neg h2]
    by_cases h3 : M.is_eog (M.pick st.ctx) = true
    · rw [if_pos h3]; simp; omega
    rw [if_neg h3]
    by_cases h4 : json_done (st.stream ++ M.token_to_piece (M.pick st.ctx)) = true
    · rw [if_pos h4]; simp; omega
    rw [if_neg h4]
    cases h5 : M.decode st.ctx (M.pick st.ctx) st.cur_pos with
    | none => simp
    | some ctx' =>
      have h := ih ⟨ctx', st.stream ++ M.token_to_piece (M.pick st.ctx),
        st.out_tokens ++ [M.pick st.ctx], st.cur_pos + 1⟩
      simp only [List.length_append, List.length_singleton] at h
      simp only
      push_cast
      omega

/-- C18. For every model stub and every `max_new ≥ 0`, the generation loop of `GenerateJSON`
returns, having appended at most `max_new` tokens to `out_tokens` and issued at most `max_new`
single-token decodes after the prompt decode: `cur_pos`, which starts at the prompt's token
count and is advanced once for each such decode, ends at most `max_new` further. -/
theorem runGeneration_bounded {σ : Type} (M : ModelStub σ) (max_new : Int) (ctx : σ)
    (tok_count : Int) (h : 0 ≤ max_new) :
    ((runGeneration M max_new ctx tok_count).1.out_tokens.length : Int) ≤ max_new ∧
      tok_count ≤ (runGeneration M max_new ctx tok_count).1.cur_pos ∧
      (runGeneration M max_new ctx tok_count).1.cur_pos - tok_count ≤ max_new := by
  have hb := generateLoop_bounds M max_new.toNat ⟨ctx, [], [], tok_count⟩
  have ht : ((max_new.toNat : Nat) : Int) = max_new := Int.toNat_of_nonneg h
  unfold runGeneration
  simp only [List.length_nil, Nat.zero_add] at hb
  refine ⟨?_, hb.2.1, ?_⟩
  · have := hb.1
    omega
  · have := hb.2.2
    omega

set_option maxRecDepth 1000000 in
/-- Witness of C18: a budget of 800 tokens and the stub whose decode fails. -/
theorem runGeneration_bounded_witness :
    (0 : Int) ≤ 800 ∧
      ((runGeneration decodeFailStub 800 0 0).1.out_tokens.length : Int) ≤ 800 ∧
      (0 : Int) ≤ (runGeneration decodeFailStub 800 0 0).1.cur_pos ∧
      (runGeneration decodeFailStub 800 0 0).1.cur_pos - 0 ≤ 800 :=
  ⟨(by decide), runGeneration_bounded decodeFailStub 800 0 0 (by decide)⟩
/-! ## The sampler -/

theorem greedyLoop_lt {F : Type} [LinearOrder F] :
    ∀ (rest : List (FloatVal F)) (i : Nat) (m : FloatVal F) (best : Nat), best < i →
      greedyLoop rest i m best < i + rest.length := by
  intro rest
  induction rest with
  | nil => intro i m best h; simpa [greedyLoop] using h
  | cons x rest ih =>
    intro i m best h
    unfold greedyLoop
    split_ifs
    · have := ih (i + 1) x i (Nat.lt_succ_self i)
      simp only [List.length_cons]; omega
    · have := ih (i + 1) m best (Nat.lt_succ_of_lt h)
      simp only [List.length_cons]; omega

theorem greedy_pick_lt {F : Type} [LinearOrder F] (l : List (FloatVal F))
    (h : 0 < l.length) :
    greedy_pick l < l.length := by
  cases l with
  | nil => cases h
  | cons x rest =>
    have := greedyLoop_lt rest 1 x 0 (by decide)
    simp only [greedy_pick, List.length_cons]; omega

theorem resize_lt (V n : Nat) (l : List Nat) (hV : 0 < V) (h : ∀ i ∈ l, i < V) :
    ∀ i ∈ resize n l, i < V := by
  intro i hi
  unfold resize at hi
  rcases List.mem_append.mp hi with hi | hi
  · exact h i (List.mem_of_mem_take hi)
  · rw [List.eq_of_mem_replicate hi]; exact hV

theorem drawLoop_mem {F : Type} [LinearOrderedField F] (w : List F) (r : F) :
    ∀ (l : List Nat) (acc : F) (choice : Nat),
      drawLoop w r l acc choice ∈ l ∨ drawLoop w r l acc choice = choice := by
  intro l
  induction l with
  | nil => intro acc choice; right; rfl
  | cons id rest ih =>
    intro acc choice
    unfold drawLoop
    split_ifs
    · left; exact List.mem_cons_self _ _
    · rcases ih (acc + at0 w id) choice with h | h
      · left; exact List.mem_cons_of_mem _ h
      · right; exact h

theorem getLastD_lt (V : Nat) (l : List Nat) (hV : 0 < V) (h : ∀ i ∈ l, i < V) :
    l.getLastD 0 < V := by
  cases l with
  | nil => exact hV
  | cons a t =>
    rw [List.getLastD_cons]
    induction t generalizing a with
    | nil => exact h a (List.mem_cons_self _ _)
    | cons b t ih =>
      rw [List.getLastD_cons]
      exact ih b (fun i hi => h i (List.mem_cons_of_mem _ hi))

theorem headD_lt (V : Nat) (l : List Nat) (hV : 0 < V) (h : ∀ i ∈ l, i < V) :
    l.headD 0 < V := by
  cases l with
  | nil => exact hV
  | cons a t => exact h a (List.mem_cons_self _ _)

theorem topKIdx_lt {F : Type} [LinearOrderedField F] (L : SamplerLib F) (hL : L.Reorders)
    (w : List F) (top_k : Int) (V : Nat) (idx : List Nat) (hV : 0 < V)
    (h : ∀ i ∈ idx, i < V) : ∀ i ∈ topKIdx L w top_k V idx, i < V := by
  unfold topKIdx
  apply resize_lt V _ _ hV
  intro i hi
  exact h i ((hL.1 _ _ _).mem_iff.mp hi)

theorem topPIdx_lt {F : Type} [LinearOrderedField F] (w : List F) (top_p : F) (V : Nat)
    (idx : List Nat) (hV : 0 < V) (h : ∀ i ∈ idx, i < V) :
    ∀ i ∈ topPIdx w top_p idx, i < V := by
  unfold topPIdx
  split_ifs
  · exact resize_lt V _ _ hV h
  · exact h
  · exact h

theorem sample_lt {F : Type} [LinearOrderedField F] (L : SamplerLib F) (hL : L.Reorders)
    (logits : List F) (hV : 0 < logits.length) (top_k : Int) (top_p temp r : F)
    (idx : List Nat) (hidx : ∀ i ∈ idx, i < logits.length) :
    (sample_topk_topp_temp L logits top_k top_p temp r idx).1 < logits.length ∧
      ∀ i ∈ (sample_topk_topp_temp L logits top_k top_p temp r idx).2, i < logits.length := by
  simp only [sample_topk_topp_temp]
  generalize (if temp > 0 then logits.map (fun x => x * (1 / temp)) else logits) = w0
  have h1 := topKIdx_lt L hL w0 top_k logits.length idx hV hidx
  by_cases hs : (expLoop L (maxLoop w0 (topKIdx L w0 top_k logits.length idx) (-L.FLT_MAX))
      (topKIdx L w0 top_k logits.length idx) w0 0).2 ≤ 0
  · rw [if_pos hs]
    exact ⟨headD_lt _ _ hV h1, h1⟩
  · rw [if_neg hs]
    refine ⟨?_, fun i hi => List.mem_range.mp hi⟩
    have h2 : ∀ (comp : Nat → Nat → Bool),
        ∀ i ∈ L.sort comp (topKIdx L w0 top_k logits.length idx), i < logits.length :=
      fun comp i hi => h1 i ((hL.2 comp _).mem_iff.mp hi)
    have h3 := fun w comp => topPIdx_lt w top_p logits.length _ hV (h2 comp)
    rcases drawLoop_mem _ r _ 0 _ with h | h
    · exact h3 _ _ _ h
    · rw [h]; exact getLastD_lt _ _ hV (h3 _ _)
theorem refSamplerLib_reorders : refSamplerLib.Reorders :=
  ⟨fun _ _ l => List.perm_insertionSort _ l, fun _ l => List.perm_insertionSort _ l⟩

/-- C19. For every logits vector of size `V > 0` and every sampling configuration (any
`top_k`, `top_p`, `temp`, any draw `r`), with the index vector holding ids below `V` on entry,
the id picked by the sampler (`greedy_pick` when `temp <= 0 && top_k <= 1`, otherwise
`sample_topk_topp_temp`) lies in `[0, V)`, so the out-of-range test of the generation loop
fails; and the index vector still holds ids below `V` on return. -/
theorem pickToken_in_range {F : Type} [LinearOrderedField F] (L : SamplerLib F)
    (hL : L.Reorders) (logits : List F) (hV : 0 < logits.length) (top_k : Int)
    (top_p temp r : F) (idx : List Nat) (hidx : ∀ i ∈ idx, i < logits.length) :
    (0 : Int) ≤ ((pickToken L logits top_k top_p temp r idx).1 : Int) ∧
      ((pickToken L logits top_k top_p temp r idx).1 : Int) < (logits.length : Int) ∧
      ¬ (((pickToken L logits top_k top_p temp r idx).1 : Int) < 0 ∨
          ((pickToken L logits top_k top_p temp r idx).1 : Int) ≥ (logits.length : Int)) ∧
      ∀ i ∈ (pickToken L logits top_k top_p temp r idx).2, i < logits.length := by
  have key : (pickToken L logits top_k top_p temp r idx).1 < logits.length ∧
      ∀ i ∈ (pickToken L logits top_k top_p temp r idx).2, i < logits.length := by
    unfold pickToken
    split_ifs
    · have hg := greedy_pick_lt (logits.map FloatVal.num) (by rw [List.length_map]; exact hV)
      rw [List.length_map] at hg
      exact ⟨hg, hidx⟩
    · exact sample_lt L hL logits hV top_k top_p temp r idx hidx
  refine ⟨Int.ofNat_nonneg _, by exact_mod_cast key.1, ?_, key.2⟩
  have := key.1
  omega

/-- Witness of C19: three logits, `top_k = 2`, `top_p = 4/5`, `temp = 1/5`, draw `1/2`. -/
theorem pickToken_in_range_witness :
    refSamplerLib.Reorders ∧ 0 < ([1, 3, 2] : List ℚ).length ∧
      (∀ i ∈ List.range 3, i < ([1, 3, 2] : List ℚ).length) ∧
      (0 : Int) ≤ ((pickToken refSamplerLib [1, 3, 2] 2 (4 / 5) (1 / 5) (1 / 2)
          (List.range 3)).1 : Int) ∧
      ((pickToken refSamplerLib [1, 3, 2] 2 (4 / 5) (1 / 5) (1 / 2) (List.range 3)).1 : Int)
        < (([1, 3, 2] : List ℚ).length : Int) ∧
      ¬ (((pickToken refSamplerLib [1, 3, 2] 2 (4 / 5) (1 / 5) (1 / 2)
            (List.range 3)).1 : Int) < 0 ∨
          ((pickToken refSamplerLib [1, 3, 2] 2 (4 / 5) (1 / 5) (1 / 2)
            (List.range 3)).1 : Int) ≥ (([1, 3, 2] : List ℚ).length : Int)) ∧
      ∀ i ∈ (pickToken refSamplerLib [1, 3, 2] 2 (4 / 5) (1 / 5) (1 / 2) (List.range 3)).2,
        i < ([1, 3, 2] : List ℚ).length :=
  ⟨refSamplerLib_reorders, (by decide), (by decide),
    pickToken_in_range refSamplerLib refSamplerLib_reorders [1, 3, 2] (by decide) 2 (4 / 5)
      (1 / 5) (1 / 2) (List.range 3) (by decide)⟩

theorem greedyLoop_spec {F : Type} [LinearOrder F] :
    ∀ (rest pre : List F) (m : F) (best : Nat),
      pre[best]? = some m →
      (∀ (j : Nat) (x : F), pre[j]? = some x → x ≤ m) →
      (∀ (j : Nat) (x : F), j < best → pre[j]? = some x → x < m) →
      ∃ m', (pre ++ rest)[greedyLoop (rest.map FloatVal.num) pre.length (FloatVal.num m) best]? = some m' ∧
        (∀ (j : Nat) (x : F), (pre ++ rest)[j]? = some x → x ≤ m') ∧
        (∀ (j : Nat) (x : F),
          j < greedyLoop (rest.map FloatVal.num) pre.length (FloatVal.num m) best →
          (pre ++ rest)[j]? = some x → x < m') := by
  intro rest
  induction rest with
  | nil =>
    intro pre m best h1 h2 h3
    simp only [List.map_nil, greedyLoop, List.append_nil]
    exact ⟨m, h1, h2, h3⟩
  | cons x rest ih =>
    intro pre m best h1 h2 h3
    have hb : best < pre.length := by
      by_contra hn
      rw [List.getElem?_eq_none (Nat.le_of_not_lt hn)] at h1
      cases h1
    have hlen : (pre ++ [x]).length = pre.length + 1 := by simp
    have happ : pre ++ x :: rest = (pre ++ [x]) ++ rest := by simp
    have hget : ∀ (j : Nat) (y : F), (pre ++ [x])[j]? = some y →
        (j < pre.length ∧ pre[j]? = some y) ∨ (j = pre.length ∧ y = x) := by
      intro j y hj
      by_cases hjl : j < pre.length
      · left
        rw [List.getElem?_append_left hjl] at hj
        exact ⟨hjl, hj⟩
      · right
        have hj' : j < (pre ++ [x]).length := by
          by_contra hn
          rw [List.getElem?_eq_none (Nat.le_of_not_lt hn)] at hj
          cases hj
        have hje : j = pre.length := by omega
        subst hje
        simp at hj
        exact ⟨rfl, hj.symm⟩
    rw [List.map_cons, greedyLoop, happ]
    by_cases hx : x > m
    · rw [if_pos (by simpa [FloatVal.gt] using hx)]
      have := ih (pre ++ [x]) x pre.length (by simp)
        (by
          intro j y hj
          rcases hget j y hj with ⟨_, h⟩ | ⟨_, h⟩
          · exact le_of_lt (lt_of_le_of_lt (h2 j y h) hx)
          · exact le_of_eq h)
        (by
          intro j y hjl hj
          rcases hget j y hj with ⟨_, h⟩ | ⟨h, _⟩
          · exact lt_of_le_of_lt (h2 j y h) hx
          · omega)
      rw [hlen] at this
      exact this
    · rw [if_neg (by simpa [FloatVal.gt] using hx)]
      have hxm : x ≤ m := le_of_not_lt hx
      have := ih (pre ++ [x]) m best
        (by rw [List.getElem?_append_left hb]; exact h1)
        (by
          intro j y hj
          rcases hget j y hj with ⟨_, h⟩ | ⟨_, h⟩
          · exact h2 j y h
          · rw [h]; exact hxm)
        (by
          intro j y hjl hj
          rcases hget j y hj with ⟨_, h⟩ | ⟨h, _⟩
          · exact h3 j y hjl h
          · omega)
      rw [hlen] at this
      exact this

theorem greedy_pick_num {F : Type} [LinearOrder F] (xs : List F) (hV : 0 < xs.length) :
    ∃ m, xs[greedy_pick (xs.map FloatVal.num)]? = some m ∧
      (∀ (j : Nat) (x : F), xs[j]? = some x → x ≤ m) ∧
      (∀ (j : Nat) (x : F), j < greedy_pick (xs.map FloatVal.num) → xs[j]? = some x → x < m) := by
  cases xs with
  | nil => cases hV
  | cons x rest =>
    have := greedyLoop_spec rest [x] x 0 (by simp)
      (by
        intro j y hj
        cases j with
        | zero => simp at hj; exact le_of_eq hj.symm
        | succ n => simp at hj)
      (by intro j y hj _; omega)
    simpa [greedy_pick] using this

theorem exists_nums {F : Type} :
    ∀ (fl : List (FloatVal F)), FloatVal.nan ∉ fl → ∃ xs : List F, fl = xs.map FloatVal.num := by
  intro fl
  induction fl with
  | nil => intro _; exact ⟨[], rfl⟩
  | cons a t ih =>
    intro h
    obtain ⟨xs, hxs⟩ := ih (fun hm => h (List.mem_cons_of_mem _ hm))
    cases a with
    | nan => exact absurd (List.mem_cons_self _ _) h
    | num x => exact ⟨x :: xs, by rw [hxs]; rfl⟩

theorem greedy_pick_finite {F : Type} [LinearOrder F] (fl : List (FloatVal F))
    (hV : 0 < fl.length) (hfin : FloatVal.nan ∉ fl) :
    greedy_pick fl < fl.length ∧
      ∃ m, fl[greedy_pick fl]? = some m ∧
        (∀ (j : Nat) (x : FloatVal F), fl[j]? = some x → FloatVal.ge m x = true) ∧
        (∀ (j : Nat) (x : FloatVal F), j < greedy_pick fl → fl[j]? = some x →
          FloatVal.gt m x = true) := by
  refine ⟨greedy_pick_lt fl hV, ?_⟩
  obtain ⟨xs, rfl⟩ := exists_nums fl hfin
  rw [List.length_map] at hV
  obtain ⟨m, h1, h2, h3⟩ := greedy_pick_num xs hV
  refine ⟨FloatVal.num m, ?_, ?_, ?_⟩
  · rw [List.getElem?_map, h1]; rfl
  · intro j x hj
    rw [List.getElem?_map] at hj
    cases hx : xs[j]? with
    | none => rw [hx] at hj; cases hj
    | some y =>
      rw [hx] at hj
      cases hj
      simpa [FloatVal.ge] using h2 j y hx
  · intro j x hlt hj
    rw [List.getElem?_map] at hj
    cases hx : xs[j]? with
    | none => rw [hx] at hj; cases hj
    | some y =>
      rw [hx] at hj
      cases hj
      simpa [FloatVal.gt] using h3 j y hlt hx

/-- C20 (amended). For every logits vector of size `V > 0` none of whose entries is NaN
(the entries are elements of any linear order), `greedy_pick` returns `argmax(logits)`: an
index in range whose logit is `>=` every logit, and the smallest such index (it is `>` every
logit before it). In greedy mode (`temp <= 0` and `top_k <= 1`) the pick of the dispatch is
`greedy_pick` of the logits, whatever the draw, `top_p` and the index vector: a function of
the logits alone. -/
theorem greedy_pick_argmax {F : Type} [LinearOrder F] (fl : List (FloatVal F))
    (hV : 0 < fl.length) (hfin : FloatVal.nan ∉ fl) :
    greedy_pick fl < fl.length ∧
      (∃ m, fl[greedy_pick fl]? = some m ∧
        (∀ (j : Nat) (x : FloatVal F), fl[j]? = some x → FloatVal.ge m x = true) ∧
        (∀ (j : Nat) (x : FloatVal F), j < greedy_pick fl → fl[j]? = some x →
          FloatVal.gt m x = true)) ∧
      ∀ (G : Type) [LinearOrderedField G] (L : SamplerLib G) (logits : List G) (top_k : Int)
        (top_p temp r : G) (idx : List Nat), temp ≤ 0 → top_k ≤ 1 →
        (pickToken L logits top_k top_p temp r idx).1
          = greedy_pick (logits.map FloatVal.num) := by
  refine ⟨(greedy_pick_finite fl hV hfin).1, (greedy_pick_finite fl hV hfin).2, ?_⟩
  intro G _ L logits top_k top_p temp r idx hT hK
  unfold pickToken
  rw [if_pos ⟨hT, hK⟩]

/-- Witness of C20: the logits `2, 5, 5, 1`, where the first of the two largest is picked. -/
theorem greedy_pick_argmax_witness :
    0 < ([.num 2, .num 5, .num 5, .num 1] : List (FloatVal ℚ)).length ∧
    FloatVal.nan ∉ ([.num 2, .num 5, .num 5, .num 1] : List (FloatVal ℚ)) ∧
    greedy_pick ([.num 2, .num 5, .num 5, .num 1] : List (FloatVal ℚ)) = 1 ∧
    (greedy_pick ([.num 2, .num 5, .num 5, .num 1] : List (FloatVal ℚ))
        < ([.num 2, .num 5, .num 5, .num 1] : List (FloatVal ℚ)).length ∧
      (∃ m, ([.num 2, .num 5, .num 5, .num 1] : List (FloatVal ℚ))[
            greedy_pick ([.num 2, .num 5, .num 5, .num 1] : List (FloatVal ℚ))]? = some m ∧
        (∀ (j : Nat) (x : FloatVal ℚ),
          ([.num 2, .num 5, .num 5, .num 1] : List (FloatVal ℚ))[j]? = some x →
          FloatVal.ge m x = true) ∧
        (∀ (j : Nat) (x : FloatVal ℚ),
          j < greedy_pick ([.num 2, .num 5, .num 5, .num 1] : List (FloatVal ℚ)) →
          ([.num 2, .num 5, .num 5, .num 1] : List (FloatVal ℚ))[j]? = some x →
          FloatVal.gt m x = true)) ∧
      ∀ (G : Type) [LinearOrderedField G] (L : SamplerLib G) (logits : List G) (top_k : Int)
        (top_p temp r : G) (idx : List Nat), temp ≤ 0 → top_k ≤ 1 →
        (pickToken L logits top_k top_p temp r idx).1
          = greedy_pick (logits.map FloatVal.num)) ∧
    (pickToken refSamplerLib [2, 5, 5, 1] 1 (4 / 5) 0 (1 / 2) (List.range 4)).1 = 1 :=
  ⟨(by decide), (by decide), (by decide!),
    greedy_pick_argmax [.num 2, .num 5, .num 5, .num 1] (by decide) (by decide),
    (by decide!)⟩

/-- C20, counterexample. On the logits `NaN, 1, 5` every comparison `l[i] > m` is false, so
`greedy_pick` returns index 0, whose logit is not `>=` the logit 5 at index 2. -/
theorem greedy_pick_nan_counterexample :
    greedy_pick ([.nan, .num 1, .num 5] : List (FloatVal ℚ)) = 0 ∧
    ([.nan, .num 1, .num 5] : List (FloatVal ℚ))[0]? = some FloatVal.nan ∧
    ([.nan, .num 1, .num 5] : List (FloatVal ℚ))[2]? = some (FloatVal.num 5) ∧
    FloatVal.ge (FloatVal.nan : FloatVal ℚ) (FloatVal.num 5) = false ∧
    FloatVal.ge (FloatVal.num 5 : FloatVal ℚ) (FloatVal.num 1) = true := by
  decide!

/-! ## The sanitizer -/

theorem mem_replaceLoop (From To : FString) :
    ∀ (s : FString) (k : Nat) (x : Char), x ∈ replaceLoop From To s k → x ∈ s ∨ x ∈ To := by
  intro s
  induction s with
  | nil => intro k x h; simp [replaceLoop] at h
  | cons c rest ih =>
    intro k x h
    cases k with
    | succ k =>
      rw [replaceLoop] at h
      rcases ih k x h with h | h
      · exact Or.inl (List.mem_cons_of_mem _ h)
      · exact Or.inr h
    | zero =>
      rw [replaceLoop] at h
      split_ifs at h
      · rcases List.mem_append.mp h with h | h
        · exact Or.inr h
        · rcases ih _ x h with h | h
          · exact Or.inl (List.mem_cons_of_mem _ h)
          · exact Or.inr h
      · rcases List.mem_cons.mp h with h | h
        · exact Or.inl (h ▸ List.mem_cons_self _ _)
        · rcases ih _ x h with h | h
          · exact Or.inl (List.mem_cons_of_mem _ h)
          · exact Or.inr h

theorem mem_ReplaceInline (From To S : FString) (x : Char) (h : x ∈ ReplaceInline From To S) :
    x ∈ S ∨ x ∈ To := by
  unfold ReplaceInline at h
  split_ifs at h
  · exact Or.inl h
  · exact mem_replaceLoop From To S 0 x h

theorem mem_replaceLoop_single (a : Char) (To : FString) :
    ∀ (s : FString) (x : Char), x ∈ replaceLoop [a] To s 0 →
      x ∈ To ∨ (x ∈ s ∧ sameChar a x = false) := by
  intro s
  induction s with
  | nil => intro x h; simp [replaceLoop] at h
  | cons c rest ih =>
    intro x h
    rw [replaceLoop] at h
    by_cases hm : matchesPrefix [a] (c :: rest) = true
    · rw [if_pos hm] at h
      rcases List.mem_append.mp h with h | h
      · exact Or.inl h
      · rcases ih x h with h | h
        · exact Or.inl h
        · exact Or.inr ⟨List.mem_cons_of_mem _ h.1, h.2⟩
    · rw [if_neg hm] at h
      rcases List.mem_cons.mp h with h | h
      · right
        subst h
        refine ⟨List.mem_cons_self _ _, ?_⟩
        simpa [matchesPrefix] using hm
      · rcases ih x h with h | h
        · exact Or.inl h
        · exact Or.inr ⟨List.mem_cons_of_mem _ h.1, h.2⟩

theorem sameChar_refl (a : Char) : sameChar a a = true := by simp [sameChar]

theorem not_mem_ReplaceInline_single (a : Char) (To S : FString) (h : a ∉ To) :
    a ∉ ReplaceInline [a] To S := by
  intro hm
  unfold ReplaceInline at hm
  rw [if_neg (by simp)] at hm
  rcases mem_replaceLoop_single a To S a hm with h' | ⟨_, h'⟩
  · exact h h'
  · rw [sameChar_refl] at h'; cases h'

theorem not_mem_ReplaceInline (From To S : FString) (x : Char) (h1 : x ∉ S) (h2 : x ∉ To) :
    x ∉ ReplaceInline From To S := by
  intro h
  rcases mem_ReplaceInline From To S x h with h | h
  · exact h1 h
  · exact h2 h

theorem mem_TrimStartAndEnd (E : Engine) (S : FString) (x : Char)
    (h : x ∈ TrimStartAndEnd E S) : x ∈ S := by
  unfold TrimStartAndEnd at h
  rw [List.mem_reverse] at h
  have h1 := (List.dropWhile_suffix E.IsWhitespace).subset h
  rw [List.mem_reverse] at h1
  exact (List.dropWhile_suffix E.IsWhitespace).subset h1

theorem mem_TrimBomAndWhitespace (E : Engine) (S : FString) (x : Char)
    (h : x ∈ TrimBomAndWhitespace E S) : x ∈ S := by
  unfold TrimBomAndWhitespace at h
  cases S with
  | nil => exact mem_TrimStartAndEnd E _ x h
  | cons c rest =>
    simp only at h
    split_ifs at h
    · exact List.mem_cons_of_mem _ (mem_TrimStartAndEnd E _ x h)
    · exact mem_TrimStartAndEnd E _ x h

theorem mem_StripControlChars (S : FString) (x : Char) (h : x ∈ StripControlChars S) :
    x ∈ S ∧ keptByStripControl x = true := by
  unfold StripControlChars at h
  exact List.mem_filter.mp h

theorem mem_StripChatMarkers (S : FString) (x : Char) (h : x ∈ StripChatMarkers S) : x ∈ S := by
  unfold StripChatMarkers at h
  have step : ∀ (From T : FString), x ∈ ReplaceInline From [] T → x ∈ T := by
    intro From T hx
    rcases mem_ReplaceInline From [] T x hx with h | h
    · exact h
    · cases h
  exact step _ _ (step _ _ (step _ _ (step _ _ h)))
theorem not_mem_StripBackticksAndFences (S : FString) : '\x60' ∉ StripBackticksAndFences S := by
  unfold StripBackticksAndFences
  have e : TEXT "\x60" = ['\x60'] := by decide
  rw [e]
  exact not_mem_ReplaceInline_single _ _ _ (by simp)

theorem not_mem_ReplaceSmartQuotes (S : FString) (q : Char) (hq : q ∈ smartQuotes) :
    q ∉ ReplaceSmartQuotes S := by
  unfold ReplaceSmartQuotes
  have keep : ∀ (From To T : FString), (To = ['"'] ∨ To = ['\'']) → q ∉ T →
      q ∉ ReplaceInline From To T := by
    intro From To T hTo hT
    apply not_mem_ReplaceInline From To T q hT
    rcases hTo with rfl | rfl <;>
      · intro hm
        rw [List.mem_singleton] at hm
        subst hm
        revert hq
        decide
  have kill : ∀ (To T : FString), (To = ['"'] ∨ To = ['\'']) → q ∉ ReplaceInline [q] To T := by
    intro To T hTo
    apply not_mem_ReplaceInline_single
    rcases hTo with rfl | rfl <;>
      · intro hm
        rw [List.mem_singleton] at hm
        subst hm
        revert hq
        decide
  simp only [smartQuotes, List.mem_cons, List.mem_singleton, List.not_mem_nil, or_false] at hq
  rcases hq with rfl | rfl | rfl | rfl | rfl | rfl
  · exact keep _ _ _ (Or.inr rfl) (keep _ _ _ (Or.inr rfl) (keep _ _ _ (Or.inl rfl)
      (keep _ _ _ (Or.inl rfl) (keep _ _ _ (Or.inl rfl) (kill _ _ (Or.inl rfl))))))
  · exact keep _ _ _ (Or.inr rfl) (keep _ _ _ (Or.inr rfl) (keep _ _ _ (Or.inl rfl)
      (keep _ _ _ (Or.inl rfl) (kill _ _ (Or.inl rfl)))))
  · exact keep _ _ _ (Or.inr rfl) (keep _ _ _ (Or.inr rfl) (keep _ _ _ (Or.inl rfl)
      (kill _ _ (Or.inl rfl))))
  · exact keep _ _ _ (Or.inr rfl) (keep _ _ _ (Or.inr rfl) (kill _ _ (Or.inl rfl)))
  · exact keep _ _ _ (Or.inr rfl) (kill _ _ (Or.inr rfl))
  · exact kill _ _ (Or.inr rfl)

theorem trim_last (E : Engine) (S : FString) (c : Char)
    (h : (TrimStartAndEnd E S).getLast? = some c) : E.IsWhitespace c = false := by
  unfold TrimStartAndEnd at h
  rw [List.getLast?_reverse] at h
  have := List.head?_dropWhile_not E.IsWhitespace (S.dropWhile E.IsWhitespace).reverse
  rw [h] at this
  simpa using this

theorem trim_head (E : Engine) (S : FString) (c : Char)
    (h : (TrimStartAndEnd E S).head? = some c) : E.IsWhitespace c = false := by
  unfold TrimStartAndEnd at h
  have hp : ((S.dropWhile E.IsWhitespace).reverse.dropWhile E.IsWhitespace).reverse
      <+: S.dropWhile E.IsWhitespace := by
    rw [← List.reverse_suffix, List.reverse_reverse]
    exact List.dropWhile_suffix _
  obtain ⟨t, ht⟩ := hp
  have h2 : (S.dropWhile E.IsWhitespace).head? = some c := by
    rw [← ht]
    cases hl : ((S.dropWhile E.IsWhitespace).reverse.dropWhile E.IsWhitespace).reverse with
    | nil => rw [hl] at h; cases h
    | cons a l => rw [hl] at h; simpa using h
  have := List.head?_dropWhile_not E.IsWhitespace S
  rw [h2] at this
  simpa using this

theorem trimBom_head (E : Engine) (S : FString) (c : Char)
    (h : (TrimBomAndWhitespace E S).head? = some c) : E.IsWhitespace c = false := by
  unfold TrimBomAndWhitespace at h
  cases S with
  | nil => exact trim_head E _ c h
  | cons a rest =>
    simp only at h
    split_ifs at h
    · exact trim_head E _ c h
    · exact trim_head E _ c h

theorem trimBom_last (E : Engine) (S : FString) (c : Char)
    (h : (TrimBomAndWhitespace E S).getLast? = some c) : E.IsWhitespace c = false := by
  unfold TrimBomAndWhitespace at h
  cases S with
  | nil => exact trim_last E _ c h
  | cons a rest =>
    simp only at h
    split_ifs at h
    · exact trim_last E _ c h
    · exact trim_last E _ c h

theorem sanitize_props (E : Engine) (t : FString) :
    '\x60' ∉ sanitize E t ∧
      (∀ q ∈ smartQuotes, q ∉ sanitize E t) ∧
      (∀ c ∈ sanitize E t, keptByStripControl c = true) ∧
      (∀ c, (sanitize E t).head? = some c → E.IsWhitespace c = false) ∧
      (∀ c, (sanitize E t).getLast? = some c → E.IsWhitespace c = false) := by
  refine ⟨?_, ?_, ?_, fun c h => trimBom_head E _ c h, fun c h => trimBom_last E _ c h⟩
  · intro h
    have h1 := (mem_StripControlChars _ _ (mem_TrimBomAndWhitespace E _ _ h)).1
    have h2 := mem_StripChatMarkers _ _ h1
    unfold ReplaceSmartQuotes at h2
    have step : ∀ (From To T : FString), (To = ['"'] ∨ To = ['\'']) →
        '\x60' ∈ ReplaceInline From To T → '\x60' ∈ T := by
      intro From To T hTo hx
      rcases mem_ReplaceInline From To T _ hx with h | h
      · exact h
      · rcases hTo with rfl | rfl <;> simp at h
    have h3 := step _ _ _ (Or.inl rfl) (step _ _ _ (Or.inl rfl) (step _ _ _ (Or.inl rfl)
      (step _ _ _ (Or.inl rfl) (step _ _ _ (Or.inr rfl) (step _ _ _ (Or.inr rfl) h2)))))
    exact not_mem_StripBackticksAndFences _ h3
  · intro q hq h
    have h1 := (mem_StripControlChars _ _ (mem_TrimBomAndWhitespace E _ _ h)).1
    exact not_mem_ReplaceSmartQuotes _ q hq (mem_StripChatMarkers _ _ h1)
  · intro c h
    exact (mem_StripControlChars _ _ (mem_TrimBomAndWhitespace E _ _ h)).2
theorem toUpper_eq_special (c q : Char) (hq : ¬ (65 ≤ q.toNat ∧ q.toNat ≤ 90))
    (h : c.toUpper = q) : c = q := by
  unfold Char.toUpper at h
  simp only at h
  split_ifs at h with hc
  · exfalso
    subst h
    obtain ⟨h1, h2⟩ := hc
    generalize c.toNat = n at *
    interval_cases n <;> exact hq (by decide)
  · exact h

theorem sameChar_special (q c : Char) (hq : ¬ (65 ≤ q.toNat ∧ q.toNat ≤ 90))
    (hq2 : q.toUpper = q) (h : sameChar q c = true) : c = q := by
  unfold sameChar at h
  have h' : c.toUpper = q := by
    have := of_decide_eq_true h
    rw [hq2] at this
    exact this.symm
  exact toUpper_eq_special c q hq h'

theorem occurs_false_of_head (p : Char) (ps : FString) :
    ∀ (s : FString), (∀ c ∈ s, sameChar p c = false) → Occurs (p :: ps) s = false := by
  intro s
  induction s with
  | nil => intro _; simp [Occurs, matchesPrefix]
  | cons c rest ih =>
    intro h
    unfold Occurs
    rw [ih (fun x hx => h x (List.mem_cons_of_mem _ hx))]
    simp [matchesPrefix, h c (List.mem_cons_self _ _)]

theorem replaceLoop_noop (From To : FString) :
    ∀ (s : FString), Occurs From s = false → replaceLoop From To s 0 = s := by
  intro s
  induction s with
  | nil => intro _; simp [replaceLoop]
  | cons c rest ih =>
    intro h
    unfold Occurs at h
    rw [Bool.or_eq_false_iff] at h
    rw [replaceLoop, if_neg (by simp [h.1]), ih h.2]

theorem ReplaceInline_noop (From To S : FString) (h : Occurs From S = false) :
    ReplaceInline From To S = S := by
  unfold ReplaceInline
  split_ifs
  · rfl
  · exact replaceLoop_noop From To S h

theorem ReplaceInline_noop_head (p : Char) (ps To S : FString)
    (hp : ¬ (65 ≤ p.toNat ∧ p.toNat ≤ 90)) (hp2 : p.toUpper = p) (h : p ∉ S) :
    ReplaceInline (p :: ps) To S = S := by
  apply ReplaceInline_noop
  apply occurs_false_of_head
  intro c hc
  by_contra hs
  have hs' : sameChar p c = true := by simpa using hs
  exact h (sameChar_special p c hp hp2 hs' ▸ hc)

theorem dropWhile_id (p : Char → Bool) (s : FString)
    (h : ∀ c, s.head? = some c → p c = false) : s.dropWhile p = s := by
  cases s with
  | nil => rfl
  | cons a t => simp [List.dropWhile, h a rfl]

theorem trim_id (E : Engine) (s : FString)
    (h1 : ∀ c, s.head? = some c → E.IsWhitespace c = false)
    (h2 : ∀ c, s.getLast? = some c → E.IsWhitespace c = false) :
    TrimStartAndEnd E s = s := by
  unfold TrimStartAndEnd
  rw [dropWhile_id _ s h1, dropWhile_id _ s.reverse, List.reverse_reverse]
  intro c hc
  rw [List.head?_reverse] at hc
  exact h2 c hc

theorem trimBom_id (E : Engine) (s : FString) (hb : s.head? ≠ some BOM)
    (h1 : ∀ c, s.head? = some c → E.IsWhitespace c = false)
    (h2 : ∀ c, s.getLast? = some c → E.IsWhitespace c = false) :
    TrimBomAndWhitespace E s = s := by
  unfold TrimBomAndWhitespace
  cases s with
  | nil => exact trim_id E [] h1 h2
  | cons a t =>
    simp only
    rw [if_neg (by intro e; apply hb; rw [e]; rfl)]
    exact trim_id E _ h1 h2
/-- C16. For every input text, the sanitizer's output contains no backtick, none of the
typographic quotes U+201C, U+201D, U+201E, U+201F, U+2018, U+2019, and no character with code
below 32 other than tab, carriage return and line feed; and it neither begins nor ends with a
whitespace character. -/
theorem sanitize_output_clean (E : Engine) (t : FString) :
    '\x60' ∉ sanitize E t ∧
      (∀ q ∈ smartQuotes, q ∉ sanitize E t) ∧
      (∀ c ∈ sanitize E t, c.toNat < 32 → c = '\t' ∨ c = '\r' ∨ c = '\n') ∧
      (∀ c, (sanitize E t).head? = some c → E.IsWhitespace c = false) ∧
      (∀ c, (sanitize E t).getLast? = some c → E.IsWhitespace c = false) := by
  obtain ⟨h1, h2, h3, h4, h5⟩ := sanitize_props E t
  refine ⟨h1, h2, ?_, h4, h5⟩
  intro c hc hlt
  have := h3 c hc
  unfold keptByStripControl at this
  simp only [Bool.or_eq_true, decide_eq_true_eq] at this
  rcases this with ((h | h) | h) | h
  · omega
  · exact Or.inr (Or.inr h)
  · exact Or.inr (Or.inl h)
  · exact Or.inl h

theorem sanitize_fixed (E : Engine) (s : FString)
    (h1 : '\x60' ∉ s) (h2 : ∀ q ∈ smartQuotes, q ∉ s)
    (h3 : ∀ c ∈ s, keptByStripControl c = true)
    (h4 : ∀ c, s.head? = some c → E.IsWhitespace c = false)
    (h5 : ∀ c, s.getLast? = some c → E.IsWhitespace c = false)
    (hb : s.head? ≠ some BOM) (hm : ∀ m ∈ chatMarkers, Occurs m s = false) :
    sanitize E s = s := by
  have hT := trimBom_id E s hb h4 h5
  have hB : StripBackticksAndFences s = s := by
    unfold StripBackticksAndFences
    have e1 : TEXT "\x60\x60\x60json" = '\x60' :: TEXT "\x60\x60json" := by decide
    have e2 : TEXT "\x60\x60\x60" = '\x60' :: TEXT "\x60\x60" := by decide
    have e3 : TEXT "\x60" = '\x60' :: [] := by decide
    rw [e1, e2, e3, ReplaceInline_noop_head _ _ _ s (by decide) (by decide) h1,
      ReplaceInline_noop_head _ _ _ s (by decide) (by decide) h1,
      ReplaceInline_noop_head _ _ _ s (by decide) (by decide) h1]
  have hQ : ReplaceSmartQuotes s = s := by
    unfold ReplaceSmartQuotes
    rw [ReplaceInline_noop_head _ _ _ s (by decide) (by decide) (h2 _ (by decide)),
      ReplaceInline_noop_head _ _ _ s (by decide) (by decide) (h2 _ (by decide)),
      ReplaceInline_noop_head _ _ _ s (by decide) (by decide) (h2 _ (by decide)),
      ReplaceInline_noop_head _ _ _ s (by decide) (by decide) (h2 _ (by decide)),
      ReplaceInline_noop_head _ _ _ s (by decide) (by decide) (h2 _ (by decide)),
      ReplaceInline_noop_head _ _ _ s (by decide) (by decide) (h2 _ (by decide))]
  have hM : StripChatMarkers s = s := by
    unfold StripChatMarkers
    rw [ReplaceInline_noop _ _ s (hm _ (by decide)), ReplaceInline_noop _ _ s (hm _ (by decide)),
      ReplaceInline_noop _ _ s (hm _ (by decide)), ReplaceInline_noop _ _ s (hm _ (by decide))]
  have hC : StripControlChars s = s := by
    unfold StripControlChars
    exact List.filter_eq_self.mpr h3
  unfold sanitize
  rw [hT, hB, hQ, hM, hC, hT]

/-- C15, as the code has it. Sanitizing twice gives what sanitizing once gives, for every text
whose sanitized form does not begin with a byte-order mark and holds none of the four chat
markers (case ignored). -/
theorem sanitize_idempotent (E : Engine) (t : FString)
    (hb : (sanitize E t).head? ≠ some BOM)
    (hm : ∀ m ∈ chatMarkers, Occurs m (sanitize E t) = false) :
    sanitize E (sanitize E t) = sanitize E t := by
  obtain ⟨h1, h2, h3, h4, h5⟩ := sanitize_props E t
  exact sanitize_fixed E _ h1 h2 h3 h4 h5 hb hm

/-- Witness of C15 as amended: a fenced text with a chat marker. -/
theorem sanitize_idempotent_witness :
    (sanitize refEngine fencedText).head? ≠ some BOM ∧
      (∀ m ∈ chatMarkers, Occurs m (sanitize refEngine fencedText) = false) ∧
      sanitize refEngine (sanitize refEngine fencedText) = sanitize refEngine fencedText :=
  ⟨(by decide), (by decide), sanitize_idempotent refEngine fencedText (by decide) (by decide)⟩

/-- Counterexample to C15 as stated: a chat marker wrapped around another is sanitized to a
chat marker, which a second pass removes; and of three byte-order marks the first pass leaves
one, which a second pass removes. -/
theorem sanitize_idempotent_counterexample :
    sanitize refEngine nestedMarkerText = TEXT "<|end|>" ∧
      sanitize refEngine (sanitize refEngine nestedMarkerText) = [] ∧
      sanitize refEngine (sanitize refEngine nestedMarkerText)
        ≠ sanitize refEngine nestedMarkerText ∧
      sanitize refEngine [BOM, BOM, BOM, 'x'] = [BOM, 'x'] ∧
      sanitize refEngine (sanitize refEngine [BOM, BOM, BOM, 'x']) = ['x'] := by
  decide

/-! ## The decision parser of the subsystem -/

theorem fastPath_some (E : Engine) (S : FString) (Obj : JObject) (h : fastPath E S = some Obj) :
    E.Deserialize S = some Obj := by
  unfold fastPath at h
  split_ifs at h
  exact h

theorem tryCandidates_some (E : Engine) (W : JsonWriter) :
    ∀ (Cands : List FString) (Clean : FString), tryCandidates E W Cands = some Clean →
      ∃ Cand ∈ Cands, ∃ Obj, E.Deserialize (commaCleanup E Cand) = some Obj ∧
        Clean = W.Serialize Obj := by
  intro Cands
  induction Cands with
  | nil => intro Clean h; simp [tryCandidates] at h
  | cons Cand rest ih =>
    intro Clean h
    unfold tryCandidates at h
    cases hd : E.Deserialize (commaCleanup E Cand) with
    | some Obj =>
      rw [hd] at h
      simp only [Option.some.injEq] at h
      exact ⟨Cand, List.mem_cons_self _ _, Obj, hd, h.symm⟩
    | none =>
      rw [hd] at h
      obtain ⟨C, hC, Obj, h1, h2⟩ := ih Clean h
      exact ⟨C, List.mem_cons_of_mem _ hC, Obj, h1, h2⟩

theorem subsystem_extract_some (E : Engine) (W : JsonWriter) (Raw Clean : FString)
    (h : Subsystem.ExtractStrictJSONObject E W Raw = some Clean) :
    ∃ Obj, (E.Deserialize (sanitize E Raw) = some Obj ∨
        ∃ Cand ∈ CollectBalancedObjects (sanitize E Raw),
          E.Deserialize (commaCleanup E Cand) = some Obj) ∧
      Clean = W.Serialize Obj := by
  unfold Subsystem.ExtractStrictJSONObject at h
  simp only at h
  cases hf : fastPath E (sanitize E Raw) with
  | some Obj =>
    rw [hf] at h
    simp only [Option.some.injEq] at h
    exact ⟨Obj, Or.inl (fastPath_some E _ Obj hf), h.symm⟩
  | none =>
    rw [hf] at h
    obtain ⟨C, hC, Obj, h1, h2⟩ := tryCandidates_some E W _ Clean h
    exact ⟨Obj, Or.inr ⟨C, hC, h1⟩, h2⟩

theorem parseClean_ok (E : Engine) (W : JsonWriter) (Clean : FString)
    (h : (parseClean E W Clean).ok = true) :
    StartsWith Clean ['{'] = true ∧ EndsWith Clean ['}'] = true ∧
      ∃ Root, E.Deserialize Clean = some Root ∧
        parseClean E W Clean =
          { ok := true
            OutIntent := (TryGetStringField E Root (TEXT "intent")).getD []
            OutTools := parseToolCalls E W Root
            OutObjectives := parseObjectives E Root
            OutDialogue := parseDialogue E Root
            Json := Clean } := by
  unfold parseClean at h ⊢
  by_cases hc : StartsWith Clean ['{'] = false ∨ EndsWith Clean ['}'] = false
  · rw [if_pos hc] at h
    simp [parseFailed] at h
  · rw [if_neg hc] at h ⊢
    have hc' : StartsWith Clean ['{'] = true ∧ EndsWith Clean ['}'] = true := by
      constructor
      · cases hs : StartsWith Clean ['{'] with
        | true => rfl
        | false => exact absurd (Or.inl hs) hc
      · cases hs : EndsWith Clean ['}'] with
        | true => rfl
        | false => exact absurd (Or.inr hs) hc
    refine ⟨hc'.1, hc'.2, ?_⟩
    cases hd : E.Deserialize Clean with
    | none =>
      rw [hd] at h
      simp [parseFailed] at h
    | some Root => exact ⟨Root, rfl, rfl⟩

theorem parseDirector_ok (E : Engine) (W : JsonWriter) (t : FString)
    (h : (ParseDirectorJSON E W t).ok = true) :
    ∃ Obj Root,
      (E.Deserialize (sanitize E t) = some Obj ∨
        ∃ Cand ∈ CollectBalancedObjects (sanitize E t),
          E.Deserialize (commaCleanup E Cand) = some Obj) ∧
      E.Deserialize (W.Serialize Obj) = some Root ∧
      ParseDirectorJSON E W t =
        { ok := true
          OutIntent := (TryGetStringField E Root (TEXT "intent")).getD []
          OutTools := parseToolCalls E W Root
          OutObjectives := parseObjectives E Root
          OutDialogue := parseDialogue E Root
          Json := W.Serialize Obj } := by
  have hdef : ParseDirectorJSON E W t
      = parseClean E W ((Subsystem.ExtractStrictJSONObject E W t).getD []) := rfl
  cases hx : Subsystem.ExtractStrictJSONObject E W t with
  | none =>
    rw [hdef, hx] at h
    exfalso
    revert h
    simp [parseClean, StartsWith, matchesPrefix, parseFailed]
  | some Clean =>
    rw [hdef, hx] at h
    rw [hdef, hx]
    simp only [Option.getD_some] at h ⊢
    obtain ⟨Obj, hObj, rfl⟩ := subsystem_extract_some E W t Clean hx
    obtain ⟨_, _, Root, hR, hres⟩ := parseClean_ok E W _ h
    exact ⟨Obj, Root, hObj, hR, hres⟩

/-- C13 (amended). `ParseDirectorJSON` applies no schema validation. When it returns `true`,
an object `Obj` was parsed from the sanitized text (the whole of it, or one of its balanced
candidates after the trailing-comma pass), the cleaned JSON is the engine's serialization of
`Obj`, that text parses again to an object `Root`, and the decision fields are read off `Root`
whatever they hold. -/
theorem ParseDirectorJSON_true_is_parse_only (E : Engine) (W : JsonWriter) (t : FString)
    (h : (ParseDirectorJSON E W t).ok = true) :
    ∃ Obj Root,
      (E.Deserialize (sanitize E t) = some Obj ∨
        ∃ Cand ∈ CollectBalancedObjects (sanitize E t),
          E.Deserialize (commaCleanup E Cand) = some Obj) ∧
      E.Deserialize (W.Serialize Obj) = some Root ∧
      ParseDirectorJSON E W t =
        { ok := true
          OutIntent := (TryGetStringField E Root (TEXT "intent")).getD []
          OutTools := parseToolCalls E W Root
          OutObjectives := parseObjectives E Root
          OutDialogue := parseDialogue E Root
          Json := W.Serialize Obj } :=
  parseDirector_ok E W t h

set_option maxRecDepth 1000000 in
theorem ParseDirectorJSON_true_is_parse_only_witness :
    (ParseDirectorJSON refEngine refWriter emptyObjectJSON).ok = true ∧
    ∃ Obj Root,
      (refEngine.Deserialize (sanitize refEngine emptyObjectJSON) = some Obj ∨
        ∃ Cand ∈ CollectBalancedObjects (sanitize refEngine emptyObjectJSON),
          refEngine.Deserialize (commaCleanup refEngine Cand) = some Obj) ∧
      refEngine.Deserialize (refWriter.Serialize Obj) = some Root ∧
      ParseDirectorJSON refEngine refWriter emptyObjectJSON =
        { ok := true
          OutIntent := (TryGetStringField refEngine Root (TEXT "intent")).getD []
          OutTools := parseToolCalls refEngine refWriter Root
          OutObjectives := parseObjectives refEngine Root
          OutDialogue := parseDialogue refEngine Root
          Json := refWriter.Serialize Obj } :=
  ⟨(by decide), ParseDirectorJSON_true_is_parse_only refEngine refWriter emptyObjectJSON (by decide)⟩

set_option maxRecDepth 1000000 in
/-- C13, counterexample. On the reference engine `ParseDirectorJSON` returns `true` on the
empty object, with an empty intent, and the cleaned JSON it parsed fails
`IsValidDirectorJSON`; it also returns `true`, with intent `dance` and a tool call
`FormatDisk`, on an object whose cleaned JSON fails `IsValidDirectorJSON`. -/
theorem ParseDirectorJSON_validation_counterexample :
    (ParseDirectorJSON refEngine refWriter emptyObjectJSON).ok = true ∧
    (ParseDirectorJSON refEngine refWriter emptyObjectJSON).OutIntent = [] ∧
    (IsValidDirectorJSON refEngine
      (ParseDirectorJSON refEngine refWriter emptyObjectJSON).Json).ok = false ∧
    (IsValidDirectorJSON refEngine emptyObjectJSON).ok = false ∧
    (ParseDirectorJSON refEngine refWriter danceJSON).ok = true ∧
    (ParseDirectorJSON refEngine refWriter danceJSON).OutIntent = TEXT "dance" ∧
    (ParseDirectorJSON refEngine refWriter danceJSON).OutTools
      = [{ Name := TEXT "FormatDisk", ArgsJson := TEXT "\x7b\x7d" }] ∧
    (IsValidDirectorJSON refEngine
      (ParseDirectorJSON refEngine refWriter danceJSON).Json).ok = false ∧
    (IsValidDirectorJSON refEngine danceJSON).ok = false := by
  decide
/-! ## The scenario object inside a fence -/

theorem dropWhile_append_stop (p : Char → Bool) (d : Char) (l2 : FString) (hd : p d = false) :
    ∀ l1 : FString, (l1 ++ d :: l2).dropWhile p = l1.dropWhile p ++ d :: l2 := by
  intro l1
  induction l1 with
  | nil => simp [List.dropWhile, hd]
  | cons c t ih =>
    by_cases hc : p c = true
    · simp [List.dropWhile, hc, ih]
    · simp [List.dropWhile, hc]

theorem TrimEnd_append (E : Engine) (Y : FString) (d : Char) (B : FString)
    (hd : E.IsWhitespace d = false) :
    TrimEnd E (Y ++ d :: B) = Y ++ d :: TrimEnd E B := by
  unfold TrimEnd
  have e : (Y ++ d :: B).reverse = B.reverse ++ d :: Y.reverse := by simp
  rw [e, dropWhile_append_stop _ d _ hd]
  simp

theorem mem_TrimEnd (E : Engine) (S : FString) (x : Char) (h : x ∈ TrimEnd E S) : x ∈ S := by
  unfold TrimEnd at h
  rw [List.mem_reverse] at h
  have h1 := (List.dropWhile_suffix E.IsWhitespace).subset h
  rwa [List.mem_reverse] at h1

theorem mem_sanitizeEnd (E : Engine) (B : FString) (x : Char) (h : x ∈ sanitizeEnd E B) :
    x ∈ B ∨ x = '"' ∨ x = '\'' := by
  unfold sanitizeEnd at h
  have h1 := mem_StripChatMarkers _ _ (mem_StripControlChars _ _ (mem_TrimEnd E _ _ h)).1
  have step : ∀ (From To T : FString), (To = ['"'] ∨ To = ['\'']) → x ∈ ReplaceInline From To T →
      x ∈ T ∨ x = '"' ∨ x = '\'' := by
    intro From To T hTo hx
    rcases mem_ReplaceInline From To T x hx with h | h
    · exact Or.inl h
    · rcases hTo with rfl | rfl
      · exact Or.inr (Or.inl (by simpa using h))
      · exact Or.inr (Or.inr (by simpa using h))
  have drop : ∀ (From T : FString), x ∈ ReplaceInline From [] T → x ∈ T := by
    intro From T hx
    rcases mem_ReplaceInline From [] T x hx with h | h
    · exact h
    · cases h
  unfold ReplaceSmartQuotes at h1
  have h2 : x ∈ StripBackticksAndFences (TrimEnd E B) ∨ x = '"' ∨ x = '\'' := by
    rcases step _ _ _ (by simp) h1 with h | h
    · rcases step _ _ _ (by simp) h with h | h
      · rcases step _ _ _ (by simp) h with h | h
        · rcases step _ _ _ (by simp) h with h | h
          · rcases step _ _ _ (by simp) h with h | h
            · exact step _ _ _ (by simp) h
            · exact Or.inr h
          · exact Or.inr h
        · exact Or.inr h
      · exact Or.inr h
    · exact Or.inr h
  rcases h2 with h | h
  · unfold StripBackticksAndFences at h
    exact Or.inl (mem_TrimEnd E _ _ (drop _ _ (drop _ _ (drop _ _ h))))
  · exact Or.inr h
theorem sanitize_fenced_of (A pre : FString)
    (h1 : ∀ B, TrimBomAndWhitespace refEngine (A ++ scenarioJSON ++ B)
      = A ++ scenarioJSON ++ TrimEnd refEngine B)
    (h2 : ∀ X, StripBackticksAndFences (A ++ scenarioJSON ++ X)
      = pre ++ scenarioJSON ++ StripBackticksAndFences X)
    (h3 : ∀ X, ReplaceSmartQuotes (pre ++ scenarioJSON ++ X)
      = pre ++ scenarioJSON ++ ReplaceSmartQuotes X)
    (h4 : ∀ X, StripChatMarkers (pre ++ scenarioJSON ++ X)
      = pre ++ scenarioJSON ++ StripChatMarkers X)
    (h5 : ∀ X, StripControlChars (pre ++ scenarioJSON ++ X)
      = pre ++ scenarioJSON ++ StripControlChars X)
    (h6 : ∀ X, TrimBomAndWhitespace refEngine (pre ++ scenarioJSON ++ X)
      = scenarioJSON ++ TrimEnd refEngine X) (B : FString) :
    sanitize refEngine (A ++ scenarioJSON ++ B) = scenarioJSON ++ sanitizeEnd refEngine B := by
  unfold sanitize sanitizeEnd
  rw [h1, h2, h3, h4, h5, h6]

set_option maxRecDepth 1000000 in
theorem trim_scenario_first (A : FString)
    (hA : ∀ B, TrimBomAndWhitespace refEngine (A ++ scenarioJSON ++ B)
      = TrimEnd refEngine ((A ++ scenarioJSON.dropLast) ++ '}' :: B)) (B : FString) :
    TrimBomAndWhitespace refEngine (A ++ scenarioJSON ++ B)
      = A ++ scenarioJSON ++ TrimEnd refEngine B := by
  rw [hA, TrimEnd_append refEngine _ '}' B rfl]
  have e : scenarioJSON = scenarioJSON.dropLast ++ ['}'] := by decide
  conv_rhs => rw [e]
  simp

set_option maxRecDepth 1000000 in
theorem trim_scenario (X : FString) :
    TrimBomAndWhitespace refEngine ([] ++ scenarioJSON ++ X)
      = scenarioJSON ++ TrimEnd refEngine X :=
  trim_scenario_first [] (fun _ => rfl) X

set_option maxRecDepth 1000000 in
theorem trim_scenario_newline (X : FString) :
    TrimBomAndWhitespace refEngine (['\n'] ++ scenarioJSON ++ X)
      = scenarioJSON ++ TrimEnd refEngine X :=
  (rfl : TrimBomAndWhitespace refEngine (['\n'] ++ scenarioJSON ++ X)
      = TrimBomAndWhitespace refEngine ([] ++ scenarioJSON ++ X)).trans (trim_scenario X)

set_option maxRecDepth 1000000 in
theorem sanitize_after_newline (A : FString)
    (h1 : ∀ B, TrimBomAndWhitespace refEngine (A ++ scenarioJSON ++ B)
      = TrimEnd refEngine ((A ++ scenarioJSON.dropLast) ++ '}' :: B))
    (h2 : ∀ X, StripBackticksAndFences (A ++ scenarioJSON ++ X)
      = ['\n'] ++ scenarioJSON ++ StripBackticksAndFences X) (B : FString) :
    sanitize refEngine (A ++ scenarioJSON ++ B) = scenarioJSON ++ sanitizeEnd refEngine B :=
  sanitize_fenced_of A ['\n'] (trim_scenario_first A h1) h2
    (fun _ => rfl) (fun _ => rfl) (fun _ => rfl) trim_scenario_newline B

set_option maxRecDepth 1000000 in
theorem sanitize_after_nothing (A : FString)
    (h1 : ∀ B, TrimBomAndWhitespace refEngine (A ++ scenarioJSON ++ B)
      = TrimEnd refEngine ((A ++ scenarioJSON.dropLast) ++ '}' :: B))
    (h2 : ∀ X, StripBackticksAndFences (A ++ scenarioJSON ++ X)
      = [] ++ scenarioJSON ++ StripBackticksAndFences X) (B : FString) :
    sanitize refEngine (A ++ scenarioJSON ++ B) = scenarioJSON ++ sanitizeEnd refEngine B :=
  sanitize_fenced_of A [] (trim_scenario_first A h1) h2
    (fun _ => rfl) (fun _ => rfl) (fun _ => rfl) trim_scenario B

set_option maxRecDepth 1000000 in
theorem sanitize_fenced (opener : FString) (ho : opener ∈ fenceOpeners) (B : FString) :
    sanitize refEngine (opener ++ scenarioJSON ++ B)
      = scenarioJSON ++ sanitizeEnd refEngine B := by
  have hm : opener = TEXT "```json\n" ∨ opener = TEXT "```json" ∨ opener = TEXT "```\n"
      ∨ opener = TEXT "```" := by
    simpa [fenceOpeners] using ho
  rcases hm with rfl | rfl | rfl | rfl
  · exact sanitize_after_newline (TEXT "```json\n") (fun _ => rfl) (fun _ => rfl) B
  · exact sanitize_after_nothing (TEXT "```json") (fun _ => rfl) (fun _ => rfl) B
  · exact sanitize_after_newline (TEXT "```\n") (fun _ => rfl) (fun _ => rfl) B
  · exact sanitize_after_nothing (TEXT "```") (fun _ => rfl) (fun _ => rfl) B
theorem collectLoop_nobrace (In : FString) :
    ∀ (B : FString) (i : Nat) (inStr esc : Bool) (start : Int) (out : List FString),
      (∀ c ∈ B, c ≠ '{' ∧ c ≠ '}') → collectLoop In B i inStr esc 0 start out = out := by
  intro B
  induction B with
  | nil => intro i inStr esc start out _; simp [collectLoop]
  | cons c t ih =>
    intro i inStr esc start out h
    have hc := h c (List.mem_cons_self _ _)
    have ht : ∀ x ∈ t, x ≠ '{' ∧ x ≠ '}' := fun x hx => h x (List.mem_cons_of_mem _ hx)
    rw [collectLoop]
    split_ifs <;> first | exact ih _ _ _ _ _ ht | (exfalso; simp_all)

set_option maxRecDepth 1000000 in
theorem collectLoop_scenario (In B : FString) :
    collectLoop In (scenarioJSON ++ B) 0 false false 0 (-1) []
      = collectLoop In B scenarioJSON.length false false 0 (-1)
          [Mid In 0 scenarioJSON.length] := by
  rfl

theorem collect_scenario_tail (T : FString) (hT : ∀ c ∈ T, c ≠ '{' ∧ c ≠ '}') :
    CollectBalancedObjects (scenarioJSON ++ T) = [scenarioJSON] := by
  unfold CollectBalancedObjects
  rw [collectLoop_scenario, collectLoop_nobrace _ T _ _ _ _ _ hT]
  simp [Mid]

theorem endsWith_brace_false (S : FString) (d : Char) (hd : d ≠ '}') :
    EndsWith (S ++ [d]) ['}'] = false := by
  unfold EndsWith
  simp only [List.reverse_append, List.reverse_cons, List.reverse_nil, List.nil_append,
    List.singleton_append, matchesPrefix, Bool.and_true]
  cases h : sameChar '}' d with
  | false => rfl
  | true => exact absurd (sameChar_special '}' d (by decide) (by decide) h) hd

set_option maxRecDepth 1000000 in
theorem subsystem_extract_scenario_tail (W : JsonWriter) (Raw T : FString)
    (hS : sanitize refEngine Raw = scenarioJSON ++ T) (hT : ∀ c ∈ T, c ≠ '{' ∧ c ≠ '}') :
    Subsystem.ExtractStrictJSONObject refEngine W Raw
      = (refEngine.Deserialize scenarioJSON).map W.Serialize := by
  have hsome : (refEngine.Deserialize scenarioJSON).isSome = true := by decide
  obtain ⟨Obj, hObj⟩ := Option.isSome_iff_exists.mp hsome
  unfold Subsystem.ExtractStrictJSONObject
  simp only
  rw [hS, hObj]
  rcases List.eq_nil_or_concat T with rfl | ⟨T1, d, hTd⟩
  · have hf : fastPath refEngine (scenarioJSON ++ []) = refEngine.Deserialize scenarioJSON := by
      rw [List.append_nil]
      unfold fastPath
      rw [if_pos (by decide)]
    rw [hf, hObj]
    rfl
  · rw [List.concat_eq_append] at hTd
    subst hTd
    have hd : d ≠ '}' := (hT d (by simp)).2
    have hf : fastPath refEngine (scenarioJSON ++ (T1 ++ [d])) = none := by
      unfold fastPath
      rw [← List.append_assoc, endsWith_brace_false _ d hd]
      simp
    rw [hf]
    simp only
    rw [collect_scenario_tail _ hT]
    have hc : commaCleanup refEngine scenarioJSON = scenarioJSON := by decide
    simp [tryCandidates, hc, hObj]
set_option maxRecDepth 1000000 in
theorem parseDirector_fenced (W : JsonWriter) (opener closer prose : FString)
    (ho : opener ∈ fenceOpeners) (hc : closer ∈ fenceClosers)
    (hp : ∀ c ∈ prose, c ≠ '{' ∧ c ≠ '}' ∧ c ≠ '"') :
    ParseDirectorJSON refEngine W (opener ++ scenarioJSON ++ closer ++ prose)
      = ParseDirectorJSON refEngine W scenarioJSON := by
  have hB : ∀ c ∈ closer ++ prose, c ≠ '{' ∧ c ≠ '}' := by
    intro c hm
    rcases List.mem_append.mp hm with h | h
    · have hcl : ∀ x ∈ fenceClosers, ∀ y ∈ x, y ≠ '{' ∧ y ≠ '}' := by decide
      exact hcl closer hc c h
    · exact ⟨(hp c h).1, (hp c h).2.1⟩
  have hT : ∀ c ∈ sanitizeEnd refEngine (closer ++ prose), c ≠ '{' ∧ c ≠ '}' := by
    intro c hm
    rcases mem_sanitizeEnd refEngine _ c hm with h | h | h
    · exact hB c h
    · subst h; decide
    · subst h; decide
  have e1 := subsystem_extract_scenario_tail W (opener ++ scenarioJSON ++ (closer ++ prose)) _
    (sanitize_fenced opener ho (closer ++ prose)) hT
  have e2 := subsystem_extract_scenario_tail W scenarioJSON []
    (by rw [List.append_nil]; decide) (by intro c h; cases h)
  unfold ParseDirectorJSON
  rw [List.append_assoc (opener ++ scenarioJSON), e1, e2]

set_option maxRecDepth 1000000 in
/-- C14. On the reference engine `ParseDirectorJSON` returns `true` on the scenario object,
with intent `warn`, the one tool call `WeatherControl` (arguments `{"preset":"overcast"}`), no
objectives and the dialogue of `Villager`, `wary`, with the one line `Storm's coming.`; and for
every fence opener (three backticks, with or without `json`, with or without a line break),
every fence closer and every trailing prose without braces and double quotes, the fenced text
gives the same result in every field, the cleaned JSON included, whatever the writer is. -/
theorem ParseDirectorJSON_scenario_fenced (W : JsonWriter) (opener closer prose : FString)
    (ho : opener ∈ fenceOpeners) (hc : closer ∈ fenceClosers)
    (hp : ∀ c ∈ prose, c ≠ '{' ∧ c ≠ '}' ∧ c ≠ '"') :
    (ParseDirectorJSON refEngine refWriter scenarioJSON).ok = true ∧
    (ParseDirectorJSON refEngine refWriter scenarioJSON).OutIntent = TEXT "warn" ∧
    (ParseDirectorJSON refEngine refWriter scenarioJSON).OutTools
      = [{ Name := TEXT "WeatherControl", ArgsJson := TEXT "\x7b\"preset\":\"overcast\"\x7d" }] ∧
    (ParseDirectorJSON refEngine refWriter scenarioJSON).OutObjectives = [] ∧
    (ParseDirectorJSON refEngine refWriter scenarioJSON).OutDialogue
      = { Speaker := TEXT "Villager", Emote := TEXT "wary", Lines := [TEXT "Storm's coming."] } ∧
    ParseDirectorJSON refEngine W (opener ++ scenarioJSON ++ closer ++ prose)
      = ParseDirectorJSON refEngine W scenarioJSON :=
  ⟨(by decide), (by decide), (by decide), (by decide), (by decide),
    parseDirector_fenced W opener closer prose ho hc hp⟩

set_option maxRecDepth 1000000 in
theorem ParseDirectorJSON_scenario_fenced_witness :
    TEXT "```json\n" ∈ fenceOpeners ∧ TEXT "\n```" ∈ fenceClosers ∧
    (∀ c ∈ TEXT "\nHope that helps!", c ≠ '{' ∧ c ≠ '}' ∧ c ≠ '"') ∧
    ((ParseDirectorJSON refEngine refWriter scenarioJSON).ok = true ∧
    (ParseDirectorJSON refEngine refWriter scenarioJSON).OutIntent = TEXT "warn" ∧
    (ParseDirectorJSON refEngine refWriter scenarioJSON).OutTools
      = [{ Name := TEXT "WeatherControl", ArgsJson := TEXT "\x7b\"preset\":\"overcast\"\x7d" }] ∧
    (ParseDirectorJSON refEngine refWriter scenarioJSON).OutObjectives = [] ∧
    (ParseDirectorJSON refEngine refWriter scenarioJSON).OutDialogue
      = { Speaker := TEXT "Villager", Emote := TEXT "wary", Lines := [TEXT "Storm's coming."] } ∧
    ParseDirectorJSON refEngine refWriter
        (TEXT "```json\n" ++ scenarioJSON ++ TEXT "\n```" ++ TEXT "\nHope that helps!")
      = ParseDirectorJSON refEngine refWriter scenarioJSON) :=
  ⟨(by decide), (by decide), (by decide),
    ParseDirectorJSON_scenario_fenced refWriter _ _ _ (by decide) (by decide) (by decide)⟩

/-! ## The two closure detectors agree -/

theorem closure_iff_done (E : Engine) (s : FString) :
    ∀ (rest : FString) (i depth : Nat) (in_q escp so : Bool) (start : Int),
      (so = true → start ≥ 0) → (so = false → depth = 0) →
      (checkClosureLoop E s rest i depth in_q escp so start ≠ EJsonProbe.None ↔
        jsonDoneLoop rest depth in_q escp so = true) := by
  intro rest
  induction rest with
  | nil => intro i depth in_q escp so start _ _; simp [checkClosureLoop, jsonDoneLoop]
  | cons ch rest ih =>
    intro i depth in_q escp so start h1 h2
    rw [checkClosureLoop, jsonDoneLoop]
    by_cases he : escp = true
    · rw [if_pos he, if_pos he]; exact ih _ _ _ _ _ _ h1 h2
    rw [if_neg he, if_neg he]
    by_cases hb : ch = '\\'
    · rw [if_pos hb, if_pos hb]; exact ih _ _ _ _ _ _ h1 h2
    rw [if_neg hb, if_neg hb]
    by_cases hq : ch = '"'
    · rw [if_pos hq, if_pos hq]; exact ih _ _ _ _ _ _ h1 h2
    rw [if_neg hq, if_neg hq]
    by_cases hi : in_q = true
    · rw [if_pos hi, if_pos hi]; exact ih _ _ _ _ _ _ h1 h2
    rw [if_neg hi, if_neg hi]
    by_cases ho : ch = '{'
    · rw [if_pos ho, if_pos ho]
      by_cases hd : depth = 0
      · rw [if_pos hd]
        exact ih _ _ _ _ _ _ (fun _ => Int.ofNat_nonneg i) (fun h => by cases h)
      · rw [if_neg hd]
        have hso : so = true := by
          cases so with
          | true => rfl
          | false => exact absurd (h2 rfl) hd
        subst hso
        exact ih _ _ _ _ _ _ h1 (fun h => by cases h)
    rw [if_neg ho, if_neg ho]
    by_cases hc : ch = '}'
    · rw [if_pos hc, if_pos hc]
      by_cases hcond : so = true ∧ closeDepth depth = 0
      · rw [if_pos hcond, if_pos ⟨hcond.1, hcond.2, h1 hcond.1⟩]
        split_ifs <;> simp
      · rw [if_neg hcond, if_neg (fun h => hcond ⟨h.1, h.2.1⟩)]
        apply ih _ _ _ _ _ _ h1
        intro hf
        rw [h2 hf]
        rfl
    rw [if_neg hc, if_neg hc]
    exact ih _ _ _ _ _ _ h1 h2

theorem jsonDoneLoop_append (t : FString) :
    ∀ (s : FString) (depth : Nat) (in_q escp so : Bool),
      jsonDoneLoop s depth in_q escp so = true →
      jsonDoneLoop (s ++ t) depth in_q escp so = true := by
  intro s
  induction s with
  | nil => intro depth in_q escp so h; simp [jsonDoneLoop] at h
  | cons ch rest ih =>
    intro depth in_q escp so h
    rw [List.cons_append, jsonDoneLoop]
    rw [jsonDoneLoop] at h
    split_ifs at h ⊢ <;> first | rfl | exact ih _ _ _ _ h

/-- C27. The stop test of the generation loop and the streaming detector agree on closure:
for every stream `s`, `json_done s` is `true` exactly when `CheckJsonClosure s` is
`ClosedValid` or `ClosedInvalid`; and closure is monotone: once `json_done s` is `true`, so is
`json_done (s ++ t)` for every continuation `t`. -/
theorem json_done_iff_CheckJsonClosure (E : Engine) (s : FString) :
    (json_done s = true ↔
      (CheckJsonClosure E s = EJsonProbe.ClosedValid ∨
        CheckJsonClosure E s = EJsonProbe.ClosedInvalid)) ∧
    (json_done s = true ↔ CheckJsonClosure E s ≠ EJsonProbe.None) ∧
    (∀ t, json_done s = true → json_done (s ++ t) = true) := by
  have key : CheckJsonClosure E s ≠ EJsonProbe.None ↔ json_done s = true :=
    closure_iff_done E s s 0 0 false false false (-1) (fun h => by cases h) (fun _ => rfl)
  refine ⟨?_, key.symm, fun t h => jsonDoneLoop_append t s 0 false false false h⟩
  rw [← key]
  cases CheckJsonClosure E s <;> simp

set_option maxRecDepth 1000000 in
theorem json_done_iff_CheckJsonClosure_witness :
    json_done scenarioJSON = true ∧
      CheckJsonClosure refEngine scenarioJSON = EJsonProbe.ClosedValid ∧
      CheckJsonClosure refEngine scenarioJSON ≠ EJsonProbe.None ∧
      json_done (scenarioJSON ++ noteJSON) = true :=
  ⟨(by decide),
    ((json_done_iff_CheckJsonClosure refEngine scenarioJSON).1.mp (by decide)).resolve_right
      (by decide),
    (json_done_iff_CheckJsonClosure refEngine scenarioJSON).2.1.mp (by decide),
    (json_done_iff_CheckJsonClosure refEngine scenarioJSON).2.2 noteJSON (by decide)⟩
/-! ## Only the text up to the first closing brace counts -/

theorem firstSpan_take (x : FString) (j k : Nat) (h : firstSpan x = some (j, k)) :
    firstSpan (x.take (j + k + 2)) = some (j, k) ∧
      Mid (x.take (j + k + 2)) j (k + 2) = Mid x j (k + 2) := by
  obtain ⟨ho, hc⟩ := firstSpan_spec x j k h
  obtain ⟨hm, hk⟩ := span_mid x j k h
  have hj : j < x.length := drop_cons_lt _ _ _ _ (openOffset_drop x false false j ho)
  have e0 : j + k + 2 = (j + 1) + (k + 1) := by omega
  have e1 : x.take (j + k + 2) = x.take (j + 1) ++ (x.drop (j + 1)).take (k + 1) := by
    rw [e0, List.take_add]
  have hl : (x.take (j + 1)).length = j + 1 := by
    rw [List.length_take]; omega
  have e2 : (x.take (j + k + 2)).drop (j + 1) = (x.drop (j + 1)).take (k + 1) := by
    rw [e1]; exact List.drop_left' hl
  have ho' : openOffset (x.take (j + k + 2)) false false = some j := by
    rw [e1]; exact openOffset_take_append x false false j _ ho
  have hc' : closeOffset ((x.take (j + k + 2)).drop (j + 1)) false false 1 = some k := by
    rw [e2]
    have := closeOffset_take_append _ false false 1 k [] hc
    rwa [List.append_nil] at this
  have h' := firstSpan_intro _ j k ho' hc'
  refine ⟨h', ?_⟩
  rw [(span_mid _ j k h').1, hm, e2, List.take_take, Nat.min_self]

theorem isValid_upto (E : Engine) (x : FString) (j k : Nat) (h : firstSpan x = some (j, k))
    (t : FString) :
    IsValidDirectorJSON E (x.take (j + k + 2) ++ t) = validateExtracted E (Mid x j (k + 2)) := by
  obtain ⟨h1, h2⟩ := firstSpan_take x j k h
  obtain ⟨h3, h4⟩ := firstSpan_append _ t j k h1
  rw [isValid_of_span E _ j k h3, h4, h2]

/-- C28. The verdict of `IsValidDirectorJSON` depends only on the text up to the end of the
first balanced top-level object. When the scanner finds the first object of `x` opening at
offset `j` and closing at offset `i = j + k + 1` (so that `ExtractStrictJSONObject` returns
`x[j..i]`), then for all suffixes `t1`, `t2` the results on `x[0..i] ++ t1` and on
`x[0..i] ++ t2` are the same in the boolean, the cleaned text and the error message; they are
the result on `x[0..i]` alone and on `x` itself, so trailing text never causes a rejection. -/
theorem IsValidDirectorJSON_ignores_suffix (E : Engine) (x : FString) (j k : Nat)
    (h : firstSpan x = some (j, k)) (t1 t2 : FString) :
    (ExtractStrictJSONObject E x).found = true ∧
    (ExtractStrictJSONObject E x).Out = Mid x j (k + 2) ∧
    IsValidDirectorJSON E (x.take (j + k + 2) ++ t1)
      = IsValidDirectorJSON E (x.take (j + k + 2) ++ t2) ∧
    IsValidDirectorJSON E (x.take (j + k + 2) ++ t1) = IsValidDirectorJSON E (x.take (j + k + 2)) ∧
    IsValidDirectorJSON E (x.take (j + k + 2) ++ t1) = IsValidDirectorJSON E x := by
  have e := extract_of_span E x j k h
  refine ⟨by rw [e], by rw [e], ?_, ?_, ?_⟩
  · rw [isValid_upto E x j k h t1, isValid_upto E x j k h t2]
  · have h0 := isValid_upto E x j k h []
    rw [List.append_nil] at h0
    rw [isValid_upto E x j k h t1, h0]
  · rw [isValid_upto E x j k h t1, isValid_of_span E x j k h]

set_option maxRecDepth 1000000 in
theorem IsValidDirectorJSON_ignores_suffix_witness :
    firstSpan (TEXT "ok " ++ scenarioJSON ++ TEXT " bye") = some (3, 208) ∧
    ((ExtractStrictJSONObject refEngine (TEXT "ok " ++ scenarioJSON ++ TEXT " bye")).found = true ∧
    (ExtractStrictJSONObject refEngine (TEXT "ok " ++ scenarioJSON ++ TEXT " bye")).Out
      = Mid (TEXT "ok " ++ scenarioJSON ++ TEXT " bye") 3 (208 + 2) ∧
    IsValidDirectorJSON refEngine
        ((TEXT "ok " ++ scenarioJSON ++ TEXT " bye").take (3 + 208 + 2) ++ TEXT " and more")
      = IsValidDirectorJSON refEngine
          ((TEXT "ok " ++ scenarioJSON ++ TEXT " bye").take (3 + 208 + 2) ++ noteJSON) ∧
    IsValidDirectorJSON refEngine
        ((TEXT "ok " ++ scenarioJSON ++ TEXT " bye").take (3 + 208 + 2) ++ TEXT " and more")
      = IsValidDirectorJSON refEngine ((TEXT "ok " ++ scenarioJSON ++ TEXT " bye").take (3 + 208 + 2)) ∧
    IsValidDirectorJSON refEngine
        ((TEXT "ok " ++ scenarioJSON ++ TEXT " bye").take (3 + 208 + 2) ++ TEXT " and more")
      = IsValidDirectorJSON refEngine (TEXT "ok " ++ scenarioJSON ++ TEXT " bye")) :=
  ⟨(by decide),
    IsValidDirectorJSON_ignores_suffix refEngine (TEXT "ok " ++ scenarioJSON ++ TEXT " bye") 3 208
      (by decide) (TEXT " and more") noteJSON⟩
/-! ## Every failure of `IsValidDirectorJSON` carries an explanation -/

theorem text_ne (a b : FString) (h : a ≠ []) : a ++ b ≠ [] :=
  List.append_ne_nil_of_left_ne_nil h b

theorem requireString_ne (E : Engine) (Obj : JObject) (Key err : FString)
    (h : RequireString E Obj Key = some err) : err ≠ [] := by
  unfold RequireString at h
  split at h
  · cases h; exact text_ne _ _ (text_ne _ _ (by decide))
  · split_ifs at h
    cases h; exact text_ne _ _ (text_ne _ _ (by decide))

theorem checkIntent_ne (E : Engine) (Root : JObject) (err : FString)
    (h : checkIntent E Root = some err) : err ≠ [] := by
  unfold checkIntent at h
  split at h
  · cases h; decide
  · split_ifs at h
    cases h; exact text_ne _ _ (by decide)

theorem toolCallsLoop_ne (E : Engine) :
    ∀ (l : List Json) (i : Nat) (err : FString), toolCallsLoop E l i = some err → err ≠ [] := by
  intro l
  induction l with
  | nil => intro i err h; simp [toolCallsLoop] at h
  | cons v rest ih =>
    intro i err h
    unfold toolCallsLoop at h
    split at h
    · cases h; exact text_ne _ _ (text_ne _ _ (by decide))
    · split at h
      · cases h; exact text_ne _ _ (text_ne _ _ (by decide))
      · split_ifs at h
        · split at h
          · cases h; exact text_ne _ _ (text_ne _ _ (by decide))
          · exact ih _ _ h
        · cases h
          exact text_ne _ _ (text_ne _ _ (text_ne _ _ (text_ne _ _ (by decide))))

theorem checkToolCalls_ne (E : Engine) (Root : JObject) (err : FString)
    (h : checkToolCalls E Root = some err) : err ≠ [] := by
  unfold checkToolCalls at h
  split_ifs at h
  split at h
  · cases h; decide
  · exact toolCallsLoop_ne E _ _ _ h

theorem linesLoop_ne (E : Engine) :
    ∀ (l : List Json) (i : Nat) (err : FString), linesLoop E l i = some err → err ≠ [] := by
  intro l
  induction l with
  | nil => intro i err h; simp [linesLoop] at h
  | cons v rest ih =>
    intro i err h
    unfold linesLoop at h
    split at h
    · cases h; exact text_ne _ _ (text_ne _ _ (by decide))
    · split_ifs at h
      · cases h; exact text_ne _ _ (text_ne _ _ (by decide))
      · exact ih _ _ h

theorem checkDialogueObject_ne (E : Engine) (Dlg : JObject) (err : FString)
    (h : checkDialogueObject E Dlg = some err) : err ≠ [] := by
  unfold checkDialogueObject at h
  split at h
  · cases h; decide
  · split_ifs at h
    · cases h; decide
    · cases h; decide
    · split at h
      · cases h; decide
      · split_ifs at h
        · cases h; decide
        · exact linesLoop_ne E _ _ _ h

theorem checkDialogue_ne (E : Engine) (Root : JObject) (err : FString)
    (h : checkDialogue E Root = some err) : err ≠ [] := by
  unfold checkDialogue at h
  split_ifs at h
  split at h
  · cases h; decide
  · exact checkDialogueObject_ne E _ _ h

theorem objectivesLoop_ne (E : Engine) :
    ∀ (l : List Json) (i : Nat) (err : FString), objectivesLoop E l i = some err → err ≠ [] := by
  intro l
  induction l with
  | nil => intro i err h; simp [objectivesLoop] at h
  | cons v rest ih =>
    intro i err h
    unfold objectivesLoop at h
    split at h
    · cases h; exact text_ne _ _ (text_ne _ _ (by decide))
    · split at h
      · rename_i e he
        cases h; exact text_ne _ _ (requireString_ne E _ _ _ he)
      · split at h
        · rename_i e he
          cases h; exact text_ne _ _ (requireString_ne E _ _ _ he)
        · exact ih _ _ h

theorem checkQuestPatchObject_ne (E : Engine) (QP : JObject) (err : FString)
    (h : checkQuestPatchObject E QP = some err) : err ≠ [] := by
  unfold checkQuestPatchObject at h
  by_cases h1 : (HasField E QP (TEXT "questId") || HasField E QP (TEXT "addObjectives")) = true
  · rw [if_pos h1] at h
    cases hr : RequireString E QP (TEXT "questId") with
    | some e =>
      rw [hr] at h
      cases h
      exact requireString_ne E _ _ _ hr
    | none =>
      rw [hr] at h
      simp only at h
      by_cases h2 : HasTypedField E QP (TEXT "addObjectives") EJson.Array = true
      · rw [if_pos h2] at h
        cases ha : TryGetArrayField E QP (TEXT "addObjectives") with
        | none => rw [ha] at h; cases h; decide
        | some Objs => rw [ha] at h; exact objectivesLoop_ne E _ _ _ h
      · rw [if_neg h2] at h; cases h
  · rw [if_neg h1] at h; cases h

theorem checkQuestPatch_ne (E : Engine) (Root : JObject) (err : FString)
    (h : checkQuestPatch E Root = some err) : err ≠ [] := by
  unfold checkQuestPatch at h
  split_ifs at h
  split at h
  · cases h; decide
  · exact checkQuestPatchObject_ne E _ _ h

theorem schemaChecks_ne (E : Engine) (Root : JObject) (err : FString)
    (h : schemaChecks E Root = some err) : err ≠ [] := by
  unfold schemaChecks at h
  split at h
  · rename_i e he; cases h; exact checkIntent_ne E _ _ he
  · split at h
    · rename_i e he; cases h; exact requireString_ne E _ _ _ he
    · split at h
      · rename_i e he; cases h; exact checkToolCalls_ne E _ _ he
      · split at h
        · rename_i e he; cases h; exact checkDialogue_ne E _ _ he
        · split at h
          · rename_i e he; cases h; exact checkQuestPatch_ne E _ _ he
          · unfold checkSkeletal at h
            split_ifs at h
            cases h; decide

theorem validateExtracted_error (E : Engine) (Out : FString) :
    ((validateExtracted E Out).ok = false ↔ (validateExtracted E Out).OutError ≠ []) := by
  unfold validateExtracted
  split_ifs
  · simp only [true_iff]; decide
  · cases hd : E.Deserialize Out with
    | none => simp only [true_iff]; decide
    | some Root =>
      simp only
      cases hs : schemaChecks E Root with
      | none => simp
      | some err => simpa using schemaChecks_ne E Root err hs
theorem take_succ_of_drop {α : Type} (r : List α) (k : Nat) (a : α) (rest : List α)
    (h : r.drop k = a :: rest) : r.take (k + 1) = r.take k ++ [a] := by
  rw [List.take_succ, ← List.head?_drop, h]
  rfl

theorem span_braces (In : FString) (j k : Nat) (h : firstSpan In = some (j, k)) :
    Mid In j (k + 2) = '{' :: (In.drop (j + 1)).take k ++ ['}'] := by
  obtain ⟨_, hc⟩ := firstSpan_spec In j k h
  rw [(span_mid In j k h).1, take_succ_of_drop _ k '}' _ (closeOffset_drop _ false false 1 k hc)]
  rfl

theorem isValid_error (E : Engine) (x : FString) :
    ((IsValidDirectorJSON E x).ok = false ↔ (IsValidDirectorJSON E x).OutError ≠ []) := by
  cases hs : firstSpan x with
  | none =>
    have h := extract_of_noSpan E x hs
    unfold IsValidDirectorJSON
    rw [h.1]
    simp only [Bool.false_eq_true, if_false, true_iff]
    by_cases he : (ExtractStrictJSONObject E x).OutErr.isEmpty = true
    · rw [if_pos he]; decide
    · rw [if_neg he]
      intro h0
      rw [h0] at he
      exact he rfl
  | some p =>
    obtain ⟨j, k⟩ := p
    rw [isValid_of_span E x j k hs]
    exact validateExtracted_error E _

theorem isValid_success (E : Engine) (x : FString) (h : (IsValidDirectorJSON E x).ok = true) :
    (IsValidDirectorJSON E x).OutError = [] ∧
      (IsValidDirectorJSON E x).OutCleanedJSON = (ExtractStrictJSONObject E x).Out ∧
      ∃ body, (IsValidDirectorJSON E x).OutCleanedJSON = '{' :: body ++ ['}'] := by
  refine ⟨?_, isValid_cleaned E x, ?_⟩
  · by_contra hne
    have := (isValid_error E x).mpr hne
    rw [h] at this
    cases this
  · obtain ⟨j, k, hs, hc⟩ := isValid_ok_span E x h
    exact ⟨_, by rw [hc, span_braces x j k hs]⟩

/-- C30. `IsValidDirectorJSON` reports an explanation exactly when it fails: for every input
it returns `false` if and only if `OutError` is non-empty on return; when it returns `true`,
`OutError` is empty and `OutCleanedJSON` is the object that `ExtractStrictJSONObject` found,
a text that starts with an opening brace and ends with a closing brace. -/
theorem IsValidDirectorJSON_error_iff_failure (E : Engine) (x : FString) :
    ((IsValidDirectorJSON E x).ok = false ↔ (IsValidDirectorJSON E x).OutError ≠ []) ∧
    ((IsValidDirectorJSON E x).ok = true →
      (IsValidDirectorJSON E x).OutError = [] ∧
      (IsValidDirectorJSON E x).OutCleanedJSON = (ExtractStrictJSONObject E x).Out ∧
      ∃ body, (IsValidDirectorJSON E x).OutCleanedJSON = '{' :: body ++ ['}']) :=
  ⟨isValid_error E x, isValid_success E x⟩

set_option maxRecDepth 1000000 in
theorem IsValidDirectorJSON_error_iff_failure_witness :
    (IsValidDirectorJSON refEngine (TEXT "Sure: " ++ scenarioJSON)).ok = true ∧
    ((IsValidDirectorJSON refEngine (TEXT "Sure: " ++ scenarioJSON)).OutError = [] ∧
      (IsValidDirectorJSON refEngine (TEXT "Sure: " ++ scenarioJSON)).OutCleanedJSON
        = (ExtractStrictJSONObject refEngine (TEXT "Sure: " ++ scenarioJSON)).Out ∧
      ∃ body, (IsValidDirectorJSON refEngine (TEXT "Sure: " ++ scenarioJSON)).OutCleanedJSON
        = '{' :: body ++ ['}']) ∧
    (IsValidDirectorJSON refEngine noteJSON).ok = false ∧
    (IsValidDirectorJSON refEngine noteJSON).OutError ≠ [] :=
  ⟨(by decide),
    (IsValidDirectorJSON_error_iff_failure refEngine (TEXT "Sure: " ++ scenarioJSON)).2 (by decide),
    (by decide),
    (IsValidDirectorJSON_error_iff_failure refEngine noteJSON).1.mp (by decide)⟩
/-! ## The in-flight flag of `Generate` -/

theorem generate_gated (E : Engine) (W : JsonWriter) (G : FString → FString)
    (s : SubsystemState) (Prompt : FString) (h : s.bIsGenerating = true) :
    Generate E W G s Prompt = (false, s) := by
  unfold Generate
  split_ifs <;> rfl

theorem generate_passed (E : Engine) (W : JsonWriter) (G : FString → FString)
    (s : SubsystemState) (Prompt : FString) (hr : s.hasRunner = true)
    (h : s.bIsGenerating = false) :
    (Generate E W G s Prompt).2.bIsGenerating = false ∧
      (Generate E W G s Prompt).1 = (ParseDirectorJSON E W (G Prompt)).ok ∧
      (Generate E W G s Prompt).2.Generations = s.Generations ++ [Prompt] := by
  unfold Generate
  rw [if_neg (by rw [hr]; decide), if_neg (by rw [h]; decide)]
  simp only
  by_cases hok : (ParseDirectorJSON E W (G Prompt)).ok = true
  · rw [if_pos hok]; exact ⟨rfl, hok.symm, rfl⟩
  · rw [if_neg hok]
    refine ⟨rfl, ?_, rfl⟩
    cases h2 : (ParseDirectorJSON E W (G Prompt)).ok with
    | true => exact absurd h2 hok
    | false => rfl

/-- C22. `Generate` is gated by the in-flight flag. When `bIsGenerating` is `true` on entry it
returns `false` and leaves the state as it was: nothing is generated, nothing is broadcast,
the flag stays `true`. When a call passes the gate (a runner is there and the flag is `false`),
exactly one generation is run, the return value is the outcome of the parse, and
`bIsGenerating` is `false` when the call returns, whether the parse succeeded or not. -/
theorem Generate_in_flight_flag (E : Engine) (W : JsonWriter) (G : FString → FString)
    (s : SubsystemState) (Prompt : FString) :
    (s.bIsGenerating = true →
      (Generate E W G s Prompt).1 = false ∧
      (Generate E W G s Prompt).2.Generations = s.Generations ∧
      (Generate E W G s Prompt).2.Broadcasts = s.Broadcasts ∧
      (Generate E W G s Prompt).2.bIsGenerating = true ∧
      (Generate E W G s Prompt).2 = s) ∧
    (s.hasRunner = true → s.bIsGenerating = false →
      (Generate E W G s Prompt).2.bIsGenerating = false ∧
      (Generate E W G s Prompt).1 = (ParseDirectorJSON E W (G Prompt)).ok ∧
      (Generate E W G s Prompt).2.Generations = s.Generations ++ [Prompt]) := by
  constructor
  · intro h
    rw [generate_gated E W G s Prompt h]
    exact ⟨rfl, rfl, rfl, h, rfl⟩
  · exact generate_passed E W G s Prompt

set_option maxRecDepth 1000000 in
theorem Generate_in_flight_flag_witness :
    ((Generate refEngine refWriter (fun _ => scenarioJSON) ⟨true, true, [], []⟩ (TEXT "go")).1
        = false ∧
      (Generate refEngine refWriter (fun _ => scenarioJSON) ⟨true, true, [], []⟩
        (TEXT "go")).2.Generations = [] ∧
      (Generate refEngine refWriter (fun _ => scenarioJSON) ⟨true, true, [], []⟩
        (TEXT "go")).2.Broadcasts = [] ∧
      (Generate refEngine refWriter (fun _ => scenarioJSON) ⟨true, true, [], []⟩
        (TEXT "go")).2.bIsGenerating = true ∧
      (Generate refEngine refWriter (fun _ => scenarioJSON) ⟨true, true, [], []⟩ (TEXT "go")).2
        = ⟨true, true, [], []⟩) ∧
    ((Generate refEngine refWriter (fun _ => scenarioJSON) ⟨true, false, [], []⟩
        (TEXT "go")).2.bIsGenerating = false ∧
      (Generate refEngine refWriter (fun _ => scenarioJSON) ⟨true, false, [], []⟩ (TEXT "go")).1
        = (ParseDirectorJSON refEngine refWriter scenarioJSON).ok ∧
      (Generate refEngine refWriter (fun _ => scenarioJSON) ⟨true, false, [], []⟩
        (TEXT "go")).2.Generations = [] ++ [TEXT "go"]) ∧
    ((Generate refEngine refWriter (fun _ => TEXT "no") ⟨true, false, [], []⟩
        (TEXT "go")).2.bIsGenerating = false ∧
      (Generate refEngine refWriter (fun _ => TEXT "no") ⟨true, false, [], []⟩ (TEXT "go")).1
        = (ParseDirectorJSON refEngine refWriter (TEXT "no")).ok ∧
      (Generate refEngine refWriter (fun _ => TEXT "no") ⟨true, false, [], []⟩
        (TEXT "go")).2.Generations = [] ++ [TEXT "go"]) :=
  ⟨(Generate_in_flight_flag refEngine refWriter (fun _ => scenarioJSON) ⟨true, true, [], []⟩
      (TEXT "go")).1 rfl,
    (Generate_in_flight_flag refEngine refWriter (fun _ => scenarioJSON) ⟨true, false, [], []⟩
      (TEXT "go")).2 rfl rfl,
    (Generate_in_flight_flag refEngine refWriter (fun _ => TEXT "no") ⟨true, false, [], []⟩
      (TEXT "go")).2 rfl rfl⟩

/-! ## `GenerateJSONAsync` -/

/-- C23. On a runner that is not initialized or has no worker, `GenerateJSONAsync` leaves the
queue as it was and hands the game thread exactly one task, which calls the callback with the
empty-object text `{}`. On an initialized runner with a worker it appends exactly one job,
carrying the given prompt, intent and callback, at the end of the queue, wakes the worker, and
hands the game thread nothing. -/
theorem GenerateJSONAsync_enqueues_or_defaults {κ : Type} (s : RunnerState κ)
    (Prompt : FString) (OnDone : Option κ) (Intent : FString) :
    ((s.bInitialized = false ∨ s.hasWorker = false) →
      (GenerateJSONAsync s Prompt OnDone Intent).Queue = s.Queue ∧
      (GenerateJSONAsync s Prompt OnDone Intent).GameThreadTasks
        = s.GameThreadTasks ++ [{ OnDone := OnDone, Output := emptyObjectJSON }]) ∧
    ((s.bInitialized = true ∧ s.hasWorker = true) →
      (GenerateJSONAsync s Prompt OnDone Intent).Queue
        = s.Queue ++ [{ Prompt := Prompt, OnDone := OnDone, Intent := Intent }] ∧
      (GenerateJSONAsync s Prompt OnDone Intent).GameThreadTasks = s.GameThreadTasks ∧
      (GenerateJSONAsync s Prompt OnDone Intent).Wakes = s.Wakes + 1) := by
  constructor
  · intro h
    unfold GenerateJSONAsync
    rw [if_pos h]
    exact ⟨rfl, rfl⟩
  · rintro ⟨h1, h2⟩
    unfold GenerateJSONAsync
    rw [if_neg (by rw [h1, h2]; decide)]
    exact ⟨rfl, rfl, rfl⟩

theorem GenerateJSONAsync_enqueues_or_defaults_witness :
    ((GenerateJSONAsync (⟨true, false, [], [], 0⟩ : RunnerState Nat) (TEXT "go") (some 7)
        (TEXT "warn")).Queue = ([] : List (FJob Nat)) ∧
      (GenerateJSONAsync (⟨true, false, [], [], 0⟩ : RunnerState Nat) (TEXT "go") (some 7)
        (TEXT "warn")).GameThreadTasks
        = [] ++ [{ OnDone := some 7, Output := emptyObjectJSON }]) ∧
    ((GenerateJSONAsync (⟨true, true, [], [], 0⟩ : RunnerState Nat) (TEXT "go") (some 7)
        (TEXT "warn")).Queue
        = [] ++ [{ Prompt := TEXT "go", OnDone := some 7, Intent := TEXT "warn" }] ∧
      (GenerateJSONAsync (⟨true, true, [], [], 0⟩ : RunnerState Nat) (TEXT "go") (some 7)
        (TEXT "warn")).GameThreadTasks = [] ∧
      (GenerateJSONAsync (⟨true, true, [], [], 0⟩ : RunnerState Nat) (TEXT "go") (some 7)
        (TEXT "warn")).Wakes = 0 + 1) :=
  ⟨(GenerateJSONAsync_enqueues_or_defaults (⟨true, false, [], [], 0⟩ : RunnerState Nat)
      (TEXT "go") (some 7) (TEXT "warn")).1 (Or.inr rfl),
    (GenerateJSONAsync_enqueues_or_defaults (⟨true, true, [], [], 0⟩ : RunnerState Nat)
      (TEXT "go") (some 7) (TEXT "warn")).2 ⟨rfl, rfl⟩⟩
/-! ## The trailing-comma pass -/

theorem commaCleanup_sublist (E : Engine) :
    ∀ c : FString, (commaCleanup E c).Sublist c := by
  intro c
  induction c with
  | nil => exact List.Sublist.slnil
  | cons a rest ih =>
    unfold commaCleanup
    split_ifs
    · exact List.Sublist.cons _ ih
    · exact List.Sublist.cons₂ _ ih

theorem commaCleanup_others (E : Engine) :
    ∀ c : FString, (commaCleanup E c).filter (fun x => decide (x ≠ ','))
      = c.filter (fun x => decide (x ≠ ',')) := by
  intro c
  induction c with
  | nil => rfl
  | cons a rest ih =>
    unfold commaCleanup
    split_ifs with h
    · rw [h.1, ih]; simp
    · by_cases ha : a = ','
      · subst ha; simpa using ih
      · simp only [List.filter_cons, ha, ne_eq, not_false_eq_true, decide_True, if_true, ih]

theorem commaCleanup_length (E : Engine) (c : FString) :
    (commaCleanup E c).length ≤ c.length :=
  (commaCleanup_sublist E c).length_le

theorem commaCleanup_eq_iff (E : Engine) :
    ∀ c : FString, commaCleanup E c = c ↔ hasTrailingComma E c = false := by
  intro c
  induction c with
  | nil => simp [commaCleanup, hasTrailingComma]
  | cons a rest ih =>
    unfold commaCleanup hasTrailingComma
    by_cases h : a = ',' ∧ closesNext (rest.dropWhile E.IsWhitespace) = true
    · rw [if_pos h]
      constructor
      · intro he
        have := commaCleanup_length E rest
        rw [he] at this
        simp at this
      · intro hf
        simp [h.1, h.2] at hf
    · rw [if_neg h]
      have h' : (decide (a = ',') && closesNext (rest.dropWhile E.IsWhitespace)) = false := by
        cases hc : closesNext (rest.dropWhile E.IsWhitespace) with
        | false => simp
        | true =>
          have ha : a ≠ ',' := fun ha => h ⟨ha, hc⟩
          simp [ha]
      rw [h', Bool.false_or, ← ih]
      simp

theorem droppedAt_succ (E : Engine) (a : Char) (rest : FString) (i : Nat) :
    droppedAt E (a :: rest) (i + 1) = droppedAt E rest i := by
  simp [droppedAt]

theorem commaCleanup_exact (E : Engine) :
    ∀ Cand : FString, commaCleanup E Cand
      = (List.range Cand.length).filterMap
          (fun i => if droppedAt E Cand i = true then none else Cand[i]?) := by
  intro Cand
  induction Cand with
  | nil => rfl
  | cons a rest ih =>
    rw [commaCleanup, List.length_cons, List.range_succ_eq_map, List.filterMap_cons,
      List.filterMap_map]
    have e : (fun i => if droppedAt E (a :: rest) i = true then none else (a :: rest)[i]?) ∘ Nat.succ
        = (fun i => if droppedAt E rest i = true then none else rest[i]?) := by
      funext i
      simp only [Function.comp, Nat.succ_eq_add_one, droppedAt_succ, List.getElem?_cons_succ]
    rw [e, ← ih]
    by_cases h : a = ',' ∧ closesNext (rest.dropWhile E.IsWhitespace) = true
    · rw [if_pos h]
      have hd : droppedAt E (a :: rest) 0 = true := by
        simp [droppedAt, h.1, h.2]
      simp [hd]
    · rw [if_neg h]
      have hd : droppedAt E (a :: rest) 0 = false := by
        cases hc : closesNext (rest.dropWhile E.IsWhitespace) with
        | false => simp [droppedAt, hc]
        | true =>
          have ha : a ≠ ',' := fun ha => h ⟨ha, hc⟩
          simp [droppedAt, ha]
      simp [hd]

theorem hasTrailingComma_iff (E : Engine) :
    ∀ c : FString, hasTrailingComma E c = true ↔ ∃ i, i < c.length ∧ droppedAt E c i = true := by
  intro c
  induction c with
  | nil => simp [hasTrailingComma]
  | cons a rest ih =>
    unfold hasTrailingComma
    rw [Bool.or_eq_true, ih]
    constructor
    · rintro (h | ⟨i, hi, hd⟩)
      · refine ⟨0, by simp, ?_⟩
        simpa [droppedAt] using h
      · exact ⟨i + 1, by simpa using hi, by rw [droppedAt_succ]; exact hd⟩
    · rintro ⟨i, hi, hd⟩
      cases i with
      | zero => left; simpa [droppedAt] using hd
      | succ n =>
        right
        rw [droppedAt_succ] at hd
        exact ⟨n, by simpa using hi, hd⟩

/-- C29 (amended). The trailing-comma pass deletes exactly the commas that are followed,
after optional whitespace, by a closing brace or bracket, wherever they stand, inside a string
literal or not: its result is the candidate without the characters at the indices `i` with
`droppedAt`, each of which is a comma, and with every other character kept in order. So it
deletes commas only, and it leaves the candidate unchanged, and with it the parse, exactly
when the candidate holds no such comma. -/
theorem commaCleanup_frame (E : Engine) (Cand : FString) :
    commaCleanup E Cand
      = (List.range Cand.length).filterMap
          (fun i => if droppedAt E Cand i = true then none else Cand[i]?) ∧
    (∀ i, droppedAt E Cand i = true → Cand[i]? = some ',') ∧
    (commaCleanup E Cand).Sublist Cand ∧
    (commaCleanup E Cand).filter (fun x => decide (x ≠ ','))
      = Cand.filter (fun x => decide (x ≠ ',')) ∧
    (commaCleanup E Cand = Cand ↔ hasTrailingComma E Cand = false) ∧
    (hasTrailingComma E Cand = true ↔ ∃ i, i < Cand.length ∧ droppedAt E Cand i = true) ∧
    (hasTrailingComma E Cand = false →
      E.Deserialize (commaCleanup E Cand) = E.Deserialize Cand) :=
  ⟨commaCleanup_exact E Cand,
    fun i h => by
      unfold droppedAt at h
      rw [Bool.and_eq_true] at h
      exact of_decide_eq_true h.1,
    commaCleanup_sublist E Cand, commaCleanup_others E Cand, commaCleanup_eq_iff E Cand,
    hasTrailingComma_iff E Cand,
    fun h => by rw [(commaCleanup_eq_iff E Cand).mpr h]⟩

set_option maxRecDepth 1000000 in
theorem commaCleanup_frame_witness :
    hasTrailingComma refEngine scenarioJSON = false ∧
    refEngine.Deserialize (commaCleanup refEngine scenarioJSON)
      = refEngine.Deserialize scenarioJSON ∧
    commaCleanup refEngine (TEXT "\x7b\"a\":[1,2, ],\n\x7d") = TEXT "\x7b\"a\":[1,2 ]\n\x7d" ∧
    commaCleanup refEngine (TEXT "\x7b\"a\":[1,2, ],\n\x7d")
      = (List.range (TEXT "\x7b\"a\":[1,2, ],\n\x7d").length).filterMap
          (fun i => if droppedAt refEngine (TEXT "\x7b\"a\":[1,2, ],\n\x7d") i = true then none
            else (TEXT "\x7b\"a\":[1,2, ],\n\x7d")[i]?) :=
  ⟨(by decide), (commaCleanup_frame refEngine scenarioJSON).2.2.2.2.2.2 (by decide),
    (by decide), (commaCleanup_frame refEngine (TEXT "\x7b\"a\":[1,2, ],\n\x7d")).1⟩

set_option maxRecDepth 1000000 in
/-- C29, counterexample. In the object `{"a":"x,}"}` the comma stands inside a string
literal; the pass drops it, so the string `x,}` becomes `x}`: the object parsed before and
parses to another value after. The extractor of the subsystem therefore returns another
object for this text after a word of prose than for the text itself. -/
theorem commaCleanup_string_counterexample :
    commaCleanup refEngine commaInStringJSON = TEXT "\x7b\"a\":\"x\x7d\"\x7d" ∧
    (refEngine.Deserialize commaInStringJSON).map
        (fun Obj => TryGetStringField refEngine Obj (TEXT "a")) = some (some (TEXT "x,\x7d")) ∧
    (refEngine.Deserialize (commaCleanup refEngine commaInStringJSON)).map
        (fun Obj => TryGetStringField refEngine Obj (TEXT "a")) = some (some (TEXT "x\x7d")) ∧
    CollectBalancedObjects (sanitize refEngine (TEXT "Sure: " ++ commaInStringJSON))
      = [commaInStringJSON] ∧
    Subsystem.ExtractStrictJSONObject refEngine refWriter (TEXT "Sure: " ++ commaInStringJSON)
      ≠ Subsystem.ExtractStrictJSONObject refEngine refWriter commaInStringJSON := by
  decide
/-! ## Unwrapping a quoted object -/

theorem topLoop_strBody (In : FString) (b : FString) (hb : StrBody b) :
    ∀ (rest : FString) (i : Nat) (depth : Int) (start : Nat),
      topLoop In (b ++ '"' :: rest) i true false depth start
        = topLoop In rest (i + b.length + 1) false false depth start := by
  induction hb with
  | nil => intro rest i depth start; simp [topLoop]
  | plain c t h1 h2 _ ih =>
    intro rest i depth start
    simp only [List.cons_append, topLoop, h1, h2, if_true, if_false, List.length_cons]
    simp [ih, Nat.add_assoc, Nat.add_comm, Nat.add_left_comm]
  | escaped c t _ ih =>
    intro rest i depth start
    simp only [List.cons_append, topLoop, if_true, if_false, List.length_cons]
    simp [ih, Nat.add_assoc, Nat.add_comm, Nat.add_left_comm]

theorem topLoop_inert (In : FString) (a : FString) (ha : Inert a) :
    ∀ (rest : FString) (i : Nat) (depth : Int) (start : Nat), 0 < depth →
      topLoop In (a ++ rest) i false false depth start
        = topLoop In rest (i + a.length) false false depth start := by
  induction ha with
  | nil => intro rest i depth start _; simp
  | plain c h1 h2 h3 h4 =>
    intro rest i depth start _
    simp [topLoop, h1, h2, h3, h4]
  | str b hb =>
    intro rest i depth start _
    simp only [List.cons_append, List.append_assoc, List.nil_append, topLoop]
    simp [topLoop_strBody In b hb, Nat.add_assoc, Nat.add_comm, Nat.add_left_comm]
  | obj a _ ih =>
    intro rest i depth start hd
    have h0 : depth ≠ 0 := by omega
    have h1 : depth + 1 - 1 = depth := by omega
    have e : ('{' :: a ++ ['}']) ++ rest = '{' :: (a ++ '}' :: rest) := by simp
    have hd1 : (0 : Int) < depth + 1 := by omega
    rw [e, topLoop]
    simp only [Bool.false_eq_true, if_false, if_true, Char.reduceEq, h0]
    rw [ih _ _ _ _ hd1, topLoop]
    simp only [Bool.false_eq_true, if_false, if_true, Char.reduceEq, h0, h1]
    simp [Nat.add_assoc, Nat.add_comm, Nat.add_left_comm]
  | append a b _ _ iha ihb =>
    intro rest i depth start hd
    rw [List.append_assoc, iha _ _ _ _ hd, ihb _ _ _ _ hd, List.length_append, Nat.add_assoc]

theorem skipToBrace_skips (r : FString) :
    ∀ (P : FString) (i : Nat), (∀ c ∈ P, c ≠ '{') →
      skipToBrace (P ++ '{' :: r) i = some (i + P.length, '{' :: r) := by
  intro P
  induction P with
  | nil => intro i _; simp [skipToBrace]
  | cons c t ih =>
    intro i h
    have hc := h c (List.mem_cons_self _ _)
    rw [List.cons_append, skipToBrace, if_neg hc, ih _ (fun x hx => h x (List.mem_cons_of_mem _ hx))]
    simp only [List.length_cons]
    congr 2
    omega

theorem extractTop_object (P a T : FString) (hP : ∀ c ∈ P, c ≠ '{') (ha : Inert a) :
    ExtractTopLevelJsonObject (P ++ '{' :: a ++ '}' :: T) = some ('{' :: a ++ ['}']) := by
  have e0 : P ++ '{' :: a ++ '}' :: T = P ++ '{' :: (a ++ '}' :: T) := by simp
  unfold ExtractTopLevelJsonObject
  rw [e0, skipToBrace_skips _ P 0 hP]
  simp only [Nat.zero_add]
  rw [topLoop]
  simp only [Bool.false_eq_true, if_false, if_true, Char.reduceEq]
  rw [topLoop_inert _ a ha _ _ _ _ (by decide), topLoop]
  simp only [Bool.false_eq_true, if_false, Char.reduceEq]
  have e : P.length + 1 + a.length - P.length + 1 = a.length + 2 := by omega
  simp only [Int.zero_add, Int.sub_self, if_true, e]
  have e2 : P ++ '{' :: (a ++ '}' :: T) = P ++ (('{' :: a ++ ['}']) ++ T) := by simp
  have e3 : a.length + 2 = ('{' :: a ++ ['}']).length := by simp
  rw [Mid, e2, List.drop_left, e3, List.take_left]
theorem topLoop_in_escaped (In : FString) :
    ∀ (t : FString) (i : Nat) (depth : Int) (start : Nat), (∀ c ∈ t, c ≠ '\\') →
      topLoop In (escapeQuotes t ++ ['"']) i true false depth start = none := by
  intro t
  induction t with
  | nil => intro i depth start _; simp [escapeQuotes, topLoop]
  | cons c t ih =>
    intro i depth start h
    have hc := h c (List.mem_cons_self _ _)
    have ht : ∀ x ∈ t, x ≠ '\\' := fun x hx => h x (List.mem_cons_of_mem _ hx)
    unfold escapeQuotes
    by_cases hq : c = '"'
    · rw [if_pos hq]
      simp only [List.cons_append, topLoop]
      simp [ih _ _ _ ht]
    · rw [if_neg hq]
      simp only [List.cons_append, topLoop]
      simp [hc, hq, ih _ _ _ ht]

theorem escapeQuotes_append :
    ∀ (a b : FString), escapeQuotes (a ++ b) = escapeQuotes a ++ escapeQuotes b := by
  intro a b
  induction a with
  | nil => rfl
  | cons c t ih =>
    simp only [List.cons_append, escapeQuotes]
    split_ifs <;> simp [ih]

theorem escapeQuotes_id : ∀ (w : FString), (∀ c ∈ w, c ≠ '"') → escapeQuotes w = w := by
  intro w
  induction w with
  | nil => intro _; rfl
  | cons c t ih =>
    intro h
    unfold escapeQuotes
    rw [if_neg (h c (List.mem_cons_self _ _)), ih (fun x hx => h x (List.mem_cons_of_mem _ hx))]

theorem mem_escapeQuotes : ∀ (t : FString) (x : Char), x ∈ escapeQuotes t → x ∈ t ∨ x = '\\' := by
  intro t
  induction t with
  | nil => intro x h; simp [escapeQuotes] at h
  | cons c t ih =>
    intro x h
    unfold escapeQuotes at h
    split_ifs at h with hq
    · rcases List.mem_cons.mp h with rfl | h
      · right; rfl
      · rcases List.mem_cons.mp h with rfl | h
        · left; rw [hq]; exact List.mem_cons_self _ _
        · rcases ih x h with h | h
          · left; exact List.mem_cons_of_mem _ h
          · right; exact h
    · rcases List.mem_cons.mp h with rfl | h
      · left; exact List.mem_cons_self _ _
      · rcases ih x h with h | h
        · left; exact List.mem_cons_of_mem _ h
        · right; exact h

theorem unescape_quotes :
    ∀ (t : FString), (∀ c ∈ t, c ≠ '\\') →
      replaceLoop ['\\', '"'] ['"'] (escapeQuotes t) 0 = t := by
  intro t
  induction t with
  | nil => intro _; rfl
  | cons c t ih =>
    intro h
    have hc := h c (List.mem_cons_self _ _)
    have ht : ∀ x ∈ t, x ≠ '\\' := fun x hx => h x (List.mem_cons_of_mem _ hx)
    unfold escapeQuotes
    by_cases hq : c = '"'
    · rw [if_pos hq, replaceLoop, if_pos (by simp [matchesPrefix, sameChar_refl])]
      simp only [List.length_cons, List.length_nil, Nat.zero_add, Nat.add_one_sub_one, replaceLoop]
      rw [ih ht, hq]
      rfl
    · rw [if_neg hq, replaceLoop, if_neg, ih ht]
      intro hm
      simp only [matchesPrefix, Bool.and_eq_true] at hm
      exact hc (sameChar_special '\\' c (by decide) (by decide) hm.1)

theorem members_head (k : JSort) (ms : FString) (h : JText k ms) (hk : k = JSort.members) :
    ∃ w r, JWs w ∧ ms = w ++ '"' :: r := by
  cases h with
  | litNull => cases hk
  | litTrue => cases hk
  | litFalse => cases hk
  | number t _ => cases hk
  | string t _ => cases hk
  | emptyArray w _ => cases hk
  | array es _ => cases hk
  | emptyObject w _ => cases hk
  | object ms _ => cases hk
  | element w1 v w2 _ _ _ => cases hk
  | elementCons w1 v w2 es _ _ _ _ => cases hk
  | member w1 key w2 w3 v w4 h1 hkey _ _ _ _ =>
    obtain ⟨b, _, rfl⟩ := hkey
    exact ⟨w1, b ++ '"' :: (w2 ++ ':' :: (w3 ++ (v ++ w4))), h1, by simp [List.append_assoc]⟩
  | memberCons w1 key w2 w3 v w4 ms h1 hkey _ _ _ _ _ =>
    obtain ⟨b, _, rfl⟩ := hkey
    exact ⟨w1, b ++ '"' :: (w2 ++ ':' :: (w3 ++ (v ++ (w4 ++ ',' :: ms)))), h1,
      by simp [List.append_assoc]⟩
theorem unwrapQuoted_quoted (J : FString) (h : ∀ c ∈ J, c ≠ '\\') :
    unwrapQuoted (quoted J) = J := by
  have hb : '\\' ∉ J := fun hm => h _ hm rfl
  have e1 : Mid (quoted J) 1 ((quoted J).length - 2) = escapeQuotes J := by
    unfold Mid quoted
    simp only [List.drop_succ_cons, List.drop_zero, List.length_cons, List.length_append,
      List.length_nil, Nat.zero_add]
    exact List.take_left' (by omega)
  have e2 : ReplaceInline ['\\', '"'] ['"'] (escapeQuotes J) = J := by
    unfold ReplaceInline
    rw [if_neg (by simp)]
    exact unescape_quotes J h
  unfold unwrapQuoted
  rw [e1, e2, ReplaceInline_noop_head '\\' _ _ J (by decide) (by decide) hb,
    ReplaceInline_noop_head '\\' _ _ J (by decide) (by decide) hb,
    ReplaceInline_noop_head '\\' _ _ J (by decide) (by decide) hb,
    ReplaceInline_noop_head '\\' _ _ J (by decide) (by decide) hb]

theorem getLast_snoc {α : Type} (l : List α) (a : α) : (l ++ [a]).getLast? = some a := by
  rw [List.getLast?_eq_getLast _ (by simp)]
  simp

theorem fences_quoted (E : Engine) (J : FString) (hq : E.IsWhitespace '"' = false)
    (h : ∀ c ∈ J, c ≠ '\\' ∧ c ≠ '\x60') :
    TrimStartAndEnd E
      (ReplaceInline (TEXT "```") [] (ReplaceInline (TEXT "```json") [] (quoted J)))
      = quoted J := by
  have hbt : '\x60' ∉ quoted J := by
    intro hm
    unfold quoted at hm
    rcases List.mem_cons.mp hm with h0 | hm
    · revert h0; decide
    · rcases List.mem_append.mp hm with hm | hm
      · rcases mem_escapeQuotes J _ hm with h1 | h1
        · exact (h _ h1).2 rfl
        · revert h1; decide
      · simp at hm
  have e1 : TEXT "```json" = '\x60' :: TEXT "``json" := by decide
  have e2 : TEXT "```" = '\x60' :: TEXT "``" := by decide
  rw [e1, e2, ReplaceInline_noop_head '\x60' _ _ _ (by decide) (by decide) hbt,
    ReplaceInline_noop_head '\x60' _ _ _ (by decide) (by decide) hbt]
  apply trim_id
  · intro c hc
    have hc' : some '"' = some c := hc
    rw [← Option.some.inj hc']; exact hq
  · intro c hc
    have hl : (quoted J).getLast? = some '"' := by
      unfold quoted
      rw [show ('"' :: escapeQuotes J ++ ['"'] : FString) = ('"' :: escapeQuotes J) ++ ['"'] from rfl]
      exact getLast_snoc _ _
    rw [hl] at hc
    rw [← Option.some.inj hc]; exact hq

theorem extractTop_quoted_members (w r : FString) (hw : JWs w)
    (h : ∀ c ∈ r, c ≠ '\\') :
    ExtractTopLevelJsonObject (quoted ('{' :: (w ++ '"' :: r) ++ ['}'])) = none := by
  have hwq : ∀ c ∈ w, c ≠ '"' := by
    intro c hc
    rcases hw c hc with h | h | h | h <;> subst h <;> decide
  have e : quoted ('{' :: (w ++ '"' :: r) ++ ['}'])
      = ['"'] ++ '{' :: (w ++ '\\' :: '"' :: (escapeQuotes (r ++ ['}']) ++ ['"'])) := by
    unfold quoted
    have e1 : ('{' :: (w ++ '"' :: r) ++ ['}'] : FString) = ['{'] ++ (w ++ ('"' :: (r ++ ['}']))) := by
      simp
    rw [e1, escapeQuotes_append, escapeQuotes_append, escapeQuotes_id w hwq]
    simp [escapeQuotes]
  unfold ExtractTopLevelJsonObject
  rw [e, skipToBrace_skips _ ['"'] 0 (by decide)]
  simp only [Nat.zero_add, List.length_singleton]
  rw [topLoop]
  simp only [Bool.false_eq_true, if_false, if_true, Char.reduceEq]
  rw [topLoop_inert _ w (inert_ws w hw) _ _ _ _ (by decide), topLoop]
  simp only [Bool.false_eq_true, if_false, if_true, Char.reduceEq]
  rw [topLoop]
  simp only [Bool.false_eq_true, if_false, if_true, Char.reduceEq, Bool.not_false]
  apply topLoop_in_escaped
  intro c hc
  rcases List.mem_append.mp hc with hc | hc
  · exact h c hc
  · simp only [List.mem_singleton] at hc
    rw [hc]; decide

theorem sanitizeModelOutput_quoted (E : Engine) (J : FString) (hq : E.IsWhitespace '"' = false)
    (hJ : JObjectText J) (h : ∀ c ∈ J, c ≠ '\\' ∧ c ≠ '\x60') :
    SanitizeModelOutputToJsonObject E (quoted J) = J := by
  have hbs : ∀ c ∈ J, c ≠ '\\' := fun c hc => (h c hc).1
  unfold SanitizeModelOutputToJsonObject
  simp only
  rw [fences_quoted E J hq h]
  have hs : ¬ (StartsWith (quoted J) ['{'] = true ∧ EndsWith (quoted J) ['}'] = true) := by
    intro hh
    have := hh.1
    unfold StartsWith quoted at this
    simp only [matchesPrefix, Bool.and_true] at this
    revert this
    decide
  rw [if_neg hs]
  obtain ⟨body, rfl, hb | hb⟩ := hJ
  · have hbq : ∀ c ∈ ('{' :: body ++ ['}'] : FString), c ≠ '"' := by
      intro c hc
      rcases List.mem_cons.mp hc with rfl | hc
      · decide
      · rcases List.mem_append.mp hc with hc | hc
        · rcases hb c hc with h | h | h | h <;> subst h <;> decide
        · simp only [List.mem_singleton] at hc
          rw [hc]; decide
    have e : quoted ('{' :: body ++ ['}']) = ['"'] ++ '{' :: body ++ '}' :: ['"'] := by
      unfold quoted
      rw [escapeQuotes_id _ hbq]
      simp
    rw [e, extractTop_object ['"'] body ['"'] (by decide) (inert_ws body hb)]
  · obtain ⟨w, r, hw, rfl⟩ := members_head _ _ hb rfl
    have hr : ∀ c ∈ r, c ≠ '\\' := by
      intro c hc
      exact hbs c (by simp [hc])
    rw [extractTop_quoted_members w r hw hr]
    simp only
    have hse : StartsWith (quoted ('{' :: (w ++ '"' :: r) ++ ['}'])) ['"', '{'] = true ∧
        EndsWith (quoted ('{' :: (w ++ '"' :: r) ++ ['}'])) ['}', '"'] = true := by
      constructor
      · unfold StartsWith quoted escapeQuotes
        simp [matchesPrefix, sameChar_refl]
      · unfold EndsWith quoted
        have e1 : ('{' :: (w ++ '"' :: r) ++ ['}'] : FString)
            = ('{' :: (w ++ '"' :: r)) ++ ['}'] := by simp
        rw [e1, escapeQuotes_append]
        simp [escapeQuotes, matchesPrefix, sameChar_refl]
    rw [if_pos hse, unwrapQuoted_quoted _ hbs]
    have := extractTop_object [] (w ++ '"' :: r) [] (by intro c hc; cases hc) (inert_jtext _ _ hb)
    simp only [List.nil_append] at this
    rw [this]
/-- C26. `SanitizeModelOutputToJsonObject` unwraps one level of quoted and escaped JSON: for
every well-formed JSON object text `J` without backslash and backtick, on the text `"`,
then `J` with a backslash put before each of its double quotes, then `"`, it returns exactly
`J` (the engine's whitespace test being false on the double quote). -/
theorem SanitizeModelOutputToJsonObject_unwraps (E : Engine) (J : FString)
    (hq : E.IsWhitespace '"' = false) (hJ : JObjectText J)
    (h : ∀ c ∈ J, c ≠ '\\' ∧ c ≠ '\x60') :
    SanitizeModelOutputToJsonObject E ('"' :: escapeQuotes J ++ ['"']) = J :=
  sanitizeModelOutput_quoted E J hq hJ h

set_option maxRecDepth 1000000 in
theorem SanitizeModelOutputToJsonObject_unwraps_witness :
    refEngine.IsWhitespace '"' = false ∧
    JObjectText (TEXT "\x7b\"a\":\"\x7d\x7b\"\x7d") ∧
    (∀ c ∈ TEXT "\x7b\"a\":\"\x7d\x7b\"\x7d", c ≠ '\\' ∧ c ≠ '\x60') ∧
    '"' :: escapeQuotes (TEXT "\x7b\"a\":\"\x7d\x7b\"\x7d") ++ ['"']
      = TEXT "\"\x7b\\\"a\\\":\\\"\x7d\x7b\\\"\x7d\"" ∧
    SanitizeModelOutputToJsonObject refEngine
        ('"' :: escapeQuotes (TEXT "\x7b\"a\":\"\x7d\x7b\"\x7d") ++ ['"'])
      = TEXT "\x7b\"a\":\"\x7d\x7b\"\x7d" :=
  ⟨(by decide), jobject_quoted_braces, (by decide), (by decide),
    SanitizeModelOutputToJsonObject_unwraps refEngine _ (by decide) jobject_quoted_braces
      (by decide)⟩
/-! ## The sampler picks among the `K` best -/

theorem cutLoop_pos {F : Type} [LinearOrderedField F] (w : List F) (top_p : F) (size : Nat)
    (hs : 1 ≤ size) :
    ∀ (l : List Nat) (j : Nat) (cum : F), 1 ≤ cutLoop w top_p size l j cum := by
  intro l
  induction l with
  | nil => intro j cum; simpa [cutLoop] using hs
  | cons id rest ih =>
    intro j cum
    unfold cutLoop
    split_ifs
    · omega
    · exact ih _ _

theorem getLastD_mem (l : List Nat) (h : l ≠ []) : l.getLastD 0 ∈ l := by
  cases l with
  | nil => exact absurd rfl h
  | cons a t =>
    rw [List.getLastD_cons]
    induction t generalizing a with
    | nil => simp
    | cons b t ih =>
      rw [List.getLastD_cons]
      exact List.mem_cons_of_mem _ (ih b (by simp))

theorem topPIdx_sub {F : Type} [LinearOrderedField F] (w : List F) (top_p : F)
    (idx : List Nat) (h : idx ≠ []) :
    topPIdx w top_p idx ≠ [] ∧ ∀ i ∈ topPIdx w top_p idx, i ∈ idx := by
  have hlen : 1 ≤ idx.length := by
    cases idx with
    | nil => exact absurd rfl h
    | cons a t => simp
  unfold topPIdx
  by_cases hp : top_p > 0 ∧ top_p < 1
  · rw [if_pos hp]
    by_cases hc : cutLoop w top_p idx.length idx 0 0 < idx.length
    · rw [if_pos hc]
      have h1 := cutLoop_pos w top_p idx.length hlen idx 0 0
      have e : resize (cutLoop w top_p idx.length idx 0 0) idx
          = idx.take (cutLoop w top_p idx.length idx 0 0) := by
        unfold resize
        rw [Nat.sub_eq_zero_of_le (Nat.le_of_lt hc)]
        simp
      rw [e]
      constructor
      · intro hn
        have := congrArg List.length hn
        rw [List.length_take] at this
        simp only [List.length_nil] at this
        omega
      · intro i hi
        exact List.mem_of_mem_take hi
    · rw [if_neg hc]; exact ⟨h, fun i hi => hi⟩
  · rw [if_neg hp]; exact ⟨h, fun i hi => hi⟩

theorem topK_pos (top_k : Int) (V : Nat) (hV : 0 < V) : 1 ≤ topK top_k V ∧ topK top_k V ≤ V := by
  unfold topK
  split_ifs with h
  · have : 1 ≤ top_k.toNat := by omega
    exact ⟨Nat.le_min.mpr ⟨this, hV⟩, Nat.min_le_right _ _⟩
  · exact ⟨hV, Nat.le_refl _⟩

theorem sample_mem_topK {F : Type} [LinearOrderedField F] (L : SamplerLib F) (hL : L.Reorders)
    (logits : List F) (hV : 0 < logits.length) (top_k : Int) (top_p temp r : F)
    (idx : List Nat) (hidx : idx.Perm (List.range logits.length)) :
    (sample_topk_topp_temp L logits top_k top_p temp r idx).1 ∈
      (L.nth_element (fun a b => decide (at0 (scaledLogits temp logits) a
          > at0 (scaledLogits temp logits) b)) (topK top_k logits.length) idx).take
        (topK top_k logits.length) := by
  obtain ⟨hK1, hK2⟩ := topK_pos top_k logits.length hV
  have hw : (if temp > 0 then logits.map (fun x => x * (1 / temp)) else logits)
      = scaledLogits temp logits := rfl
  simp only [sample_topk_topp_temp]
  rw [hw]
  generalize scaledLogits temp logits = w0
  have hlen : (L.nth_element (fun a b => decide (at0 w0 a > at0 w0 b))
      (topK top_k logits.length) idx).length = logits.length := by
    rw [(hL.1 _ _ _).length_eq, hidx.length_eq, List.length_range]
  have e1 : topKIdx L w0 top_k logits.length idx
      = (L.nth_element (fun a b => decide (at0 w0 a > at0 w0 b))
          (topK top_k logits.length) idx).take (topK top_k logits.length) := by
    unfold topKIdx resize
    rw [hlen, Nat.sub_eq_zero_of_le hK2]
    simp
  have hne : topKIdx L w0 top_k logits.length idx ≠ [] := by
    intro hn
    have := congrArg List.length hn
    rw [e1, List.length_take, hlen] at this
    simp only [List.length_nil] at this
    omega
  rw [← e1]
  by_cases hs : (expLoop L (maxLoop w0 (topKIdx L w0 top_k logits.length idx) (-L.FLT_MAX))
      (topKIdx L w0 top_k logits.length idx) w0 0).2 ≤ 0
  · rw [if_pos hs]
    cases hi : topKIdx L w0 top_k logits.length idx with
    | nil => exact absurd hi hne
    | cons a t => simp
  · rw [if_neg hs]
    simp only
    have hsort : ∀ (comp : Nat → Nat → Bool),
        L.sort comp (topKIdx L w0 top_k logits.length idx) ≠ [] ∧
        ∀ i ∈ L.sort comp (topKIdx L w0 top_k logits.length idx),
          i ∈ topKIdx L w0 top_k logits.length idx := by
      intro comp
      refine ⟨?_, fun i hi => (hL.2 comp _).mem_iff.mp hi⟩
      intro hn
      have := (hL.2 comp (topKIdx L w0 top_k logits.length idx)).length_eq
      rw [hn] at this
      exact hne (List.length_eq_zero.mp this.symm)
    have h3 := fun (w : List F) (comp : Nat → Nat → Bool) =>
      topPIdx_sub w top_p _ (hsort comp).1
    rcases drawLoop_mem _ r _ 0 _ with h | h
    · exact (hsort _).2 _ ((h3 _ _).2 _ h)
    · rw [h]
      exact (hsort _).2 _ ((h3 _ _).2 _ (getLastD_mem _ (h3 _ _).1))
theorem sample_rank {F : Type} [LinearOrderedField F] (L : SamplerLib F) (hL : L.Reorders)
    (hS : L.Selects) (logits : List F) (hV : 0 < logits.length) (top_k : Int)
    (top_p temp r : F) (idx : List Nat) (hidx : idx.Perm (List.range logits.length)) :
    ((List.range logits.length).filter (fun i =>
        decide (at0 (scaledLogits temp logits) i
          > at0 (scaledLogits temp logits)
              (sample_topk_topp_temp L logits top_k top_p temp r idx).1))).length
      ≤ topK top_k logits.length - 1 := by
  have hm := sample_mem_topK L hL logits hV top_k top_p temp r idx hidx
  generalize (sample_topk_topp_temp L logits top_k top_p temp r idx).1 = c at hm ⊢
  generalize scaledLogits temp logits = w0 at hm ⊢
  have hperm : (L.nth_element (fun a b => decide (at0 w0 a > at0 w0 b))
      (topK top_k logits.length) idx).Perm (List.range logits.length) :=
    (hL.1 _ _ _).trans hidx
  have hsel := hS w0 (topK top_k logits.length) idx c hm
  generalize L.nth_element (fun a b => decide (at0 w0 a > at0 w0 b))
      (topK top_k logits.length) idx = l at hm hperm hsel
  rw [← (hperm.filter _).length_eq]
  conv_lhs => rw [← List.take_append_drop (topK top_k logits.length) l]
  rw [List.filter_append]
  have hd : (l.drop (topK top_k logits.length)).filter
      (fun i => decide (at0 w0 i > at0 w0 c)) = [] := by
    rw [List.filter_eq_nil_iff]
    intro b hb
    simpa using hsel b hb
  have ht : ((l.take (topK top_k logits.length)).filter
      (fun i => decide (at0 w0 i > at0 w0 c))).length
      < (l.take (topK top_k logits.length)).length := by
    rw [List.length_filter_lt_length_iff_exists]
    exact ⟨c, hm, by simp⟩
  have hl : (l.take (topK top_k logits.length)).length ≤ topK top_k logits.length := by
    rw [List.length_take]; exact Nat.min_le_left _ _
  rw [hd, List.append_nil]
  omega

theorem pairwise_orderedInsert_ge (w : List ℚ) (a : Nat) :
    ∀ (l : List Nat), l.Pairwise (fun x y => at0 w x ≥ at0 w y) →
      (l.orderedInsert (fun x y => decide (at0 w x > at0 w y) = true) a).Pairwise
        (fun x y => at0 w x ≥ at0 w y) := by
  intro l
  induction l with
  | nil => intro _; simp
  | cons b t ih =>
    intro h
    rw [List.pairwise_cons] at h
    rw [List.orderedInsert]
    by_cases hab : decide (at0 w a > at0 w b) = true
    · rw [if_pos hab]
      have hab' : at0 w b < at0 w a := of_decide_eq_true hab
      rw [List.pairwise_cons]
      refine ⟨?_, List.pairwise_cons.mpr h⟩
      intro y hy
      rcases List.mem_cons.mp hy with rfl | hy
      · exact le_of_lt hab'
      · exact le_trans (h.1 y hy) (le_of_lt hab')
    · rw [if_neg hab]
      have hab' : at0 w a ≤ at0 w b := by
        have : ¬ (at0 w a > at0 w b) := fun hh => hab (decide_eq_true hh)
        exact not_lt.mp this
      rw [List.pairwise_cons]
      refine ⟨?_, ih h.2⟩
      intro y hy
      rcases (List.mem_orderedInsert _).mp hy with rfl | hy
      · exact hab'
      · exact h.1 y hy

theorem pairwise_insertionSort_ge (w : List ℚ) :
    ∀ (l : List Nat),
      (l.insertionSort (fun x y => decide (at0 w x > at0 w y) = true)).Pairwise
        (fun x y => at0 w x ≥ at0 w y) := by
  intro l
  induction l with
  | nil => simp
  | cons a t ih =>
    rw [List.insertionSort]
    exact pairwise_orderedInsert_ge w a _ ih

theorem refSamplerLib_selects : refSamplerLib.Selects := by
  intro w k l a ha b hb
  have hp := pairwise_insertionSort_ge w l
  have e : refSamplerLib.nth_element (fun a b => decide (at0 w a > at0 w b)) k l
      = l.insertionSort (fun x y => decide (at0 w x > at0 w y) = true) := rfl
  rw [e] at ha hb
  rw [← List.take_append_drop k (l.insertionSort _), List.pairwise_append] at hp
  exact not_lt.mpr (hp.2.2 a ha b hb)
/-- C25. For every logits vector of size `V > 0`, every `top_k`, `top_p`, `temp` and draw
`r`, with the index vector a permutation of `0..V-1` on entry and `K = min(top_k, V)` when
`top_k > 0`, `K = V` otherwise, the token that `sample_topk_topp_temp` returns is one of the
`K` highest-scoring ids: it is below `V`, and at most `K - 1` ids have a temperature-scaled
logit strictly greater than its own. -/
theorem sample_topk_among_best {F : Type} [LinearOrderedField F] (L : SamplerLib F)
    (hL : L.Reorders) (hS : L.Selects) (logits : List F) (hV : 0 < logits.length)
    (top_k : Int) (top_p temp r : F) (idx : List Nat)
    (hidx : idx.Perm (List.range logits.length)) :
    topK top_k logits.length
      = (if top_k > 0 then min top_k.toNat logits.length else logits.length) ∧
    (sample_topk_topp_temp L logits top_k top_p temp r idx).1 < logits.length ∧
    ((List.range logits.length).filter (fun i =>
        decide (at0 (scaledLogits temp logits) i
          > at0 (scaledLogits temp logits)
              (sample_topk_topp_temp L logits top_k top_p temp r idx).1))).length
      ≤ topK top_k logits.length - 1 := by
  refine ⟨rfl, ?_, sample_rank L hL hS logits hV top_k top_p temp r idx hidx⟩
  exact (sample_lt L hL logits hV top_k top_p temp r idx
    (fun i hi => List.mem_range.mp (hidx.mem_iff.mp hi))).1

/-- Witness of C25: three logits, `top_k = 2`, `top_p = 4/5`, `temp = 1/5`, draw `1/2`. -/
theorem sample_topk_among_best_witness :
    refSamplerLib.Reorders ∧ refSamplerLib.Selects ∧ 0 < ([1, 3, 2] : List ℚ).length ∧
    (List.range 3).Perm (List.range ([1, 3, 2] : List ℚ).length) ∧
    (topK 2 ([1, 3, 2] : List ℚ).length
      = (if (2 : Int) > 0 then min (2 : Int).toNat ([1, 3, 2] : List ℚ).length
          else ([1, 3, 2] : List ℚ).length) ∧
    (sample_topk_topp_temp refSamplerLib [1, 3, 2] 2 (4 / 5) (1 / 5) (1 / 2) (List.range 3)).1
      < ([1, 3, 2] : List ℚ).length ∧
    ((List.range ([1, 3, 2] : List ℚ).length).filter (fun i =>
        decide (at0 (scaledLogits (1 / 5) ([1, 3, 2] : List ℚ)) i
          > at0 (scaledLogits (1 / 5) ([1, 3, 2] : List ℚ))
              (sample_topk_topp_temp refSamplerLib [1, 3, 2] 2 (4 / 5) (1 / 5) (1 / 2)
                (List.range 3)).1))).length
      ≤ topK 2 ([1, 3, 2] : List ℚ).length - 1) :=
  ⟨refSamplerLib_reorders, refSamplerLib_selects, (by decide), List.Perm.refl _,
    sample_topk_among_best refSamplerLib refSamplerLib_reorders refSamplerLib_selects [1, 3, 2]
      (by decide) 2 (4 / 5) (1 / 5) (1 / 2) (List.range 3) (List.Perm.refl _)⟩
/-! ## The nucleus step does not renormalise -/

/-- C21, at the failing input. With the settings of the worker (`top_k = 20`, `top_p = 4/5`,
`temp = 1/5`) and logits whose probabilities are 1/2, 3/10, 1/5, the nucleus step keeps the
shortest prefix that reaches `top_p`, the ids 0 and 1, but leaves their probabilities 1/2 and
3/10 as they are: they sum to 4/5, not 1. At the draw `r = 3/5` the sampler returns id 1,
although `r` lies in the renormalised interval `[0, 5/8]` of id 0; the top-p step of the
sibling sampler (`apply_top_k_top_p`), which renormalises, gives the probabilities 5/8 and
3/8 and returns id 0 for the same draw. -/
theorem sample_nucleus_not_renormalized :
    (drawState refSamplerLib nucleusLogits 20 (4 / 5) (1 / 5) (List.range 3)).2 = [0, 1] ∧
    keptProbs refSamplerLib nucleusLogits 20 (4 / 5) (1 / 5) (List.range 3) = [1 / 2, 3 / 10] ∧
    (keptProbs refSamplerLib nucleusLogits 20 (4 / 5) (1 / 5) (List.range 3)).sum = 4 / 5 ∧
    (sample_topk_topp_temp refSamplerLib nucleusLogits 20 (4 / 5) (1 / 5) (3 / 5) (List.range 3)).1
      = 1 ∧
    (3 / 5 : ℚ) ≤ (1 / 2) / (4 / 5) ∧
    (truncateTopP nucleusCands (4 / 5)).map (fun c => (c.id, c.p)) = [(0, 5 / 8), (1, 3 / 8)] ∧
    sample_from (truncateTopP nucleusCands (4 / 5)) (3 / 5) = 0 := by
  decide!
end GameDirector
